import Mathlib

/-!
# A state container and its dispatch engine (`createStore.js`)

Shallow embedding of the store built by `createStore(reducer, preloadedState)`:

* the closure variables of `createStore` (`currentReducer`, `currentState`,
  `currentListeners`, `nextListeners`, `isDispatching`, and the `isSubscribed`
  flag of every closure returned by `subscribe`) form the record `Store`;
* listener arrays are JavaScript objects compared by reference
  (`nextListeners === currentListeners`), so they live in a heap of arrays and
  the two variables hold references into it; that a notification round is not
  disturbed by writes to the registry is a theorem (`run_frozen`), not a choice
  of the model;
* user code (reducers, listeners) is an interaction tree `Prog`: it may call the
  store API, receives the outcome of every call (a value, or the fault it
  caught), and finally returns or throws;
* `exec` runs the store with fuel, because a listener may dispatch again without
  bound; it returns the outcome, the store afterwards and the events observed
  (reducer calls, listener calls, API calls made by user code).

Layout: the definitions (values, arrays, user code, the store and its operations,
the engine, the big-step relation `Run`, the invariants `WF` and `Frozen`, a small
demo application); then the lemmas (`exec_run`: every terminating run is a
derivation; facts proved by induction on derivations; `exec_mono`); then one
theorem per claim. The `observable` adapter of the store is not modelled.
-/

namespace Redux

/-! ## Values -/

/-- Primitive JavaScript values (also the values held in the fields of a record). -/
inductive Prim where
  | undefined
  | null
  | bool (b : Bool)
  | num (n : Int)
  | str (s : String)
  deriving DecidableEq, Repr

/-- JavaScript values handled by the store: primitives, user functions (compared by
identity `id`), the `unsubscribe` closure created by the `k`-th call of `subscribe`,
and objects (`plain` records whether the prototype is `Object.prototype` or `null`). -/
inductive Value where
  | prim (p : Prim)
  | func (id : Nat)
  | unsub (k : Nat)
  | obj (plain : Bool) (fields : List (String × Prim))
  deriving DecidableEq, Repr

/-- The value `undefined`. -/
def undef : Value := .prim .undefined

/-- Faults. The source throws `Error` objects that differ in their message; the names are
the kinds the specification gives them. `typeError` is the engine's fault for calling a
value that is not a function, `user` is a fault thrown by user code. -/
inductive Fault where
  | invalidArgumentType
  | invalidActionShape
  | reentrantDispatch
  | reentrantAccess
  | reentrantConstruction
  | typeError
  | user (code : Nat)
  deriving DecidableEq, Repr

/-- How a call ends: normally with a value, or with a fault. -/
inductive Outcome where
  | ok (v : Value)
  | error (e : Fault)
  deriving DecidableEq, Repr

/-- `typeof v === 'function'`. -/
def typeofFunction : Value → Bool
  | .func _ => true
  | .unsub _ => true
  | _ => false

/-- `typeof v === 'undefined'`. -/
def typeofUndefined : Value → Bool
  | .prim .undefined => true
  | _ => false

/-- Property read `v[name]` on an object without inherited properties of that name;
a missing property reads as `undefined`. -/
def getProp (v : Value) (name : String) : Value :=
  match v with
  | .obj _ fields =>
    match fields.lookup name with
    | some p => .prim p
    | none => undef
  | _ => undef

/-- Modelled from the spec: `utils/isPlainObject` is not among the sources; the
specification describes it as the pure structural predicate "is this a plain data
record". -/
def isPlainObject : Value → Bool
  | .obj plain _ => plain
  | _ => false

/-- The two checks at the head of `dispatch` (lines 187-199) both pass. -/
def validAction (action : Value) : Bool :=
  isPlainObject action && !typeofUndefined (getProp action "type")

/-! ## Arrays -/

/-- `xs.indexOf(x)` searched from position `i` on: the index of the first occurrence,
`-1` when there is none. -/
def indexOfFrom (x : Value) : List Value → Nat → Int
  | [], _ => -1
  | y :: ys, i => if y = x then (i : Int) else indexOfFrom x ys (i + 1)

/-- `xs.indexOf(x)`. -/
def indexOf (xs : List Value) (x : Value) : Int := indexOfFrom x xs 0

/-- `xs.splice(start, deleteCount)`: the array that remains. A negative `start` counts
from the end (`max(len + start, 0)`), a large one is clamped to the length. -/
def splice (xs : List Value) (start : Int) (deleteCount : Nat) : List Value :=
  let s : Nat := if start < 0 then ((xs.length : Int) + start).toNat else min start.toNat xs.length
  xs.take s ++ xs.drop (s + deleteCount)

/-! ## User code -/

/-- Calls of the store API. `unsubscribe k` calls the closure returned by the `k`-th
successful `subscribe`. -/
inductive Call where
  | getState
  | dispatch (action : Value)
  | subscribe (listener : Value)
  | unsubscribe (k : Nat)
  | replaceReducer (nextReducer : Value)
  deriving DecidableEq, Repr

/-- User code as an interaction tree: return, throw, or call the store and continue with
the outcome of the call (a continuation that rethrows models an uncaught fault). -/
inductive Prog where
  | ret (v : Value)
  | throw (e : Fault)
  | call (c : Call) (k : Outcome → Prog)

/-- What the store is given from outside: the bodies of the user functions, and the two
private action types of `utils/actionTypes` (not among the sources; generated strings). -/
structure Env where
  fn : Nat → List Value → Prog
  INIT : String
  REPLACE : String

/-- The call `f(...args)`. -/
def callFn (env : Env) (f : Value) (args : List Value) : Prog :=
  match f with
  | .func id => env.fn id args
  | .unsub k => .call (.unsubscribe k) (fun r =>
      match r with
      | .ok v => .ret v
      | .error e => .throw e)
  | _ => .throw .typeError

/-! ## The store -/

/-- The closure variables of one `createStore` call. `heap` holds the listener arrays,
`currentListeners` and `nextListeners` are references into it; `subs[k]` is the pair
`(listener, isSubscribed)` captured by the closure of the `k`-th `subscribe`. -/
structure Store where
  currentReducer : Value
  currentState : Value
  heap : List (List Value)
  currentListeners : Nat
  nextListeners : Nat
  isDispatching : Bool
  subs : List (Value × Bool)
  deriving DecidableEq, Repr

/-- The array a reference points to. -/
def Store.array (st : Store) (ref : Nat) : List Value := st.heap.getD ref []

/-- The pending registry: the contents of `nextListeners`. -/
def Store.pending (st : Store) : List Value := st.array st.nextListeners

/-- Lines 56-63: the variables as `createStore` initialises them. -/
def Store.init (reducer preloadedState : Value) : Store :=
  { currentReducer := reducer
    currentState := preloadedState
    heap := [[]]
    currentListeners := 0
    nextListeners := 0
    isDispatching := false
    subs := [] }

/-- Lines 66-71. `slice()` allocates a new array. -/
def ensureCanMutateNextListeners (st : Store) : Store :=
  if st.nextListeners = st.currentListeners then
    { st with heap := st.heap ++ [st.array st.currentListeners], nextListeners := st.heap.length }
  else st

/-- Lines 79-89. -/
def getState (st : Store) : Outcome × Store :=
  if st.isDispatching then (.error .reentrantAccess, st)
  else (.ok st.currentState, st)

/-- In-place update of the array `nextListeners` refers to. -/
def Store.setNext (st : Store) (xs : List Value) : Store :=
  { st with heap := st.heap.set st.nextListeners xs }

/-- Lines 115-135: `subscribe(listener)` up to the creation of the closure. -/
def subscribe (listener : Value) (st : Store) : Outcome × Store :=
  if !typeofFunction listener then (.error .invalidArgumentType, st)
  else if st.isDispatching then (.error .reentrantAccess, st)
  else
    let st1 := ensureCanMutateNextListeners st
    let st2 := st1.setNext (st1.pending ++ [listener])
    (.ok (.unsub st2.subs.length), { st2 with subs := st2.subs ++ [(listener, true)] })

/-- Lines 136-155: the closure returned by the `k`-th `subscribe`. Calling a closure that
was never created is a `typeError` of the calling code. -/
def unsubscribe (k : Nat) (st : Store) : Outcome × Store :=
  match st.subs[k]? with
  | none => (.error .typeError, st)
  | some (listener, isSubscribed) =>
    if !isSubscribed then (.ok undef, st)
    else if st.isDispatching then (.error .reentrantAccess, st)
    else
      let st1 := { st with subs := st.subs.set k (listener, false) }
      let st2 := ensureCanMutateNextListeners st1
      let index := indexOf st2.pending listener
      (.ok undef, st2.setNext (splice st2.pending index 1))

/-! ## Execution -/

/-- Who runs a piece of user code. -/
inductive Caller where
  | reducer
  | listener
  deriving DecidableEq, Repr

/-- Observable events. `depth` is the nesting depth of the `dispatch` call concerned:
a dispatch at depth `d` reports its reducer call and the listeners of its round at depth
`d`; the API calls made by that reducer and those listeners are reported at depth `d + 1`,
when they return. A listener event carries the state `getState()` would read when the
listener is entered. -/
inductive Event where
  | reducer (depth : Nat) (f state action : Value)
  | listener (depth : Nat) (index : Nat) (f state : Value)
  | api (depth : Nat) (who : Caller) (c : Call) (r : Outcome)
  deriving DecidableEq, Repr

/-- What the engine can be asked to run. -/
inductive Task where
  | api (c : Call)
  | run (who : Caller) (p : Prog)
  | notify (listeners : Nat) (i : Nat)

/-- Result of a run: `none` when the fuel ran out. -/
abbrev Result := Option (Outcome × Store × List Event)

/-- The engine one level down, at a given depth. -/
abbrev Rec := Nat → Task → Store → Result

/-- User code: each API call goes to the store, the outcome goes to the continuation. -/
def runProg (rec : Rec) (d : Nat) (who : Caller) (p : Prog) (st : Store) : Result :=
  match p with
  | .ret v => some (.ok v, st, [])
  | .throw e => some (.error e, st, [])
  | .call c k =>
    match rec d (.api c) st with
    | none => none
    | some (r, st1, ev1) =>
      match rec d (.run who (k r)) st1 with
      | none => none
      | some (r2, st2, ev2) => some (r2, st2, ev1 ++ .api d who c r :: ev2)

/-- Lines 221-226: the loop `for (let i = 0; i < listeners.length; i++) listeners[i]()`
from index `i` on; `listeners` is the local reference taken at line 219. -/
def notifyFrom (env : Env) (rec : Rec) (d : Nat) (listeners i : Nat) (st : Store) : Result :=
  if i < (st.array listeners).length then
    let listener := (st.array listeners).getD i undef
    match rec (d + 1) (.run .listener (callFn env listener [])) st with
    | none => none
    | some (.error e, st1, ev1) =>
      some (.error e, st1, .listener d i listener st.currentState :: ev1)
    | some (.ok _, st1, ev1) =>
      match rec d (.notify listeners (i + 1)) st1 with
      | none => none
      | some (r, st2, ev2) =>
        some (r, st2, .listener d i listener st.currentState :: ev1 ++ ev2)
  else some (.ok undef, st, [])

/-- Lines 185-230. -/
def dispatch (env : Env) (rec : Rec) (d : Nat) (action : Value) (st : Store) : Result :=
  if !isPlainObject action then some (.error .invalidActionShape, st, [])
  else if typeofUndefined (getProp action "type") then some (.error .invalidActionShape, st, [])
  else if st.isDispatching then some (.error .reentrantDispatch, st, [])
  else
    match rec (d + 1)
        (.run .reducer (callFn env st.currentReducer [st.currentState, action]))
        { st with isDispatching := true } with
    | none => none
    | some (.error e, st2, ev1) =>
      some (.error e, { st2 with isDispatching := false },
        .reducer d st.currentReducer st.currentState action :: ev1)
    | some (.ok s, st2, ev1) =>
      let st3 := { st2 with currentState := s, isDispatching := false }
      let st4 := { st3 with currentListeners := st3.nextListeners }
      match rec d (.notify st4.currentListeners 0) st4 with
      | none => none
      | some (.error e, st5, ev2) =>
        some (.error e, st5, .reducer d st.currentReducer st.currentState action :: ev1 ++ ev2)
      | some (.ok _, st5, ev2) =>
        some (.ok action, st5, .reducer d st.currentReducer st.currentState action :: ev1 ++ ev2)

/-- Lines 244-252. -/
def replaceReducer (env : Env) (rec : Rec) (d : Nat) (nextReducer : Value) (st : Store) : Result :=
  if !typeofFunction nextReducer then some (.error .invalidArgumentType, st, [])
  else
    match rec d (.api (.dispatch (.obj true [("type", .str env.REPLACE)])))
        { st with currentReducer := nextReducer } with
    | none => none
    | some (.error e, st1, ev) => some (.error e, st1, ev)
    | some (.ok _, st1, ev) => some (.ok undef, st1, ev)

/-- One layer of the engine over the engine one level down. -/
def step (env : Env) (rec : Rec) (d : Nat) (t : Task) (st : Store) : Result :=
  match t with
  | .api .getState => some ((getState st).1, (getState st).2, [])
  | .api (.subscribe l) => some ((subscribe l st).1, (subscribe l st).2, [])
  | .api (.unsubscribe k) => some ((unsubscribe k st).1, (unsubscribe k st).2, [])
  | .api (.dispatch a) => dispatch env rec d a st
  | .api (.replaceReducer r) => replaceReducer env rec d r st
  | .run who p => runProg rec d who p st
  | .notify ls i => notifyFrom env rec d ls i st

/-- The engine with fuel. -/
def exec (env : Env) : Nat → Rec
  | 0 => fun _ _ _ => none
  | n + 1 => step env (exec env n)

/-! ## Big-step view of the engine

`Run env d t st r st' ev`: task `t`, started at depth `d` in store `st`, ends with outcome
`r` in store `st'` after the events `ev`. Every terminating run of `exec` is a derivation
(`exec_run`), so properties of all runs are proved by induction on derivations. -/

/-- The outcome of a call that returns `v` when the inner call returns normally. -/
def Outcome.returning (r : Outcome) (v : Value) : Outcome :=
  match r with
  | .ok _ => .ok v
  | .error e => .error e

/-- The store after line 219, once the reducer has returned `s` in store `st2`. -/
def commit (st2 : Store) (s : Value) : Store :=
  { st2 with currentState := s, isDispatching := false, currentListeners := st2.nextListeners }

/-- The private action of `replaceReducer`. -/
def replaceAction (env : Env) : Value := .obj true [("type", .str env.REPLACE)]

inductive Run (env : Env) : Nat → Task → Store → Outcome → Store → List Event → Prop where
  | getState (d st) : Run env d (.api .getState) st (getState st).1 (getState st).2 []
  | subscribe (d l st) : Run env d (.api (.subscribe l)) st (subscribe l st).1 (subscribe l st).2 []
  | unsubscribe (d k st) :
      Run env d (.api (.unsubscribe k)) st (unsubscribe k st).1 (unsubscribe k st).2 []
  | dispatchInvalid (d a st) : validAction a = false →
      Run env d (.api (.dispatch a)) st (.error .invalidActionShape) st []
  | dispatchReentrant (d a st) : validAction a = true → st.isDispatching = true →
      Run env d (.api (.dispatch a)) st (.error .reentrantDispatch) st []
  | dispatchFault (d a st e st2 ev1) : validAction a = true → st.isDispatching = false →
      Run env (d + 1) (.run .reducer (callFn env st.currentReducer [st.currentState, a]))
        { st with isDispatching := true } (.error e) st2 ev1 →
      Run env d (.api (.dispatch a)) st (.error e) { st2 with isDispatching := false }
        (.reducer d st.currentReducer st.currentState a :: ev1)
  | dispatchCommit (d a st s st2 ev1 r st5 ev2) : validAction a = true →
      st.isDispatching = false →
      Run env (d + 1) (.run .reducer (callFn env st.currentReducer [st.currentState, a]))
        { st with isDispatching := true } (.ok s) st2 ev1 →
      Run env d (.notify st2.nextListeners 0) (commit st2 s) r st5 ev2 →
      Run env d (.api (.dispatch a)) st (r.returning a) st5
        (.reducer d st.currentReducer st.currentState a :: ev1 ++ ev2)
  | replaceInvalid (d f st) : typeofFunction f = false →
      Run env d (.api (.replaceReducer f)) st (.error .invalidArgumentType) st []
  | replace (d f st r st1 ev) : typeofFunction f = true →
      Run env d (.api (.dispatch (replaceAction env))) { st with currentReducer := f } r st1 ev →
      Run env d (.api (.replaceReducer f)) st (r.returning undef) st1 ev
  | ret (d who v st) : Run env d (.run who (.ret v)) st (.ok v) st []
  | throw (d who e st) : Run env d (.run who (.throw e)) st (.error e) st []
  | call (d who c k st r st1 ev1 r2 st2 ev2) :
      Run env d (.api c) st r st1 ev1 →
      Run env d (.run who (k r)) st1 r2 st2 ev2 →
      Run env d (.run who (.call c k)) st r2 st2 (ev1 ++ .api d who c r :: ev2)
  | notifyDone (d ls i st) : ¬ i < (st.array ls).length →
      Run env d (.notify ls i) st (.ok undef) st []
  | notifyFault (d ls i st e st1 ev1) : i < (st.array ls).length →
      Run env (d + 1) (.run .listener (callFn env ((st.array ls).getD i undef) [])) st
        (.error e) st1 ev1 →
      Run env d (.notify ls i) st (.error e) st1
        (.listener d i ((st.array ls).getD i undef) st.currentState :: ev1)
  | notifyNext (d ls i st v st1 ev1 r st2 ev2) : i < (st.array ls).length →
      Run env (d + 1) (.run .listener (callFn env ((st.array ls).getD i undef) [])) st
        (.ok v) st1 ev1 →
      Run env d (.notify ls (i + 1)) st1 r st2 ev2 →
      Run env d (.notify ls i) st r st2
        (.listener d i ((st.array ls).getD i undef) st.currentState :: ev1 ++ ev2)

/-! ## Events of a run -/

/-- Depth tag of an event. -/
def Event.depth : Event → Nat
  | .reducer d _ _ _ => d
  | .listener d _ _ _ => d
  | .api d _ _ _ => d

/-- The event reports a reducer call. -/
def Event.isReducer : Event → Bool
  | .reducer _ _ _ _ => true
  | _ => false

/-- The reducer calls reported at depth `d`: function, state and action of each. -/
def reducerCalls (d : Nat) (ev : List Event) : List (Value × Value × Value) :=
  ev.filterMap (fun e =>
    match e with
    | .reducer d' f s a => if d' = d then some (f, s, a) else none
    | _ => none)

/-- The listeners reported at depth `d`, in the order of their invocation. -/
def listenerCalls (d : Nat) (ev : List Event) : List Value :=
  ev.filterMap (fun e =>
    match e with
    | .listener d' _ f _ => if d' = d then some f else none
    | _ => none)

/-- The states read by the listeners reported at depth `d`. -/
def listenerStates (d : Nat) (ev : List Event) : List Value :=
  ev.filterMap (fun e =>
    match e with
    | .listener d' _ _ s => if d' = d then some s else none
    | _ => none)

/-! ## A small application, used to run the engine on concrete inputs -/

/-- The action `{type: 'INCREMENT'}`. -/
def incr : Value := .obj true [("type", .str "INCREMENT")]

/-- The action `{type: 'BOOM'}`, on which the demo reducer throws. -/
def boom : Value := .obj true [("type", .str "BOOM")]

/-- The action `{type: 'NESTED'}`, on which the demo reducer dispatches. -/
def nested : Value := .obj true [("type", .str "NESTED")]

/-- The number `n` as a state tree. -/
def num (n : Int) : Value := .prim (.num n)

/-- Body of the demo reducer: `(state = 0, action) => ...` counts `INCREMENT` actions,
throws on `BOOM`, and on `NESTED` calls `dispatch` (then `getState` and the closure of
subscription `0`) from inside, catching the faults, before returning the state. -/
def counterBody (s a : Value) : Prog :=
  let n : Int := match s with
    | .prim (.num n) => n
    | _ => 0
  if getProp a "type" = .prim (.str "INCREMENT") then .ret (num (n + 1))
  else if getProp a "type" = .prim (.str "BOOM") then .throw (.user 1)
  else if getProp a "type" = .prim (.str "NESTED") then
    .call (.dispatch incr) (fun _ =>
      .call .getState (fun _ =>
        .call (.unsubscribe 0) (fun _ => .ret (num n))))
  else .ret (num n)

/-- The demo functions: `0` the reducer, `1` a listener that reads the state, `2` a
listener that subscribes listener `1`, `3` a listener that calls the closure of
subscription `1`, `4` a listener that dispatches `INCREMENT` while the state is `1`,
`5` a listener that throws. Any other function returns `undefined`. -/
def demoEnv : Env where
  fn := fun id args =>
    match id, args with
    | 0, [s, a] => counterBody s a
    | 1, _ => .call .getState (fun _ => .ret undef)
    | 2, _ => .call (.subscribe (.func 1)) (fun _ => .ret undef)
    | 3, _ => .call (.unsubscribe 1) (fun _ => .ret undef)
    | 4, _ => .call .getState (fun r =>
        if r = .ok (num 1) then .call (.dispatch incr) (fun _ => .ret undef) else .ret undef)
    | 5, _ => .throw (.user 2)
    | _, _ => .ret undef
  INIT := "@@redux/INIT"
  REPLACE := "@@redux/REPLACE"

/-- The store of the demo reducer after `subscribe` has been called with each of `ls`. -/
def demoStore (ls : List Value) : Store :=
  ls.foldl (fun st l => (subscribe l st).2) (Store.init (.func 0) (num 0))

/-- The event reports a listener call. -/
def Event.isListener : Event → Bool
  | .listener _ _ _ _ => true
  | _ => false

/-- The start of a task agrees with the in-progress flag: reducer code runs with the flag
set (line 208), listeners and their round with the flag released (line 213). -/
def Consistent (t : Task) (st : Store) : Prop :=
  match t with
  | .api _ => True
  | .run .reducer _ => st.isDispatching = true
  | .run .listener _ => st.isDispatching = false
  | .notify _ _ => st.isDispatching = false

/-- What an API call made by reducer code gets (an `unsubscribe` closure checks its own
`isSubscribed` before the flag, and a closure that was never created cannot be called),
and what `getState` called by listener code gets. -/
def ApiOutcomeOk (e : Event) : Prop :=
  match e with
  | .api _ .reducer .getState out => out = .error .reentrantAccess
  | .api _ .reducer (.dispatch b) out =>
      out = if validAction b then .error .reentrantDispatch else .error .invalidActionShape
  | .api _ .reducer (.subscribe l) out =>
      out = if typeofFunction l then .error .reentrantAccess else .error .invalidArgumentType
  | .api _ .reducer (.unsubscribe _) out =>
      out = .error .reentrantAccess ∨ out = .ok undef ∨ out = .error .typeError
  | .api _ .listener .getState out => ∃ v, out = .ok v
  | _ => True

/-! ## Invariants of the listener registry -/

/-- The listeners of the subscriptions that are still live, in the order in which the
subscriptions were registered. -/
def liveOf (subs : List (Value × Bool)) : List Value :=
  (subs.filter (fun p => p.2)).map (fun p => p.1)

/-- The live subscriptions of a store, in registration order. -/
def Store.live (st : Store) : List Value := liveOf st.subs

/-- Invariant of every store built by `createStore`: both array references are allocated;
the pending registry holds one entry per live subscription; and as long as no function
has been subscribed twice, these entries are in registration order. -/
def WF (st : Store) : Prop :=
  st.currentListeners < st.heap.length ∧ st.nextListeners < st.heap.length ∧
    st.pending.Perm st.live ∧ ((st.subs.map (fun p => p.1)).Nodup → st.pending = st.live)

/-- The array behind `ref` can no longer be written: it is allocated, and if it is the
pending array it is also the current one, so that `ensureCanMutateNextListeners` copies it
before any write. -/
def Frozen (ref : Nat) (st : Store) : Prop :=
  ref < st.heap.length ∧ (st.nextListeners = ref → st.currentListeners = ref)

/-- Closures are never removed, keep their listener, and once called stay called. -/
def SubsGrow (s s' : List (Value × Bool)) : Prop :=
  s.length ≤ s'.length ∧
    ∀ (k : Nat) (l : Value) (b : Bool), s[k]? = some (l, b) →
      ∃ b', s'[k]? = some (l, b') ∧ (b = false → b' = false)

/-- A registration call made between dispatches. -/
inductive RegCall where
  | subscribe (l : Value)
  | unsubscribe (k : Nat)
  deriving DecidableEq, Repr

/-- The store after a sequence of registration calls. -/
def regCalls (cs : List RegCall) (st : Store) : Store :=
  cs.foldl (fun st c =>
    match c with
    | .subscribe l => (subscribe l st).2
    | .unsubscribe k => (unsubscribe k st).2) st

/-! ## The last commit of a dispatch call -/

/-- The event is not a `dispatch` or `replaceReducer` call of listener code that failed:
every dispatch a listener made returned normally. -/
def NestedOk (e : Event) : Prop :=
  match e with
  | .api _ .listener (.dispatch _) out => ∃ v, out = .ok v
  | .api _ .listener (.replaceReducer _) out => ∃ v, out = .ok v
  | _ => True

/-- After the last reducer call reported in `ev`, listener `f` has been entered in state `s`. -/
def Settled (f s : Value) (ev : List Event) : Prop :=
  ∃ pre post, ev = pre ++ post ∧ (∀ e ∈ post, e.isReducer = false) ∧
    ∃ d i, Event.listener d i f s ∈ post

/-- The event reports a `replaceReducer` call made by user code. -/
def Event.isReplace : Event → Bool
  | .api _ _ (.replaceReducer _) _ => true
  | _ => false

/-- The action `{type: 'SWAP'}`, on which the reducer of `swapEnv` calls `replaceReducer`. -/
def swap : Value := .obj true [("type", .str "SWAP")]

/-- An application whose reducer `0` calls `replaceReducer(f9)` from inside, catching the
fault, when it handles `SWAP`, and returns the state unchanged; every other function
returns its first argument (`undefined` when there is none). -/
def swapEnv : Env where
  fn := fun id args =>
    match id, args with
    | 0, [s, a] =>
      if getProp a "type" = .prim (.str "SWAP") then
        .call (.replaceReducer (.func 9)) (fun _ => .ret s)
      else .ret s
    | _, s :: _ => .ret s
    | _, [] => .ret undef
  INIT := "@@redux/INIT"
  REPLACE := "@@redux/REPLACE"

/-! ## Middleware (`applyMiddleware.js`) -/

/-- A dispatch function, as a term: the guard of line 29, the raw `dispatch` of the base
store, or the handler that layer `i` returned when it was given `next`. -/
inductive DFn where
  | guard
  | raw
  | layer (i : Nat) (next : DFn)
  deriving DecidableEq, Repr

/-- What a constructor returns: the variables of the store, the function in the variable
`dispatch` of `applyMiddleware` (the cell that `middlewareAPI.dispatch` calls through), and
the `dispatch` field of the returned object. A plain store has no cell; the field then
holds its own dispatch. One cell is modelled: a base constructor is expected to return a
store whose dispatch does not read it. -/
structure Container where
  store : Store
  cell : DFn
  dispatch : DFn
  deriving DecidableEq, Repr

/-- The state middleware code runs in: the base store and the cell. -/
structure MState where
  store : Store
  cell : DFn
  deriving DecidableEq, Repr

/-- What middleware code can call: the two capabilities of `middlewareAPI`, its `next`, and
a log it writes to. -/
inductive MCall where
  | getState
  | dispatch (a : Value)
  | next (a : Value)
  | log (tag : Value)
  deriving DecidableEq, Repr

/-- Middleware code as an interaction tree. -/
inductive MProg where
  | ret (v : Value)
  | throw (e : Fault)
  | call (c : MCall) (k : Outcome → MProg)

/-- A middleware `api => next => action => ...` in its three stages: the body of the factory
up to the return of the layer, the body of the layer up to the return of the handler, and
the body of the handler. The functions returned by the first two stages are not values of
the model; a stage that returns normally returns its function. -/
structure Middleware where
  factory : MProg
  wire : MProg
  handle : Value → MProg

/-- Events at the level of containers: the raw dispatch of the base store was called, with
its outcome and what it reported; middleware `i` made a call that returned `r`. -/
inductive CEvent where
  | raw (a : Value) (r : Outcome) (ev : List Event)
  | call (i : Nat) (c : MCall) (r : Outcome)
  deriving DecidableEq, Repr

/-- What the middleware engine can be asked to run: the call `f(a)` of a dispatch function,
or code of middleware `i` (with its `next`, once it has one). -/
inductive MTask where
  | call (f : DFn) (a : Value)
  | run (i : Nat) (next : Option DFn) (p : MProg)

/-- Result of a run of middleware code. -/
abbrev MResult := Option (Outcome × MState × List CEvent)

/-- The middleware engine with fuel. `middlewareAPI.dispatch` is `(...args) =>
dispatch(...args)`: it calls whatever the cell holds when it is called (line 40);
`middlewareAPI.getState` is the `getState` of the base store (line 37). -/
def mexec (env : Env) (mws : List Middleware) : Nat → MTask → MState → MResult
  | 0, _, _ => none
  | _ + 1, .call .guard _, st => some (.error .reentrantConstruction, st, [])
  | n + 1, .call .raw a, st =>
    match exec env n 0 (.api (.dispatch a)) st.store with
    | none => none
    | some (r, store1, ev) => some (r, { st with store := store1 }, [.raw a r ev])
  | n + 1, .call (.layer i nxt) a, st =>
    match mws[i]? with
    | none => some (.error .typeError, st, [])
    | some m => mexec env mws n (.run i (some nxt) (m.handle a)) st
  | _ + 1, .run _ _ (.ret v), st => some (.ok v, st, [])
  | _ + 1, .run _ _ (.throw e), st => some (.error e, st, [])
  | n + 1, .run i nxt (.call c k), st =>
    let called : MResult :=
      match c with
      | .getState => some ((getState st.store).1, st, [])
      | .log _ => some (.ok undef, st, [])
      | .dispatch a => mexec env mws n (.call st.cell a) st
      | .next a =>
        match nxt with
        | none => some (.error .typeError, st, [])
        | some f => mexec env mws n (.call f a) st
    match called with
    | none => none
    | some (r, st1, ev1) =>
      match mexec env mws n (.run i nxt (k r)) st1 with
      | none => none
      | some (r2, st2, ev2) => some (r2, st2, ev1 ++ .call i c r :: ev2)

/-- How the call of a function that returns a dispatch function ends. -/
inductive Wired where
  | ok (f : DFn)
  | error (e : Fault)
  deriving DecidableEq, Repr

/-- A function from dispatch functions to dispatch functions, with its effects. -/
abbrev Wire := DFn → MState → Option (Wired × MState × List CEvent)

/-- Modelled from the spec: `compose.js` is not among the sources. The specification (4.2)
defines `compose(f1, ..., fn)` as the function `x => f1(f2(...fn(x)...))`, the identity for
an empty sequence and `f1` itself for a single function; with call-by-value the innermost
call `fn(x)` is made first. -/
def compose : List Wire → Wire
  | [], x, st => some (.ok x, st, [])
  | f :: fs, x, st =>
    match compose fs x st with
    | none => none
    | some (.error e, st1, ev1) => some (.error e, st1, ev1)
    | some (.ok y, st1, ev1) =>
      match f y st1 with
      | none => none
      | some (r, st2, ev2) => some (r, st2, ev1 ++ ev2)

/-- The layer `Li` returned by the factory of middleware `i`: given `next` it runs its body
and returns the handler. -/
def layerOf (env : Env) (mws : List Middleware) (fuel : Nat) (i : Nat) : Wire :=
  fun next st =>
    match mws[i]? with
    | none => some (.error .typeError, st, [])
    | some m =>
      match mexec env mws fuel (.run i (some next) m.wire) st with
      | none => none
      | some (.error e, st1, ev) => some (.error e, st1, ev)
      | some (.ok _, st1, ev) => some (.ok (.layer i next), st1, ev)

/-- Line 44, `middlewares.map(middleware => middleware(middlewareAPI))`, from middleware
`i` on: the factories are called in order, the first fault ends the construction. -/
def runFactories (env : Env) (mws : List Middleware) (fuel : Nat) :
    Nat → List Middleware → MState → MResult
  | _, [], st => some (.ok undef, st, [])
  | i, m :: ms, st =>
    match mexec env mws fuel (.run i none m.factory) st with
    | none => none
    | some (.error e, st1, ev1) => some (.error e, st1, ev1)
    | some (.ok _, st1, ev1) =>
      match runFactories env mws fuel (i + 1) ms st1 with
      | none => none
      | some (r, st2, ev2) => some (r, st2, ev1 ++ ev2)

/-- How a constructor call ends: with a container, or with a fault. -/
inductive Built where
  | ok (c : Container)
  | error (e : Fault)
  deriving DecidableEq, Repr

/-- Result of a constructor call: `none` when the fuel ran out. -/
abbrev CResult := Option (Built × List CEvent)

/-- A store constructor `(reducer, preloadedState, enhancer) => store`. -/
abbrev Constructor := Value → Value → Value → CResult

/-- An enhancer, applied as `enhancer(createStore)(reducer, preloadedState)` with fuel. -/
abbrev Enhancer := Nat → Constructor → Value → Value → CResult

/-- Lines 21-58: `applyMiddleware(...middlewares)` as an enhancer. -/
def applyMiddleware (env : Env) (mws : List Middleware) : Enhancer :=
  fun fuel createStore reducer preloadedState =>
    match createStore reducer preloadedState undef with
    | none => none
    | some (.error e, ev0) => some (.error e, ev0)
    | some (.ok store, ev0) =>
      let st0 : MState := { store := store.store, cell := .guard }
      match runFactories env mws fuel 0 mws st0 with
      | none => none
      | some (.error e, _, ev1) => some (.error e, ev0 ++ ev1)
      | some (.ok _, st1, ev1) =>
        match compose ((List.range mws.length).map (layerOf env mws fuel)) store.dispatch st1 with
        | none => none
        | some (.error e, _, ev2) => some (.error e, ev0 ++ ev1 ++ ev2)
        | some (.ok final, st2, ev2) =>
          some (.ok { store := st2.store, cell := final, dispatch := final }, ev0 ++ ev1 ++ ev2)

/-! ## The constructor (`createStore`, lines 34-53 and 297-309) -/

/-- The private action dispatched once by `createStore`. -/
def initAction (env : Env) : Value := .obj true [("type", .str env.INIT)]

/-- The call `enhancer(createStore)(reducer, preloadedState)`. The enhancers are user
functions, given by their meaning `enh id`; an `unsubscribe` closure used as enhancer
returns `undefined`, which cannot be called (its effect on its own store is outside the
container under construction). -/
def applyEnhancer (enh : Nat → Enhancer) (enhancer : Value) (fuel : Nat)
    (createStore : Constructor) (reducer preloadedState : Value) : CResult :=
  match enhancer with
  | .func id => enh id fuel createStore reducer preloadedState
  | _ => some (.error .typeError, [])

/-- Lines 34-63 and 297-309: `createStore(reducer, preloadedState, enhancer)`. -/
def createStore (env : Env) (enh : Nat → Enhancer) : Nat → Constructor
  | 0 => fun _ _ _ => none
  | n + 1 => fun reducer preloadedState enhancer =>
    let shuffle : Bool := typeofFunction preloadedState && typeofUndefined enhancer
    let enhancer1 := if shuffle then preloadedState else enhancer
    let preloadedState1 := if shuffle then undef else preloadedState
    if !typeofUndefined enhancer1 then
      if !typeofFunction enhancer1 then some (.error .invalidArgumentType, [])
      else applyEnhancer enh enhancer1 n (createStore env enh n) reducer preloadedState1
    else if !typeofFunction reducer then some (.error .invalidArgumentType, [])
    else
      match exec env n 0 (.api (.dispatch (initAction env))) (Store.init reducer preloadedState1) with
      | none => none
      | some (.error e, _, ev) => some (.error e, [.raw (initAction env) (.error e) ev])
      | some (.ok v, st, ev) =>
        some (.ok { store := st, cell := .raw, dispatch := .raw },
          [.raw (initAction env) (.ok v) ev])

/-! ## Demo middlewares and enhancers -/

/-- A string as a value. -/
def str (s : String) : Value := .prim (.str s)

/-- Middleware code that passes on the outcome of a call: returns the value, or rethrows
the fault it did not catch. -/
def MProg.pass (r : Outcome) : MProg :=
  match r with
  | .ok v => .ret v
  | .error e => .throw e

/-- A middleware that records `before`, forwards the action to `next`, then records `after`
and returns what `next` returned (a fault of `next` is not caught). -/
def logger (before after : Value) : Middleware where
  factory := .ret undef
  wire := .ret undef
  handle := fun a =>
    .call (.log before) (fun _ =>
      .call (.next a) (fun r =>
        match r with
        | .ok v => .call (.log after) (fun _ => .ret v)
        | .error e => .throw e))

/-- A middleware whose factory calls `dispatch(a)` of its capabilities at once and does not
catch the fault. -/
def eager (a : Value) : Middleware where
  factory := .call (.dispatch a) MProg.pass
  wire := .ret undef
  handle := fun b => .call (.next b) MProg.pass

/-- A middleware whose handler sends the action `again` once more through
`middlewareAPI.dispatch` when it sees the action `trigger`, and forwards everything to
`next`. -/
def redispatch (trigger again : Value) : Middleware where
  factory := .ret undef
  wire := .ret undef
  handle := fun a =>
    if a = trigger then
      .call (.dispatch again) (fun _ => .call (.next a) MProg.pass)
    else .call (.next a) MProg.pass

/-- The demo enhancers: `1` passes reducer `0` to `createStore` whatever reducer it is
given; `2` is `applyMiddleware(A, B)` with two loggers; `3` is `applyMiddleware(E)` with
the eager middleware; `4` is `applyMiddleware(A, R)` with a logger and the redispatching
middleware; any other enhancer calls `createStore` unchanged. -/
def demoEnh : Nat → Enhancer
  | 1 => fun _ createStore _ preloadedState => createStore (.func 0) preloadedState undef
  | 2 => applyMiddleware demoEnv [logger (str "A-before") (str "A-after"),
      logger (str "B-before") (str "B-after")]
  | 3 => applyMiddleware demoEnv [eager incr]
  | 4 => applyMiddleware demoEnv [logger (str "A-before") (str "A-after"),
      redispatch swap incr]
  | _ => fun _ createStore reducer preloadedState => createStore reducer preloadedState undef

/-- The reducer of the specification's scenario,
`(state = 0, action) => action.type == "INCREMENT" ? state + 1 : state`, on numbers. -/
def counter (s a : Value) : Value :=
  let s0 := if s = undef then num 0 else s
  if getProp a "type" = str "INCREMENT" then
    match s0 with
    | .prim (.num n) => num (n + 1)
    | other => other
  else s0

/-- The application of the scenario: every function is the counter reducer when it gets
two arguments. -/
def counterEnv : Env where
  fn := fun _ args =>
    match args with
    | [s, a] => .ret (counter s a)
    | _ => .ret undef
  INIT := "@@redux/INIT"
  REPLACE := "@@redux/REPLACE"

/-- The dispatch function `Lj(L(j+1)(...(base)))` of `k` consecutive layers from `j` on. -/
def chainFrom : Nat → Nat → DFn → DFn
  | _, 0, base => base
  | j, k + 1, base => .layer j (chainFrom (j + 1) k base)

/-- What one call through a chain of loggers with the tags `ts`, from layer `j` on, reports
when the raw dispatch returns `v` on `a` and reports `ev`. -/
def onionTrace (a v : Value) (ev : List Event) : Nat → List (Value × Value) → List CEvent
  | _, [] => [.raw a (.ok v) ev]
  | j, t :: ts =>
    .call j (.log t.1) (.ok undef) :: onionTrace a v ev (j + 1) ts
      ++ [.call j (.next a) (.ok v), .call j (.log t.2) (.ok undef)]

/-- The marks of a trace: the tags logged, and `none` for a call of the raw dispatch. -/
def marks (ev : List CEvent) : List (Option Value) :=
  ev.filterMap (fun e =>
    match e with
    | .raw _ _ _ => some none
    | .call _ (.log tag) _ => some (some tag)
    | _ => none)

/-- The demo application with one more listener, `8`, which throws when it reads the state
`2`. Listener `4`, which dispatches when it reads `1`, goes on whatever the outcome of its
dispatch is, as code that calls `dispatch` inside `try`/`catch` does. -/
def cutEnv : Env where
  fn := fun id args =>
    match id with
    | 8 => .call .getState (fun r => if r = .ok (num 2) then .throw (.user 3) else .ret undef)
    | _ => demoEnv.fn id args
  INIT := demoEnv.INIT
  REPLACE := demoEnv.REPLACE

/-! ## Every run of the engine is a derivation -/

theorem validAction_false_iff (a : Value) :
    validAction a = false ↔
      (isPlainObject a = false ∨ typeofUndefined (getProp a "type") = true) := by
  unfold validAction
  cases isPlainObject a <;> cases typeofUndefined (getProp a "type") <;> simp

/-- Every terminating run of the engine is a derivation. -/
theorem exec_run (env : Env) : ∀ (n d : Nat) (t : Task) (st : Store) (r : Outcome) (st' : Store)
    (ev : List Event), exec env n d t st = some (r, st', ev) → Run env d t st r st' ev := by
  intro n
  induction n with
  | zero => intro d t st r st' ev h; simp [exec] at h
  | succ n ih =>
    intro d t st r st' ev h
    simp only [exec] at h
    cases t with
    | api c =>
      cases c with
      | getState =>
        simp only [step, Option.some.injEq, Prod.mk.injEq] at h
        obtain ⟨rfl, rfl, rfl⟩ := h
        exact Run.getState d st
      | subscribe l =>
        simp only [step, Option.some.injEq, Prod.mk.injEq] at h
        obtain ⟨rfl, rfl, rfl⟩ := h
        exact Run.subscribe d l st
      | unsubscribe k =>
        simp only [step, Option.some.injEq, Prod.mk.injEq] at h
        obtain ⟨rfl, rfl, rfl⟩ := h
        exact Run.unsubscribe d k st
      | dispatch a =>
        simp only [step, dispatch] at h
        by_cases hp : isPlainObject a = true
        · by_cases hu : typeofUndefined (getProp a "type") = true
          · simp only [hp, hu, Bool.not_true, Bool.false_eq_true, if_false, if_true,
              Option.some.injEq, Prod.mk.injEq] at h
            obtain ⟨rfl, rfl, rfl⟩ := h
            exact Run.dispatchInvalid d a st ((validAction_false_iff a).2 (Or.inr hu))
          · have hv : validAction a = true := by simp [validAction, hp, hu]
            by_cases hd : st.isDispatching = true
            · simp only [hp, hu, hd, Bool.not_true, Bool.false_eq_true, if_false, if_true,
                Option.some.injEq, Prod.mk.injEq] at h
              obtain ⟨rfl, rfl, rfl⟩ := h
              exact Run.dispatchReentrant d a st hv hd
            · have hd' : st.isDispatching = false := by simpa using hd
              simp only [hp, hu, hd, Bool.not_true, Bool.false_eq_true, if_false] at h
              split at h
              · simp at h
              · rename_i e st2 ev1 h1
                simp only [Option.some.injEq, Prod.mk.injEq] at h
                obtain ⟨rfl, rfl, rfl⟩ := h
                exact Run.dispatchFault d a st e st2 ev1 hv hd' (ih _ _ _ _ _ _ h1)
              · rename_i s st2 ev1 h1
                split at h
                · simp at h
                · rename_i e st5 ev2 h2
                  simp only [Option.some.injEq, Prod.mk.injEq] at h
                  obtain ⟨rfl, rfl, rfl⟩ := h
                  exact Run.dispatchCommit d a st s st2 ev1 (.error e) st5 ev2 hv hd'
                    (ih _ _ _ _ _ _ h1) (ih _ _ _ _ _ _ h2)
                · rename_i v st5 ev2 h2
                  simp only [Option.some.injEq, Prod.mk.injEq] at h
                  obtain ⟨rfl, rfl, rfl⟩ := h
                  exact Run.dispatchCommit d a st s st2 ev1 (.ok v) st5 ev2 hv hd'
                    (ih _ _ _ _ _ _ h1) (ih _ _ _ _ _ _ h2)
        · simp only [hp, Bool.not_false, if_true, Option.some.injEq, Prod.mk.injEq] at h
          obtain ⟨rfl, rfl, rfl⟩ := h
          exact Run.dispatchInvalid d a st
            ((validAction_false_iff a).2 (Or.inl (by simpa using hp)))
      | replaceReducer f =>
        simp only [step, replaceReducer] at h
        by_cases hf : typeofFunction f = true
        · simp only [hf, Bool.not_true, Bool.false_eq_true, if_false] at h
          split at h
          · simp at h
          · rename_i e st1 ev1 h1
            simp only [Option.some.injEq, Prod.mk.injEq] at h
            obtain ⟨rfl, rfl, rfl⟩ := h
            exact Run.replace d f st (.error e) _ _ hf (ih _ _ _ _ _ _ h1)
          · rename_i v st1 ev1 h1
            simp only [Option.some.injEq, Prod.mk.injEq] at h
            obtain ⟨rfl, rfl, rfl⟩ := h
            exact Run.replace d f st (.ok v) _ _ hf (ih _ _ _ _ _ _ h1)
        · simp only [hf, Bool.not_false, if_true, Option.some.injEq, Prod.mk.injEq] at h
          obtain ⟨rfl, rfl, rfl⟩ := h
          exact Run.replaceInvalid d f st (by simpa using hf)
    | run who p =>
      cases p with
      | ret v =>
        simp only [step, runProg, Option.some.injEq, Prod.mk.injEq] at h
        obtain ⟨rfl, rfl, rfl⟩ := h
        exact Run.ret d who v st
      | throw e =>
        simp only [step, runProg, Option.some.injEq, Prod.mk.injEq] at h
        obtain ⟨rfl, rfl, rfl⟩ := h
        exact Run.throw d who e st
      | call c k =>
        simp only [step, runProg] at h
        split at h
        · simp at h
        · rename_i r1 st1 ev1 h1
          split at h
          · simp at h
          · rename_i r2 st2 ev2 h2
            simp only [Option.some.injEq, Prod.mk.injEq] at h
            obtain ⟨rfl, rfl, rfl⟩ := h
            exact Run.call d who c k st r1 st1 ev1 _ _ ev2 (ih _ _ _ _ _ _ h1)
              (ih _ _ _ _ _ _ h2)
    | notify ls i =>
      simp only [step, notifyFrom] at h
      by_cases hi : i < (st.array ls).length
      · simp only [hi, if_true] at h
        split at h
        · simp at h
        · rename_i e st1 ev1 h1
          simp only [Option.some.injEq, Prod.mk.injEq] at h
          obtain ⟨rfl, rfl, rfl⟩ := h
          exact Run.notifyFault d ls i st e _ ev1 hi (ih _ _ _ _ _ _ h1)
        · rename_i v st1 ev1 h1
          split at h
          · simp at h
          · rename_i r2 st2 ev2 h2
            simp only [Option.some.injEq, Prod.mk.injEq] at h
            obtain ⟨rfl, rfl, rfl⟩ := h
            exact Run.notifyNext d ls i st v st1 ev1 _ _ ev2 hi (ih _ _ _ _ _ _ h1)
              (ih _ _ _ _ _ _ h2)
      · simp only [hi, if_false, Option.some.injEq, Prod.mk.injEq] at h
        obtain ⟨rfl, rfl, rfl⟩ := h
        exact Run.notifyDone d ls i st hi

/-! ## Basic facts about the store operations -/

@[simp] theorem ensure_isDispatching (st : Store) :
    (ensureCanMutateNextListeners st).isDispatching = st.isDispatching := by
  unfold ensureCanMutateNextListeners; split <;> rfl

@[simp] theorem ensure_subs (st : Store) :
    (ensureCanMutateNextListeners st).subs = st.subs := by
  unfold ensureCanMutateNextListeners; split <;> rfl

@[simp] theorem ensure_currentState (st : Store) :
    (ensureCanMutateNextListeners st).currentState = st.currentState := by
  unfold ensureCanMutateNextListeners; split <;> rfl

@[simp] theorem ensure_currentReducer (st : Store) :
    (ensureCanMutateNextListeners st).currentReducer = st.currentReducer := by
  unfold ensureCanMutateNextListeners; split <;> rfl

@[simp] theorem ensure_currentListeners (st : Store) :
    (ensureCanMutateNextListeners st).currentListeners = st.currentListeners := by
  unfold ensureCanMutateNextListeners; split <;> rfl

@[simp] theorem setNext_isDispatching (st : Store) (xs : List Value) :
    (st.setNext xs).isDispatching = st.isDispatching := rfl

@[simp] theorem setNext_subs (st : Store) (xs : List Value) : (st.setNext xs).subs = st.subs := rfl

@[simp] theorem setNext_currentState (st : Store) (xs : List Value) :
    (st.setNext xs).currentState = st.currentState := rfl

@[simp] theorem setNext_currentReducer (st : Store) (xs : List Value) :
    (st.setNext xs).currentReducer = st.currentReducer := rfl

@[simp] theorem setNext_currentListeners (st : Store) (xs : List Value) :
    (st.setNext xs).currentListeners = st.currentListeners := rfl

@[simp] theorem setNext_nextListeners (st : Store) (xs : List Value) :
    (st.setNext xs).nextListeners = st.nextListeners := rfl

@[simp] theorem setNext_heap_length (st : Store) (xs : List Value) :
    (st.setNext xs).heap.length = st.heap.length := by
  simp [Store.setNext]

theorem setNext_pending (st : Store) (xs : List Value) (h : st.nextListeners < st.heap.length) :
    (st.setNext xs).pending = xs := by
  simp [Store.setNext, Store.pending, Store.array, List.getD_eq_getElem?_getD, h]

theorem setNext_array_ne (st : Store) (xs : List Value) (ref : Nat) (h : ref ≠ st.nextListeners) :
    (st.setNext xs).array ref = st.array ref := by
  simp [Store.setNext, Store.array, List.getD_eq_getElem?_getD, List.getElem?_set, Ne.symm h]

/-- The copy made by `slice()` has the contents of the array it copies. -/
@[simp] theorem ensure_pending (st : Store) :
    (ensureCanMutateNextListeners st).pending = st.pending := by
  unfold ensureCanMutateNextListeners
  split
  · rename_i h
    simp [Store.pending, Store.array, List.getD_eq_getElem?_getD, h]
  · rfl

theorem ensure_array (st : Store) (ref : Nat) (h : ref < st.heap.length) :
    (ensureCanMutateNextListeners st).array ref = st.array ref := by
  unfold ensureCanMutateNextListeners
  split
  · simp [Store.array, List.getD_eq_getElem?_getD, List.getElem?_append_left h]
  · rfl

theorem ensure_heap_length_le (st : Store) :
    st.heap.length ≤ (ensureCanMutateNextListeners st).heap.length := by
  unfold ensureCanMutateNextListeners
  split <;> simp

theorem ensure_next_lt (st : Store) (h : st.nextListeners < st.heap.length) :
    (ensureCanMutateNextListeners st).nextListeners
      < (ensureCanMutateNextListeners st).heap.length := by
  unfold ensureCanMutateNextListeners
  split
  · simp
  · exact h

theorem ensure_next_ne_current (st : Store) (h : st.currentListeners < st.heap.length) :
    (ensureCanMutateNextListeners st).nextListeners
      ≠ (ensureCanMutateNextListeners st).currentListeners := by
  unfold ensureCanMutateNextListeners
  split
  · simp; omega
  · assumption

theorem getState_store (st : Store) : (getState st).2 = st := by
  unfold getState; split <;> rfl

theorem subscribe_of_idle (l : Value) (st : Store) (hf : typeofFunction l = true)
    (hd : st.isDispatching = false) :
    subscribe l st = (.ok (.unsub st.subs.length),
      { (ensureCanMutateNextListeners st).setNext (st.pending ++ [l]) with
        subs := st.subs ++ [(l, true)] }) := by
  simp [subscribe, hf, hd]

theorem subscribe_not_function (l : Value) (st : Store) (hf : typeofFunction l = false) :
    subscribe l st = (.error .invalidArgumentType, st) := by
  simp [subscribe, hf]

theorem subscribe_dispatching (l : Value) (st : Store) (hd : st.isDispatching = true) :
    (subscribe l st).2 = st := by
  unfold subscribe
  split
  · rfl
  · simp [hd]

theorem unsubscribe_of_live (k : Nat) (st : Store) (l : Value)
    (hk : st.subs[k]? = some (l, true)) (hd : st.isDispatching = false) :
    unsubscribe k st = (.ok undef,
      (ensureCanMutateNextListeners { st with subs := st.subs.set k (l, false) }).setNext
        (splice st.pending (indexOf st.pending l) 1)) := by
  simp only [unsubscribe, hk, hd]
  simp
  rfl

theorem unsubscribe_of_dead (k : Nat) (st : Store) (l : Value)
    (hk : st.subs[k]? = some (l, false)) : unsubscribe k st = (.ok undef, st) := by
  simp [unsubscribe, hk]

theorem unsubscribe_of_missing (k : Nat) (st : Store) (hk : st.subs[k]? = none) :
    unsubscribe k st = (.error .typeError, st) := by
  simp [unsubscribe, hk]

theorem unsubscribe_dispatching (k : Nat) (st : Store) (hd : st.isDispatching = true) :
    (unsubscribe k st).2 = st := by
  unfold unsubscribe
  split
  · rfl
  · split
    · rfl
    · simp [hd]

theorem subscribe_flag (l : Value) (st : Store) :
    (subscribe l st).2.isDispatching = st.isDispatching := by
  cases hd : st.isDispatching
  · cases hf : typeofFunction l
    · rw [subscribe_not_function l st hf]; exact hd
    · rw [subscribe_of_idle l st hf hd]; simp [hd]
  · rw [subscribe_dispatching l st hd]; exact hd

theorem unsubscribe_flag (k : Nat) (st : Store) :
    (unsubscribe k st).2.isDispatching = st.isDispatching := by
  cases hd : st.isDispatching
  · cases hk : st.subs[k]? with
    | none => rw [unsubscribe_of_missing k st hk]; exact hd
    | some p =>
      obtain ⟨l, b⟩ := p
      cases b
      · rw [unsubscribe_of_dead k st l hk]; exact hd
      · rw [unsubscribe_of_live k st l hk hd]; simp [hd]
  · rw [unsubscribe_dispatching k st hd]; exact hd

/-! ## Facts about all runs -/

/-- No run changes the in-progress flag between its start and its end. -/
theorem run_flag {env : Env} {d : Nat} {t : Task} {st st' : Store} {r : Outcome}
    {ev : List Event} (h : Run env d t st r st' ev) : st'.isDispatching = st.isDispatching := by
  induction h with
  | getState d st => rw [getState_store]
  | subscribe d l st => exact subscribe_flag l st
  | unsubscribe d k st => exact unsubscribe_flag k st
  | dispatchInvalid => rfl
  | dispatchReentrant => rfl
  | dispatchFault d a st e st2 ev1 hv hd h1 ih1 => simp [hd]
  | dispatchCommit d a st s st2 ev1 r st5 ev2 hv hd h1 h2 ih1 ih2 => rw [ih2, hd]; rfl
  | replaceInvalid => rfl
  | replace d f st r st1 ev hf h1 ih1 => rw [ih1]
  | ret => rfl
  | throw => rfl
  | call d who c k st r st1 ev1 r2 st2 ev2 h1 h2 ih1 ih2 => rw [ih2, ih1]
  | notifyDone => rfl
  | notifyFault d ls i st e st1 ev1 hi h1 ih1 => exact ih1
  | notifyNext d ls i st v st1 ev1 r st2 ev2 hi h1 h2 ih1 ih2 => rw [ih2, ih1]

/-- While the reducer is executing nothing but `currentReducer` can change. -/
theorem run_dispatching {env : Env} {d : Nat} {t : Task} {st st' : Store} {r : Outcome}
    {ev : List Event} (h : Run env d t st r st' ev) (hd : st.isDispatching = true) :
    st' = { st with currentReducer := st'.currentReducer } := by
  induction h with
  | getState d st => rw [getState_store]
  | subscribe d l st => rw [subscribe_dispatching l st hd]
  | unsubscribe d k st => rw [unsubscribe_dispatching k st hd]
  | dispatchInvalid => rfl
  | dispatchReentrant => rfl
  | dispatchFault d a st e st2 ev1 hv hd' h1 ih1 => simp [hd] at hd'
  | dispatchCommit d a st s st2 ev1 r st5 ev2 hv hd' h1 h2 ih1 ih2 => simp [hd] at hd'
  | replaceInvalid => rfl
  | replace d f st r st1 ev hf h1 ih1 =>
    have := ih1 hd
    rw [this]
  | ret => rfl
  | throw => rfl
  | call d who c k st r st1 ev1 r2 st2 ev2 h1 h2 ih1 ih2 =>
    have e1 := ih1 hd
    have hd1 : st1.isDispatching = true := by rw [run_flag h1]; exact hd
    have e2 := ih2 hd1
    rw [e2, e1]
  | notifyDone => rfl
  | notifyFault d ls i st e st1 ev1 hi h1 ih1 => exact ih1 hd
  | notifyNext d ls i st v st1 ev1 r st2 ev2 hi h1 h2 ih1 ih2 =>
    have e1 := ih1 hd
    have hd1 : st1.isDispatching = true := by rw [run_flag h1]; exact hd
    have e2 := ih2 hd1
    rw [e2, e1]

/-- Events of a run at depth `d` are tagged with depth `d` or deeper. -/
theorem run_depth {env : Env} {d : Nat} {t : Task} {st st' : Store} {r : Outcome}
    {ev : List Event} (h : Run env d t st r st' ev) : ∀ e ∈ ev, d ≤ e.depth := by
  induction h with
  | getState => simp
  | subscribe => simp
  | unsubscribe => simp
  | dispatchInvalid => simp
  | dispatchReentrant => simp
  | dispatchFault d a st e st2 ev1 hv hd h1 ih1 =>
    intro e he
    simp only [List.mem_cons] at he
    rcases he with rfl | he
    · simp [Event.depth]
    · have := ih1 e he; omega
  | dispatchCommit d a st s st2 ev1 r st5 ev2 hv hd h1 h2 ih1 ih2 =>
    intro e he
    simp only [List.mem_cons, List.cons_append, List.mem_append] at he
    rcases he with rfl | he | he
    · simp [Event.depth]
    · have := ih1 e he; omega
    · exact ih2 e he
  | replaceInvalid => simp
  | replace d f st r st1 ev hf h1 ih1 => exact ih1
  | ret => simp
  | throw => simp
  | call d who c k st r st1 ev1 r2 st2 ev2 h1 h2 ih1 ih2 =>
    intro e he
    simp only [List.mem_cons, List.mem_append] at he
    rcases he with he | rfl | he
    · exact ih1 e he
    · simp [Event.depth]
    · exact ih2 e he
  | notifyDone => simp
  | notifyFault d ls i st e st1 ev1 hi h1 ih1 =>
    intro e he
    simp only [List.mem_cons] at he
    rcases he with rfl | he
    · simp [Event.depth]
    · have := ih1 e he; omega
  | notifyNext d ls i st v st1 ev1 r st2 ev2 hi h1 h2 ih1 ih2 =>
    intro e he
    simp only [List.mem_cons, List.cons_append, List.mem_append] at he
    rcases he with rfl | he | he
    · simp [Event.depth]
    · have := ih1 e he; omega
    · exact ih2 e he

/-- A run that reports no reducer call leaves the state tree as it was. -/
theorem run_state {env : Env} {d : Nat} {t : Task} {st st' : Store} {r : Outcome}
    {ev : List Event} (h : Run env d t st r st' ev) (hno : ∀ e ∈ ev, e.isReducer = false) :
    st'.currentState = st.currentState := by
  induction h with
  | getState d st => rw [getState_store]
  | subscribe d l st =>
    cases hd : st.isDispatching
    · cases hf : typeofFunction l
      · rw [subscribe_not_function l st hf]
      · rw [subscribe_of_idle l st hf hd]; simp
    · rw [subscribe_dispatching l st hd]
  | unsubscribe d k st =>
    cases hd : st.isDispatching
    · cases hk : st.subs[k]? with
      | none => rw [unsubscribe_of_missing k st hk]
      | some p =>
        obtain ⟨l, b⟩ := p
        cases b
        · rw [unsubscribe_of_dead k st l hk]
        · rw [unsubscribe_of_live k st l hk hd]; simp
    · rw [unsubscribe_dispatching k st hd]
  | dispatchInvalid => rfl
  | dispatchReentrant => rfl
  | dispatchFault d a st e st2 ev1 hv hd h1 ih1 =>
    have := hno _ (List.mem_cons_self _ _)
    simp [Event.isReducer] at this
  | dispatchCommit d a st s st2 ev1 r st5 ev2 hv hd h1 h2 ih1 ih2 =>
    have := hno _ (List.mem_cons_self _ _)
    simp [Event.isReducer] at this
  | replaceInvalid => rfl
  | replace d f st r st1 ev hf h1 ih1 => exact ih1 hno
  | ret => rfl
  | throw => rfl
  | call d who c k st r st1 ev1 r2 st2 ev2 h1 h2 ih1 ih2 =>
    rw [ih2 (fun e he => hno e (by simp [he])), ih1 (fun e he => hno e (by simp [he]))]
  | notifyDone => rfl
  | notifyFault d ls i st e st1 ev1 hi h1 ih1 =>
    exact ih1 (fun e he => hno e (by simp [he]))
  | notifyNext d ls i st v st1 ev1 r st2 ev2 hi h1 h2 ih1 ih2 =>
    rw [ih2 (fun e he => hno e (by simp [he])), ih1 (fun e he => hno e (by simp [he]))]

/-! ## What one dispatch call reports -/

theorem reducerCalls_append (d : Nat) (ev1 ev2 : List Event) :
    reducerCalls d (ev1 ++ ev2) = reducerCalls d ev1 ++ reducerCalls d ev2 := by
  simp [reducerCalls, List.filterMap_append]

theorem listenerCalls_append (d : Nat) (ev1 ev2 : List Event) :
    listenerCalls d (ev1 ++ ev2) = listenerCalls d ev1 ++ listenerCalls d ev2 := by
  simp [listenerCalls, List.filterMap_append]

theorem listenerStates_append (d : Nat) (ev1 ev2 : List Event) :
    listenerStates d (ev1 ++ ev2) = listenerStates d ev1 ++ listenerStates d ev2 := by
  simp [listenerStates, List.filterMap_append]

theorem reducerCalls_deeper (d : Nat) (ev : List Event) (h : ∀ e ∈ ev, d + 1 ≤ e.depth) :
    reducerCalls d ev = [] := by
  induction ev with
  | nil => rfl
  | cons e ev ih =>
    have he := h e (List.mem_cons_self _ _)
    have ih' := ih (fun x hx => h x (List.mem_cons_of_mem _ hx))
    cases e with
    | reducer d' f s a =>
      have : d' ≠ d := by simp [Event.depth] at he; omega
      simpa [reducerCalls, this] using ih'
    | listener d' i f s => simpa [reducerCalls] using ih'
    | api d' who c r => simpa [reducerCalls] using ih'

theorem listenerCalls_deeper (d : Nat) (ev : List Event) (h : ∀ e ∈ ev, d + 1 ≤ e.depth) :
    listenerCalls d ev = [] := by
  induction ev with
  | nil => rfl
  | cons e ev ih =>
    have he := h e (List.mem_cons_self _ _)
    have ih' := ih (fun x hx => h x (List.mem_cons_of_mem _ hx))
    cases e with
    | reducer d' f s a => simpa [listenerCalls] using ih'
    | listener d' i f s =>
      have : d' ≠ d := by simp [Event.depth] at he; omega
      simpa [listenerCalls, this] using ih'
    | api d' who c r => simpa [listenerCalls] using ih'

theorem listenerStates_deeper (d : Nat) (ev : List Event) (h : ∀ e ∈ ev, d + 1 ≤ e.depth) :
    listenerStates d ev = [] := by
  induction ev with
  | nil => rfl
  | cons e ev ih =>
    have he := h e (List.mem_cons_self _ _)
    have ih' := ih (fun x hx => h x (List.mem_cons_of_mem _ hx))
    cases e with
    | reducer d' f s a => simpa [listenerStates] using ih'
    | listener d' i f s =>
      have : d' ≠ d := by simp [Event.depth] at he; omega
      simpa [listenerStates, this] using ih'
    | api d' who c r => simpa [listenerStates] using ih'

/-- A notification round reports no reducer call at its own depth. -/
theorem notify_reducerCalls {env : Env} {d : Nat} {t : Task} {st st' : Store} {r : Outcome}
    {ev : List Event} (h : Run env d t st r st' ev) :
    ∀ ls i, t = .notify ls i → reducerCalls d ev = [] := by
  induction h with
  | notifyDone => intros; rfl
  | notifyFault d ls i st e st1 ev1 hi h1 ih1 =>
    intro _ _ _
    have := reducerCalls_deeper d ev1 (run_depth h1)
    simpa [reducerCalls] using this
  | notifyNext d ls i st v st1 ev1 r st2 ev2 hi h1 h2 ih1 ih2 =>
    intro _ _ _
    have e1 := reducerCalls_deeper d ev1 (run_depth h1)
    have e2 := ih2 ls (i + 1) rfl
    have : reducerCalls d (ev1 ++ ev2) = [] := by rw [reducerCalls_append, e1, e2]; rfl
    simpa [reducerCalls] using this
  | _ => intro _ _ ht; cases ht

/-- When no dispatch is nested in a notification round, every listener of the round is
entered in the state the round started in. -/
theorem notify_states {env : Env} {d : Nat} {t : Task} {st st' : Store} {r : Outcome}
    {ev : List Event} (h : Run env d t st r st' ev) :
    ∀ ls i, t = .notify ls i → (∀ e ∈ ev, e.isReducer = false) →
      ∀ s ∈ listenerStates d ev, s = st.currentState := by
  induction h with
  | notifyDone => intro _ _ _ _ s hs; simp [listenerStates] at hs
  | notifyFault d ls i st e st1 ev1 hi h1 ih1 =>
    intro _ _ _ hno s hs
    have e1 := listenerStates_deeper d ev1 (run_depth h1)
    have : listenerStates d
        (Event.listener d i ((st.array ls).getD i undef) st.currentState :: ev1)
        = [st.currentState] := by
      have := listenerStates_append d
        [Event.listener d i ((st.array ls).getD i undef) st.currentState] ev1
      simp only [List.singleton_append] at this
      rw [this, e1]; simp [listenerStates]
    rw [this] at hs
    simpa using hs
  | notifyNext d ls i st v st1 ev1 r st2 ev2 hi h1 h2 ih1 ih2 =>
    intro _ _ _ hno s hs
    have e1 := listenerStates_deeper d ev1 (run_depth h1)
    have hst1 : st1.currentState = st.currentState :=
      run_state h1 (fun e he => hno e (by simp [he]))
    have : listenerStates d
        (Event.listener d i ((st.array ls).getD i undef) st.currentState :: ev1 ++ ev2)
        = st.currentState :: listenerStates d ev2 := by
      have := listenerStates_append d
        ([Event.listener d i ((st.array ls).getD i undef) st.currentState] ++ ev1) ev2
      simp only [List.singleton_append] at this
      rw [this]
      have := listenerStates_append d
        [Event.listener d i ((st.array ls).getD i undef) st.currentState] ev1
      simp only [List.singleton_append] at this
      rw [this, e1]; simp [listenerStates]
    rw [this] at hs
    rcases List.mem_cons.1 hs with rfl | hs
    · rfl
    · rw [← hst1]
      exact ih2 ls (i + 1) rfl (fun e he => hno e (by simp [he])) s hs
  | _ => intro _ _ ht; cases ht

/-- Unfolding of a dispatch whose reducer returns normally. -/
theorem exec_dispatch_commit (env : Env) (n d : Nat) (st : Store) (a s : Value) (st2 : Store)
    (ev1 : List Event) (r : Outcome) (st5 : Store) (ev2 : List Event)
    (hidle : st.isDispatching = false) (hvalid : validAction a = true)
    (hred : exec env n (d + 1)
      (.run .reducer (callFn env st.currentReducer [st.currentState, a]))
      { st with isDispatching := true } = some (.ok s, st2, ev1))
    (hround : exec env n d (.notify st2.nextListeners 0) (commit st2 s) = some (r, st5, ev2)) :
    exec env (n + 1) d (.api (.dispatch a)) st
      = some (r.returning a, st5, .reducer d st.currentReducer st.currentState a :: ev1 ++ ev2) := by
  have hv := hvalid
  simp only [validAction, Bool.and_eq_true, Bool.not_eq_true'] at hv
  simp only [exec, step, dispatch, hv.1, hv.2, hidle, hred, Bool.not_true, Bool.false_eq_true,
    if_false]
  have hround' := hround
  simp only [commit] at hround'
  rw [hround']
  cases r <;> rfl

/-- Unfolding of a dispatch whose reducer faults. -/
theorem exec_dispatch_fault (env : Env) (n d : Nat) (st : Store) (a : Value) (e : Fault)
    (st2 : Store) (ev1 : List Event)
    (hidle : st.isDispatching = false) (hvalid : validAction a = true)
    (hred : exec env n (d + 1)
      (.run .reducer (callFn env st.currentReducer [st.currentState, a]))
      { st with isDispatching := true } = some (.error e, st2, ev1)) :
    exec env (n + 1) d (.api (.dispatch a)) st
      = some (.error e, { st2 with isDispatching := false },
          .reducer d st.currentReducer st.currentState a :: ev1) := by
  have hv := hvalid
  simp only [validAction, Bool.and_eq_true, Bool.not_eq_true'] at hv
  simp only [exec, step, dispatch, hv.1, hv.2, hidle, hred, Bool.not_true, Bool.false_eq_true,
    if_false]

/-- While the reducer is executing, no reducer call and no listener call is reported. -/
theorem run_dispatching_events {env : Env} {d : Nat} {t : Task} {st st' : Store} {r : Outcome}
    {ev : List Event} (h : Run env d t st r st' ev) (hd : st.isDispatching = true)
    (ht : ∀ ls i, t ≠ .notify ls i) :
    ∀ e ∈ ev, e.isReducer = false ∧ e.isListener = false := by
  induction h with
  | getState => simp
  | subscribe => simp
  | unsubscribe => simp
  | dispatchInvalid => simp
  | dispatchReentrant => simp
  | dispatchFault d a st e st2 ev1 hv hd' h1 ih1 => simp [hd] at hd'
  | dispatchCommit d a st s st2 ev1 r st5 ev2 hv hd' h1 h2 ih1 ih2 => simp [hd] at hd'
  | replaceInvalid => simp
  | replace d f st r st1 ev hf h1 ih1 => exact ih1 hd (fun _ _ h => by cases h)
  | ret => simp
  | throw => simp
  | call d who c k st r st1 ev1 r2 st2 ev2 h1 h2 ih1 ih2 =>
    intro e he
    have hd1 : st1.isDispatching = true := by rw [run_flag h1]; exact hd
    simp only [List.mem_cons, List.mem_append] at he
    rcases he with he | rfl | he
    · exact ih1 hd (fun _ _ h => by cases h) e he
    · simp [Event.isReducer, Event.isListener]
    · exact ih2 hd1 (fun _ _ h => by cases h) e he
  | notifyDone d ls i => exact absurd rfl (ht ls i)
  | notifyFault d ls i => exact absurd rfl (ht ls i)
  | notifyNext d ls i => exact absurd rfl (ht ls i)

theorem run_getState_inv {env : Env} {d : Nat} {st st' : Store} {r : Outcome}
    {ev : List Event} (h : Run env d (.api .getState) st r st' ev) :
    r = (getState st).1 := by
  cases h; rfl

theorem run_subscribe_inv {env : Env} {d : Nat} {l : Value} {st st' : Store} {r : Outcome}
    {ev : List Event} (h : Run env d (.api (.subscribe l)) st r st' ev) :
    r = (subscribe l st).1 ∧ st' = (subscribe l st).2 ∧ ev = [] := by
  cases h; exact ⟨rfl, rfl, rfl⟩

theorem run_unsubscribe_inv {env : Env} {d k : Nat} {st st' : Store} {r : Outcome}
    {ev : List Event} (h : Run env d (.api (.unsubscribe k)) st r st' ev) :
    r = (unsubscribe k st).1 ∧ st' = (unsubscribe k st).2 ∧ ev = [] := by
  cases h; exact ⟨rfl, rfl, rfl⟩

theorem run_dispatch_dispatching_inv {env : Env} {d : Nat} {b : Value} {st st' : Store}
    {r : Outcome} {ev : List Event} (h : Run env d (.api (.dispatch b)) st r st' ev)
    (hd : st.isDispatching = true) :
    r = if validAction b then .error .reentrantDispatch else .error .invalidActionShape := by
  cases h with
  | dispatchInvalid _ _ _ hv => simp [hv]
  | dispatchReentrant _ _ _ hv _ => simp [hv]
  | dispatchFault _ _ _ _ _ _ _ hd' => simp [hd] at hd'
  | dispatchCommit _ _ _ _ _ _ _ _ _ _ hd' => simp [hd] at hd'

/-- In every run that starts consistently with the in-progress flag, the API calls made by
reducer code meet the flag set, and `getState` called by listener code meets it released. -/
theorem run_apiOutcome {env : Env} {d : Nat} {t : Task} {st st' : Store} {r : Outcome}
    {ev : List Event} (h : Run env d t st r st' ev) (hc : Consistent t st) :
    ∀ e ∈ ev, ApiOutcomeOk e := by
  induction h with
  | getState => simp
  | subscribe => simp
  | unsubscribe => simp
  | dispatchInvalid => simp
  | dispatchReentrant => simp
  | dispatchFault d a st e st2 ev1 hv hd h1 ih1 =>
    intro e he
    simp only [List.mem_cons] at he
    rcases he with rfl | he
    · simp [ApiOutcomeOk]
    · exact ih1 (by simp [Consistent]) e he
  | dispatchCommit d a st s st2 ev1 r st5 ev2 hv hd h1 h2 ih1 ih2 =>
    intro e he
    simp only [List.mem_cons, List.cons_append, List.mem_append] at he
    rcases he with rfl | he | he
    · simp [ApiOutcomeOk]
    · exact ih1 (by simp [Consistent]) e he
    · exact ih2 (by simp [Consistent, commit]) e he
  | replaceInvalid => simp
  | replace d f st r st1 ev hf h1 ih1 => exact ih1 (by simp [Consistent])
  | ret => simp
  | throw => simp
  | call d who c k st r st1 ev1 r2 st2 ev2 h1 h2 ih1 ih2 =>
    intro e he
    have hf1 : st1.isDispatching = st.isDispatching := run_flag h1
    simp only [List.mem_cons, List.mem_append] at he
    rcases he with he | rfl | he
    · exact ih1 (by simp [Consistent]) e he
    · cases who with
      | reducer =>
        have hd : st.isDispatching = true := hc
        cases c with
        | getState =>
          have := run_getState_inv h1
          simp [ApiOutcomeOk, this, getState, hd]
        | dispatch b =>
          have := run_dispatch_dispatching_inv h1 hd
          simp [ApiOutcomeOk, this]
        | subscribe l =>
          have := (run_subscribe_inv h1).1
          simp only [ApiOutcomeOk, this, subscribe, hd]
          cases typeofFunction l <;> simp
        | unsubscribe k =>
          have := (run_unsubscribe_inv h1).1
          simp only [ApiOutcomeOk, this]
          cases hk : st.subs[k]? with
          | none => rw [unsubscribe_of_missing k st hk]; simp
          | some p =>
            obtain ⟨l, b⟩ := p
            cases b
            · rw [unsubscribe_of_dead k st l hk]; simp
            · simp [unsubscribe, hk, hd]
        | replaceReducer f => simp [ApiOutcomeOk]
      | listener =>
        have hd : st.isDispatching = false := hc
        cases c with
        | getState =>
          have := run_getState_inv h1
          simp [ApiOutcomeOk, this, getState, hd]
        | dispatch b => simp [ApiOutcomeOk]
        | subscribe l => simp [ApiOutcomeOk]
        | unsubscribe k => simp [ApiOutcomeOk]
        | replaceReducer f => simp [ApiOutcomeOk]
    · refine ih2 ?_ e he
      cases who with
      | reducer => simp only [Consistent]; rw [hf1]; exact hc
      | listener => simp only [Consistent]; rw [hf1]; exact hc
  | notifyDone => simp
  | notifyFault d ls i st e st1 ev1 hi h1 ih1 =>
    intro e he
    simp only [List.mem_cons] at he
    rcases he with rfl | he
    · simp [ApiOutcomeOk]
    · exact ih1 hc e he
  | notifyNext d ls i st v st1 ev1 r st2 ev2 hi h1 h2 ih1 ih2 =>
    intro e he
    have hf1 : st1.isDispatching = st.isDispatching := run_flag h1
    simp only [List.mem_cons, List.cons_append, List.mem_append] at he
    rcases he with rfl | he | he
    · simp [ApiOutcomeOk]
    · exact ih1 hc e he
    · refine ih2 ?_ e he
      simp only [Consistent]; rw [hf1]; exact hc

/-! ## Arrays: `indexOf` and `splice` -/

theorem indexOfFrom_mem (x : Value) (xs : List Value) (h : x ∈ xs) : ∀ i : Nat,
    ∃ pre post, xs = pre ++ x :: post ∧ x ∉ pre ∧ indexOfFrom x xs i = ((i + pre.length : Nat) : Int) := by
  induction xs with
  | nil => cases h
  | cons y ys ih =>
    intro i
    by_cases hy : y = x
    · exact ⟨[], ys, by simp [hy], by simp, by simp [indexOfFrom, hy]⟩
    · have hx : x ∈ ys := by
        rcases List.mem_cons.1 h with h | h
        · exact absurd h.symm hy
        · exact h
      obtain ⟨pre, post, e, hn, hi⟩ := ih hx (i + 1)
      refine ⟨y :: pre, post, by simp [e], ?_, ?_⟩
      · simp only [List.mem_cons, not_or]
        exact ⟨fun h => hy h.symm, hn⟩
      · simp only [indexOfFrom, hy, if_false, hi, List.length_cons]
        congr 1; omega

theorem indexOfFrom_not_mem (x : Value) (xs : List Value) (h : x ∉ xs) : ∀ i : Nat,
    indexOfFrom x xs i = -1 := by
  induction xs with
  | nil => intro i; rfl
  | cons y ys ih =>
    intro i
    simp only [List.mem_cons, not_or] at h
    have hy : ¬ y = x := fun e => h.1 e.symm
    simp only [indexOfFrom, hy, if_false]
    exact ih h.2 (i + 1)

theorem splice_at (pre post : List Value) (x : Value) :
    splice (pre ++ x :: post) ((pre.length : Nat) : Int) 1 = pre ++ post := by
  have h0 : ¬ ((pre.length : Int) < 0) := by omega
  simp only [splice, h0, if_false, Int.toNat_ofNat, List.length_append, List.length_cons]
  have hm : min pre.length (pre.length + (post.length + 1)) = pre.length := by omega
  rw [hm]
  simp [List.take_append_eq_append_take, List.drop_append_eq_append_drop]

/-- When `x` occurs in `xs`, `indexOf` finds its first occurrence and `splice` removes
exactly that entry. -/
theorem splice_indexOf_mem (x : Value) (xs : List Value) (h : x ∈ xs) :
    ∃ pre post, xs = pre ++ x :: post ∧ x ∉ pre ∧ indexOf xs x = (pre.length : Int) ∧
      splice xs (indexOf xs x) 1 = pre ++ post ∧ xs.erase x = pre ++ post := by
  obtain ⟨pre, post, e, hn, hi⟩ := indexOfFrom_mem x xs h 0
  have hi' : indexOf xs x = (pre.length : Int) := by simpa [indexOf] using hi
  refine ⟨pre, post, e, hn, hi', ?_, ?_⟩
  · rw [hi', e]; exact splice_at pre post x
  · rw [e, List.erase_append_right _ hn]; simp

/-! ## The live subscriptions -/

theorem liveOf_append (s1 s2 : List (Value × Bool)) : liveOf (s1 ++ s2) = liveOf s1 ++ liveOf s2 := by
  simp [liveOf]

theorem liveOf_subset (s : List (Value × Bool)) : ∀ x ∈ liveOf s, x ∈ s.map (fun p => p.1) := by
  intro x hx
  simp only [liveOf, List.mem_map, List.mem_filter] at hx
  obtain ⟨p, ⟨hp, _⟩, rfl⟩ := hx
  exact List.mem_map.2 ⟨p, hp, rfl⟩

theorem liveOf_mem (s : List (Value × Bool)) (k : Nat) (l : Value) (h : s[k]? = some (l, true)) :
    l ∈ liveOf s := by
  simp only [liveOf, List.mem_map, List.mem_filter]
  exact ⟨(l, true), ⟨List.getElem?_mem h, rfl⟩, rfl⟩

/-- Splitting the subscriptions at a live one. -/
theorem subs_split (s : List (Value × Bool)) (k : Nat) (p : Value × Bool) (h : s[k]? = some p) :
    ∃ s1 s2, s = s1 ++ p :: s2 ∧ s1.length = k ∧ ∀ q, s.set k q = s1 ++ q :: s2 := by
  have hk : k < s.length := by
    rcases Nat.lt_or_ge k s.length with hk | hk
    · exact hk
    · rw [List.getElem?_eq_none hk] at h; cases h
  have hget : s[k] = p := by
    rw [List.getElem?_eq_getElem hk] at h; exact Option.some.inj h
  refine ⟨s.take k, s.drop (k + 1), ?_, ?_, ?_⟩
  · rw [← hget]; simp
  · simp [Nat.le_of_lt hk]
  · intro q
    rw [List.set_eq_take_append_cons_drop]
    simp [hk]

theorem liveOf_set_dead (s : List (Value × Bool)) (k : Nat) (l : Value)
    (h : s[k]? = some (l, true)) :
    (liveOf s).Perm (l :: liveOf (s.set k (l, false))) ∧
      ((s.map (fun p => p.1)).Nodup → liveOf (s.set k (l, false)) = (liveOf s).erase l) := by
  obtain ⟨s1, s2, e, _, hset⟩ := subs_split s k (l, true) h
  have e1 : liveOf s = liveOf s1 ++ l :: liveOf s2 := by
    rw [e, liveOf_append]; simp [liveOf]
  have e2 : liveOf (s.set k (l, false)) = liveOf s1 ++ liveOf s2 := by
    rw [hset, liveOf_append]; simp [liveOf]
  refine ⟨?_, ?_⟩
  · rw [e1, e2]; exact List.perm_middle
  · intro hnd
    have hl : l ∉ liveOf s1 := by
      intro hmem
      have := liveOf_subset s1 l hmem
      rw [e] at hnd
      simp only [List.map_append, List.map_cons] at hnd
      have := (List.nodup_append.1 hnd).2.2 this (List.mem_cons_self _ _)
      exact this
    rw [e1, e2, List.erase_append_right _ hl]; simp

theorem map_fst_set (s : List (Value × Bool)) (k : Nat) (l : Value) (b : Bool)
    (h : s[k]? = some (l, b)) (b' : Bool) :
    (s.set k (l, b')).map (fun p => p.1) = s.map (fun p => p.1) := by
  obtain ⟨s1, s2, e, _, hset⟩ := subs_split s k (l, b) h
  rw [hset, e]; simp

/-! ## The store operations keep the invariants -/

/-- What a successful `subscribe` leaves: one more pending entry, at the end, and one more
closure. -/
theorem subscribe_pending (l : Value) (st : Store) (hf : typeofFunction l = true)
    (hd : st.isDispatching = false) (hn : st.nextListeners < st.heap.length) :
    (subscribe l st).2.pending = st.pending ++ [l]
      ∧ (subscribe l st).2.subs = st.subs ++ [(l, true)] := by
  rw [subscribe_of_idle l st hf hd]
  refine ⟨?_, rfl⟩
  exact setNext_pending _ _ (ensure_next_lt st hn)

/-- What the first call of an `unsubscribe` closure leaves. -/
theorem unsubscribe_pending (k : Nat) (st : Store) (l : Value) (hk : st.subs[k]? = some (l, true))
    (hd : st.isDispatching = false) (hn : st.nextListeners < st.heap.length) :
    (unsubscribe k st).2.pending = splice st.pending (indexOf st.pending l) 1
      ∧ (unsubscribe k st).2.subs = st.subs.set k (l, false) := by
  rw [unsubscribe_of_live k st l hk hd]
  refine ⟨?_, ?_⟩
  · exact setNext_pending _ _ (ensure_next_lt _ hn)
  · simp

theorem wf_subscribe (l : Value) (st : Store) (h : WF st) : WF (subscribe l st).2 := by
  cases hd : st.isDispatching
  · cases hf : typeofFunction l
    · rw [subscribe_not_function l st hf]; exact h
    · obtain ⟨hc, hn, hp, ho⟩ := h
      obtain ⟨e1, e2⟩ := subscribe_pending l st hf hd hn
      have hlive : (subscribe l st).2.live = st.live ++ [l] := by
        simp [Store.live, e2, liveOf_append, liveOf]
      refine ⟨?_, ?_, ?_, ?_⟩
      · rw [subscribe_of_idle l st hf hd]
        have := ensure_heap_length_le st
        simp only [setNext_currentListeners, ensure_currentListeners, setNext_heap_length]
        omega
      · rw [subscribe_of_idle l st hf hd]
        simpa using ensure_next_lt st hn
      · rw [e1, hlive]; exact hp.append_right _
      · intro hnd
        rw [e2] at hnd
        simp only [List.map_append] at hnd
        rw [e1, hlive, ho (List.nodup_append.1 hnd).1]
  · rw [subscribe_dispatching l st hd]; exact h

theorem wf_unsubscribe (k : Nat) (st : Store) (h : WF st) : WF (unsubscribe k st).2 := by
  cases hd : st.isDispatching
  · cases hk : st.subs[k]? with
    | none => rw [unsubscribe_of_missing k st hk]; exact h
    | some p =>
      obtain ⟨l, b⟩ := p
      cases b
      · rw [unsubscribe_of_dead k st l hk]; exact h
      · obtain ⟨hc, hn, hp, ho⟩ := h
        obtain ⟨e1, e2⟩ := unsubscribe_pending k st l hk hd hn
        have hmem : l ∈ st.pending := hp.mem_iff.2 (liveOf_mem st.subs k l hk)
        obtain ⟨pre, post, _, _, _, hsp, her⟩ := splice_indexOf_mem l st.pending hmem
        have hpe : (unsubscribe k st).2.pending = st.pending.erase l := by
          rw [e1, hsp, her]
        obtain ⟨hperm, hnd⟩ := liveOf_set_dead st.subs k l hk
        have hlive : (unsubscribe k st).2.live = liveOf (st.subs.set k (l, false)) := by
          simp [Store.live, e2]
        refine ⟨?_, ?_, ?_, ?_⟩
        · rw [unsubscribe_of_live k st l hk hd]
          have := ensure_heap_length_le { st with subs := st.subs.set k (l, false) }
          simp only [setNext_currentListeners, ensure_currentListeners, setNext_heap_length]
          exact Nat.lt_of_lt_of_le hc this
        · rw [unsubscribe_of_live k st l hk hd]
          simpa using ensure_next_lt { st with subs := st.subs.set k (l, false) } hn
        · rw [hpe, hlive]
          have h1 : (st.pending.erase l).Perm (st.live.erase l) := hp.erase l
          have h2 : (st.live.erase l).Perm
              ((l :: liveOf (st.subs.set k (l, false))).erase l) := hperm.erase l
          simp only [List.erase_cons_head] at h2
          exact h1.trans h2
        · intro hnd'
          rw [e2, map_fst_set st.subs k l true hk false] at hnd'
          rw [hpe, hlive, hnd hnd', ho hnd']
          rfl
  · rw [unsubscribe_dispatching k st hd]; exact h

theorem frozen_ensure (ref : Nat) (st : Store) (h : Frozen ref st) :
    Frozen ref (ensureCanMutateNextListeners st)
      ∧ (ensureCanMutateNextListeners st).nextListeners ≠ ref
      ∧ (ensureCanMutateNextListeners st).array ref = st.array ref := by
  obtain ⟨hlt, himp⟩ := h
  refine ⟨⟨Nat.lt_of_lt_of_le hlt (ensure_heap_length_le st), ?_⟩, ?_, ensure_array st ref hlt⟩
  · unfold ensureCanMutateNextListeners
    split
    · intro e; simp at e; omega
    · exact himp
  · unfold ensureCanMutateNextListeners
    split
    · simp; omega
    · rename_i hne
      intro e
      exact hne (by rw [himp e, e])

theorem frozen_setNext (ref : Nat) (st : Store) (xs : List Value) (h : Frozen ref st)
    (hne : st.nextListeners ≠ ref) :
    Frozen ref (st.setNext xs) ∧ (st.setNext xs).array ref = st.array ref := by
  refine ⟨⟨by simpa using h.1, fun e => absurd e hne⟩, setNext_array_ne st xs ref (Ne.symm hne)⟩

theorem frozen_subscribe (ref : Nat) (l : Value) (st : Store) (h : Frozen ref st) :
    Frozen ref (subscribe l st).2 ∧ (subscribe l st).2.array ref = st.array ref := by
  cases hd : st.isDispatching
  · cases hf : typeofFunction l
    · rw [subscribe_not_function l st hf]; exact ⟨h, rfl⟩
    · rw [subscribe_of_idle l st hf hd]
      obtain ⟨h1, hne, e1⟩ := frozen_ensure ref st h
      obtain ⟨h2, e2⟩ := frozen_setNext ref _ (st.pending ++ [l]) h1 hne
      exact ⟨h2, e2.trans e1⟩
  · rw [subscribe_dispatching l st hd]; exact ⟨h, rfl⟩

theorem frozen_unsubscribe (ref : Nat) (k : Nat) (st : Store) (h : Frozen ref st) :
    Frozen ref (unsubscribe k st).2 ∧ (unsubscribe k st).2.array ref = st.array ref := by
  cases hd : st.isDispatching
  · cases hk : st.subs[k]? with
    | none => rw [unsubscribe_of_missing k st hk]; exact ⟨h, rfl⟩
    | some p =>
      obtain ⟨l, b⟩ := p
      cases b
      · rw [unsubscribe_of_dead k st l hk]; exact ⟨h, rfl⟩
      · rw [unsubscribe_of_live k st l hk hd]
        obtain ⟨h1, hne, e1⟩ := frozen_ensure ref { st with subs := st.subs.set k (l, false) } h
        obtain ⟨h2, e2⟩ := frozen_setNext ref _ (splice st.pending (indexOf st.pending l) 1) h1 hne
        exact ⟨h2, e2.trans e1⟩
  · rw [unsubscribe_dispatching k st hd]; exact ⟨h, rfl⟩

/-- The invariant holds in every store a run ends in. -/
theorem run_wf {env : Env} {d : Nat} {t : Task} {st st' : Store} {r : Outcome}
    {ev : List Event} (h : Run env d t st r st' ev) (hwf : WF st) : WF st' := by
  induction h with
  | getState d st => rw [getState_store]; exact hwf
  | subscribe d l st => exact wf_subscribe l st hwf
  | unsubscribe d k st => exact wf_unsubscribe k st hwf
  | dispatchInvalid => exact hwf
  | dispatchReentrant => exact hwf
  | dispatchFault d a st e st2 ev1 hv hd h1 ih1 => exact ih1 hwf
  | dispatchCommit d a st s st2 ev1 r st5 ev2 hv hd h1 h2 ih1 ih2 =>
    have h2' : WF st2 := ih1 hwf
    exact ih2 ⟨h2'.2.1, h2'.2.1, h2'.2.2.1, h2'.2.2.2⟩
  | replaceInvalid => exact hwf
  | replace d f st r st1 ev hf h1 ih1 => exact ih1 hwf
  | ret => exact hwf
  | throw => exact hwf
  | call d who c k st r st1 ev1 r2 st2 ev2 h1 h2 ih1 ih2 => exact ih2 (ih1 hwf)
  | notifyDone => exact hwf
  | notifyFault d ls i st e st1 ev1 hi h1 ih1 => exact ih1 hwf
  | notifyNext d ls i st v st1 ev1 r st2 ev2 hi h1 h2 ih1 ih2 => exact ih2 (ih1 hwf)

/-- A frozen array stays frozen, with the same contents, through every run. -/
theorem run_frozen {env : Env} {d : Nat} {t : Task} {st st' : Store} {r : Outcome}
    {ev : List Event} (h : Run env d t st r st' ev) (ref : Nat) (hfr : Frozen ref st) :
    Frozen ref st' ∧ st'.array ref = st.array ref := by
  induction h with
  | getState d st => rw [getState_store]; exact ⟨hfr, rfl⟩
  | subscribe d l st => exact frozen_subscribe ref l st hfr
  | unsubscribe d k st => exact frozen_unsubscribe ref k st hfr
  | dispatchInvalid => exact ⟨hfr, rfl⟩
  | dispatchReentrant => exact ⟨hfr, rfl⟩
  | dispatchFault d a st e st2 ev1 hv hd h1 ih1 => exact ih1 hfr
  | dispatchCommit d a st s st2 ev1 r st5 ev2 hv hd h1 h2 ih1 ih2 =>
    obtain ⟨f2, e2⟩ := ih1 hfr
    have f3 : Frozen ref (commit st2 s) := ⟨f2.1, fun e => e⟩
    obtain ⟨f5, e5⟩ := ih2 f3
    exact ⟨f5, e5.trans e2⟩
  | replaceInvalid => exact ⟨hfr, rfl⟩
  | replace d f st r st1 ev hf h1 ih1 => exact ih1 hfr
  | ret => exact ⟨hfr, rfl⟩
  | throw => exact ⟨hfr, rfl⟩
  | call d who c k st r st1 ev1 r2 st2 ev2 h1 h2 ih1 ih2 =>
    obtain ⟨f1, e1⟩ := ih1 hfr
    obtain ⟨f2, e2⟩ := ih2 f1
    exact ⟨f2, e2.trans e1⟩
  | notifyDone => exact ⟨hfr, rfl⟩
  | notifyFault d ls i st e st1 ev1 hi h1 ih1 => exact ih1 hfr
  | notifyNext d ls i st v st1 ev1 r st2 ev2 hi h1 h2 ih1 ih2 =>
    obtain ⟨f1, e1⟩ := ih1 hfr
    obtain ⟨f2, e2⟩ := ih2 f1
    exact ⟨f2, e2.trans e1⟩

theorem wf_init (reducer preloadedState : Value) : WF (Store.init reducer preloadedState) := by
  refine ⟨by simp [Store.init], by simp [Store.init], ?_, ?_⟩
  · simp [Store.init, Store.pending, Store.array, Store.live, liveOf]
  · intro _; simp [Store.init, Store.pending, Store.array, Store.live, liveOf]

/-! ## The snapshot of a notification round -/

/-- A round that returns has called, from index `i` on, exactly the entries its array had
when the round reached `i`: writes made meanwhile go to other arrays. -/
theorem notify_listenerCalls {env : Env} {d : Nat} {t : Task} {st st' : Store} {r : Outcome}
    {ev : List Event} (h : Run env d t st r st' ev) :
    ∀ ls i, t = .notify ls i → Frozen ls st → (∃ v, r = .ok v) →
      listenerCalls d ev = (st.array ls).drop i := by
  induction h with
  | notifyDone d ls i st hi =>
    intro ls' i' ht _ _
    cases ht
    rw [List.drop_eq_nil_of_le (Nat.le_of_not_lt hi)]
    rfl
  | notifyFault d ls i st e st1 ev1 hi h1 ih1 =>
    intro _ _ _ _ hok
    obtain ⟨v, hv⟩ := hok
    cases hv
  | notifyNext d ls i st v st1 ev1 r st2 ev2 hi h1 h2 ih1 ih2 =>
    intro ls' i' ht hfr hok
    cases ht
    obtain ⟨f1, e1⟩ := run_frozen h1 ls hfr
    have hrest := ih2 ls (i + 1) rfl f1 hok
    have hdeep := listenerCalls_deeper d ev1 (run_depth h1)
    have hsplit : listenerCalls d
        (Event.listener d i ((st.array ls).getD i undef) st.currentState :: ev1 ++ ev2)
        = (st.array ls).getD i undef :: listenerCalls d ev2 := by
      have := listenerCalls_append d
        ([Event.listener d i ((st.array ls).getD i undef) st.currentState] ++ ev1) ev2
      simp only [List.singleton_append] at this
      rw [this]
      have := listenerCalls_append d
        [Event.listener d i ((st.array ls).getD i undef) st.currentState] ev1
      simp only [List.singleton_append] at this
      rw [this, hdeep]; simp [listenerCalls]
    rw [hsplit, hrest, e1]
    have hget : (st.array ls).getD i undef = (st.array ls)[i] := by
      simp [List.getD_eq_getElem?_getD, List.getElem?_eq_getElem hi]
    rw [hget]
    exact (List.drop_eq_getElem_cons hi).symm
  | _ => intro _ _ ht; cases ht

/-- A dispatch that returns has called exactly the pending registry as it was when
`dispatch` was called, in its order. -/
theorem dispatch_listenerCalls {env : Env} {d : Nat} {a : Value} {st st' : Store}
    {r : Outcome} {ev : List Event} (h : Run env d (.api (.dispatch a)) st r st' ev)
    (hwf : WF st) (hok : ∃ v, r = .ok v) : listenerCalls d ev = st.pending := by
  cases h with
  | dispatchInvalid _ _ _ hv => obtain ⟨v, hv⟩ := hok; cases hv
  | dispatchReentrant _ _ _ hv _ => obtain ⟨v, hv⟩ := hok; cases hv
  | dispatchFault _ _ _ e st2 ev1 hv hd h1 => obtain ⟨v, hv⟩ := hok; cases hv
  | dispatchCommit _ _ _ s st2 ev1 r' _ ev2 hv hd h1 h2 =>
    have hst2 := run_dispatching h1 rfl
    have hn : st2.nextListeners = st.nextListeners := by rw [hst2]
    have hh : st2.heap = st.heap := by rw [hst2]
    have hok' : ∃ v, r' = .ok v := by
      obtain ⟨v, hv⟩ := hok
      cases r' with
      | ok w => exact ⟨w, rfl⟩
      | error e => cases hv
    have hfr : Frozen st2.nextListeners (commit st2 s) :=
      ⟨by simp only [commit, hh, hn]; exact hwf.2.1, fun _ => rfl⟩
    have hcalls := notify_listenerCalls h2 _ _ rfl hfr hok'
    have hdeep := listenerCalls_deeper d ev1 (run_depth h1)
    have hsplit : listenerCalls d
        (Event.reducer d st.currentReducer st.currentState a :: ev1 ++ ev2)
        = listenerCalls d ev2 := by
      have := listenerCalls_append d
        ([Event.reducer d st.currentReducer st.currentState a] ++ ev1) ev2
      simp only [List.singleton_append] at this
      rw [this]
      have := listenerCalls_append d
        [Event.reducer d st.currentReducer st.currentState a] ev1
      simp only [List.singleton_append] at this
      rw [this, hdeep]; simp [listenerCalls]
    rw [hsplit, hcalls]
    simp [commit, Store.array, Store.pending, hh, hn]

/-! ## The closures of `subscribe` -/

theorem subscribe_subs (l : Value) (st : Store) :
    (subscribe l st).2.subs = st.subs ∨ (subscribe l st).2.subs = st.subs ++ [(l, true)] := by
  cases hd : st.isDispatching
  · cases hf : typeofFunction l
    · rw [subscribe_not_function l st hf]; exact Or.inl rfl
    · rw [subscribe_of_idle l st hf hd]; exact Or.inr rfl
  · rw [subscribe_dispatching l st hd]; exact Or.inl rfl

theorem subsGrow_refl (s : List (Value × Bool)) : SubsGrow s s :=
  ⟨Nat.le_refl _, fun _ _ b h => ⟨b, h, id⟩⟩

theorem subsGrow_trans {s1 s2 s3 : List (Value × Bool)} (h1 : SubsGrow s1 s2)
    (h2 : SubsGrow s2 s3) : SubsGrow s1 s3 := by
  refine ⟨Nat.le_trans h1.1 h2.1, ?_⟩
  intro k l b h
  obtain ⟨b1, e1, i1⟩ := h1.2 k l b h
  obtain ⟨b2, e2, i2⟩ := h2.2 k l b1 e1
  exact ⟨b2, e2, fun hb => i2 (i1 hb)⟩

theorem subsGrow_subscribe (l : Value) (st : Store) : SubsGrow st.subs (subscribe l st).2.subs := by
  rcases subscribe_subs l st with e | e
  · rw [e]; exact subsGrow_refl _
  · rw [e]
    refine ⟨by simp, ?_⟩
    intro k l' b h
    have hk : k < st.subs.length := by
      rcases Nat.lt_or_ge k st.subs.length with hk | hk
      · exact hk
      · rw [List.getElem?_eq_none hk] at h; cases h
    exact ⟨b, by rw [List.getElem?_append_left hk]; exact h, id⟩

theorem subsGrow_unsubscribe (k : Nat) (st : Store) : SubsGrow st.subs (unsubscribe k st).2.subs := by
  cases hd : st.isDispatching
  · cases hk : st.subs[k]? with
    | none => rw [unsubscribe_of_missing k st hk]; exact subsGrow_refl _
    | some p =>
      obtain ⟨l, b⟩ := p
      cases b
      · rw [unsubscribe_of_dead k st l hk]; exact subsGrow_refl _
      · rw [unsubscribe_of_live k st l hk hd]
        simp only [setNext_subs, ensure_subs]
        refine ⟨by simp, ?_⟩
        intro j l' b h
        by_cases hj : k = j
        · subst hj
          rw [hk] at h
          cases h
          refine ⟨false, ?_, fun _ => rfl⟩
          have hlt : k < st.subs.length := by
            rcases Nat.lt_or_ge k st.subs.length with hlt | hlt
            · exact hlt
            · rw [List.getElem?_eq_none hlt] at hk; cases hk
          simp [List.getElem?_set, hlt]
        · exact ⟨b, by rw [List.getElem?_set_ne hj]; exact h, id⟩
  · rw [unsubscribe_dispatching k st hd]; exact subsGrow_refl _

theorem run_subs {env : Env} {d : Nat} {t : Task} {st st' : Store} {r : Outcome}
    {ev : List Event} (h : Run env d t st r st' ev) : SubsGrow st.subs st'.subs := by
  induction h with
  | getState d st => rw [getState_store]; exact subsGrow_refl _
  | subscribe d l st => exact subsGrow_subscribe l st
  | unsubscribe d k st => exact subsGrow_unsubscribe k st
  | dispatchInvalid => exact subsGrow_refl _
  | dispatchReentrant => exact subsGrow_refl _
  | dispatchFault d a st e st2 ev1 hv hd h1 ih1 => exact ih1
  | dispatchCommit d a st s st2 ev1 r st5 ev2 hv hd h1 h2 ih1 ih2 => exact subsGrow_trans ih1 ih2
  | replaceInvalid => exact subsGrow_refl _
  | replace d f st r st1 ev hf h1 ih1 => exact ih1
  | ret => exact subsGrow_refl _
  | throw => exact subsGrow_refl _
  | call d who c k st r st1 ev1 r2 st2 ev2 h1 h2 ih1 ih2 => exact subsGrow_trans ih1 ih2
  | notifyDone => exact subsGrow_refl _
  | notifyFault d ls i st e st1 ev1 hi h1 ih1 => exact ih1
  | notifyNext d ls i st v st1 ev1 r st2 ev2 hi h1 h2 ih1 ih2 => exact subsGrow_trans ih1 ih2

theorem subscribe_ok_inv (l : Value) (st : Store) (k : Nat)
    (h : (subscribe l st).1 = .ok (.unsub k)) :
    k = st.subs.length ∧ (subscribe l st).2.subs = st.subs ++ [(l, true)] := by
  cases hd : st.isDispatching
  · cases hf : typeofFunction l
    · rw [subscribe_not_function l st hf] at h; cases h
    · rw [subscribe_of_idle l st hf hd] at h ⊢
      simp only [Outcome.ok.injEq, Value.unsub.injEq] at h
      exact ⟨h.symm, rfl⟩
  · simp [subscribe, hd] at h
    split at h <;> cases h

theorem unsubscribe_ok_inv (k : Nat) (st : Store) (v : Value)
    (h : (unsubscribe k st).1 = .ok v) : ∃ l, (unsubscribe k st).2.subs[k]? = some (l, false) := by
  cases hk : st.subs[k]? with
  | none => rw [unsubscribe_of_missing k st hk] at h; cases h
  | some p =>
    obtain ⟨l, b⟩ := p
    cases b
    · rw [unsubscribe_of_dead k st l hk]; exact ⟨l, hk⟩
    · cases hd : st.isDispatching
      · rw [unsubscribe_of_live k st l hk hd]
        have hlt : k < st.subs.length := by
          rcases Nat.lt_or_ge k st.subs.length with hlt | hlt
          · exact hlt
          · rw [List.getElem?_eq_none hlt] at hk; cases hk
        exact ⟨l, by simp [List.getElem?_set, hlt]⟩
      · simp [unsubscribe, hk, hd] at h

/-- A `subscribe` call that returned the closure `k` created it during the run, and the
closure exists, with that listener, when the run ends. -/
theorem run_subscribe_event {env : Env} {d : Nat} {t : Task} {st st' : Store} {r : Outcome}
    {ev : List Event} (h : Run env d t st r st' ev) :
    ∀ (d1 : Nat) (who : Caller) (l : Value) (k : Nat),
      Event.api d1 who (.subscribe l) (.ok (.unsub k)) ∈ ev →
      st.subs.length ≤ k ∧ ∃ b, st'.subs[k]? = some (l, b) := by
  induction h with
  | getState => intro _ _ _ _ h; cases h
  | subscribe => intro _ _ _ _ h; cases h
  | unsubscribe => intro _ _ _ _ h; cases h
  | dispatchInvalid => intro _ _ _ _ h; cases h
  | dispatchReentrant => intro _ _ _ _ h; cases h
  | dispatchFault d a st e st2 ev1 hv hd h1 ih1 =>
    intro d1 who l k hmem
    rcases List.mem_cons.1 hmem with h | h
    · cases h
    · exact ih1 d1 who l k h
  | dispatchCommit d a st s st2 ev1 r st5 ev2 hv hd h1 h2 ih1 ih2 =>
    intro d1 who l k hmem
    simp only [List.cons_append, List.mem_cons, List.mem_append] at hmem
    rcases hmem with h | h | h
    · cases h
    · obtain ⟨hle, b, hb⟩ := ih1 d1 who l k h
      obtain ⟨b', hb', _⟩ := (run_subs h2).2 k l b hb
      exact ⟨hle, b', hb'⟩
    · obtain ⟨hle, hb⟩ := ih2 d1 who l k h
      exact ⟨Nat.le_trans (run_subs h1).1 hle, hb⟩
  | replaceInvalid => intro _ _ _ _ h; cases h
  | replace d f st r st1 ev hf h1 ih1 => exact ih1
  | ret => intro _ _ _ _ h; cases h
  | throw => intro _ _ _ _ h; cases h
  | call d who c k st r st1 ev1 r2 st2 ev2 h1 h2 ih1 ih2 =>
    intro d1 who' l j hmem
    simp only [List.mem_cons, List.mem_append] at hmem
    rcases hmem with h | h | h
    · obtain ⟨hle, b, hb⟩ := ih1 d1 who' l j h
      obtain ⟨b', hb', _⟩ := (run_subs h2).2 j l b hb
      exact ⟨hle, b', hb'⟩
    · simp only [Event.api.injEq] at h
      obtain ⟨_, _, hc, hr⟩ := h
      subst hc; subst hr
      obtain ⟨hr', hst1, _⟩ := run_subscribe_inv h1
      obtain ⟨hj, hsubs⟩ := subscribe_ok_inv l st j hr'.symm
      have hb : st1.subs[j]? = some (l, true) := by
        rw [hst1, hsubs, hj]; simp
      obtain ⟨b', hb', _⟩ := (run_subs h2).2 j l true hb
      exact ⟨Nat.le_of_eq hj.symm, b', hb'⟩
    · obtain ⟨hle, hb⟩ := ih2 d1 who' l j h
      exact ⟨Nat.le_trans (run_subs h1).1 hle, hb⟩
  | notifyDone => intro _ _ _ _ h; cases h
  | notifyFault d ls i st e st1 ev1 hi h1 ih1 =>
    intro d1 who l k hmem
    rcases List.mem_cons.1 hmem with h | h
    · cases h
    · exact ih1 d1 who l k h
  | notifyNext d ls i st v st1 ev1 r st2 ev2 hi h1 h2 ih1 ih2 =>
    intro d1 who l k hmem
    simp only [List.cons_append, List.mem_cons, List.mem_append] at hmem
    rcases hmem with h | h | h
    · cases h
    · obtain ⟨hle, b, hb⟩ := ih1 d1 who l k h
      obtain ⟨b', hb', _⟩ := (run_subs h2).2 k l b hb
      exact ⟨hle, b', hb'⟩
    · obtain ⟨hle, hb⟩ := ih2 d1 who l k h
      exact ⟨Nat.le_trans (run_subs h1).1 hle, hb⟩

/-- After an `unsubscribe` call that returned normally the closure is used up when the
run ends. -/
theorem run_unsubscribe_event {env : Env} {d : Nat} {t : Task} {st st' : Store} {r : Outcome}
    {ev : List Event} (h : Run env d t st r st' ev) :
    ∀ (d1 : Nat) (who : Caller) (k : Nat) (v : Value),
      Event.api d1 who (.unsubscribe k) (.ok v) ∈ ev → ∃ l, st'.subs[k]? = some (l, false) := by
  induction h with
  | getState => intro _ _ _ _ h; cases h
  | subscribe => intro _ _ _ _ h; cases h
  | unsubscribe => intro _ _ _ _ h; cases h
  | dispatchInvalid => intro _ _ _ _ h; cases h
  | dispatchReentrant => intro _ _ _ _ h; cases h
  | dispatchFault d a st e st2 ev1 hv hd h1 ih1 =>
    intro d1 who k v hmem
    rcases List.mem_cons.1 hmem with h | h
    · cases h
    · exact ih1 d1 who k v h
  | dispatchCommit d a st s st2 ev1 r st5 ev2 hv hd h1 h2 ih1 ih2 =>
    intro d1 who k v hmem
    simp only [List.cons_append, List.mem_cons, List.mem_append] at hmem
    rcases hmem with h | h | h
    · cases h
    · obtain ⟨l, hb⟩ := ih1 d1 who k v h
      obtain ⟨b', hb', hf⟩ := (run_subs h2).2 k l false hb
      exact ⟨l, by rw [hb', hf rfl]⟩
    · exact ih2 d1 who k v h
  | replaceInvalid => intro _ _ _ _ h; cases h
  | replace d f st r st1 ev hf h1 ih1 => exact ih1
  | ret => intro _ _ _ _ h; cases h
  | throw => intro _ _ _ _ h; cases h
  | call d who c k st r st1 ev1 r2 st2 ev2 h1 h2 ih1 ih2 =>
    intro d1 who' j v hmem
    simp only [List.mem_cons, List.mem_append] at hmem
    rcases hmem with h | h | h
    · obtain ⟨l, hb⟩ := ih1 d1 who' j v h
      obtain ⟨b', hb', hf⟩ := (run_subs h2).2 j l false hb
      exact ⟨l, by rw [hb', hf rfl]⟩
    · simp only [Event.api.injEq] at h
      obtain ⟨_, _, hc, hr⟩ := h
      subst hc; subst hr
      obtain ⟨hr', hst1, _⟩ := run_unsubscribe_inv h1
      obtain ⟨l, hb⟩ := unsubscribe_ok_inv j st v hr'.symm
      rw [← hst1] at hb
      obtain ⟨b', hb', hf⟩ := (run_subs h2).2 j l false hb
      exact ⟨l, by rw [hb', hf rfl]⟩
    · exact ih2 d1 who' j v h
  | notifyDone => intro _ _ _ _ h; cases h
  | notifyFault d ls i st e st1 ev1 hi h1 ih1 =>
    intro d1 who k v hmem
    rcases List.mem_cons.1 hmem with h | h
    · cases h
    · exact ih1 d1 who k v h
  | notifyNext d ls i st v st1 ev1 r st2 ev2 hi h1 h2 ih1 ih2 =>
    intro d1 who k v' hmem
    simp only [List.cons_append, List.mem_cons, List.mem_append] at hmem
    rcases hmem with h | h | h
    · cases h
    · obtain ⟨l, hb⟩ := ih1 d1 who k v' h
      obtain ⟨b', hb', hf⟩ := (run_subs h2).2 k l false hb
      exact ⟨l, by rw [hb', hf rfl]⟩
    · exact ih2 d1 who k v' h

/-- Registration calls keep the invariant. -/
theorem wf_regCalls (cs : List RegCall) : ∀ st, WF st → WF (regCalls cs st) := by
  induction cs with
  | nil => intro st h; exact h
  | cons c cs ih =>
    intro st h
    cases c with
    | subscribe l => exact ih _ (wf_subscribe l st h)
    | unsubscribe k => exact ih _ (wf_unsubscribe k st h)

/-! ## More fuel does not change a result -/

theorem step_mono (env : Env) (rec rec' : Rec)
    (hrec : ∀ d t st y, rec d t st = some y → rec' d t st = some y) :
    ∀ d t st x, step env rec d t st = some x → step env rec' d t st = some x := by
  intro d t st x h
  cases t with
  | api c =>
    cases c with
    | getState => exact h
    | subscribe l => exact h
    | unsubscribe k => exact h
    | dispatch a =>
      simp only [step, dispatch] at h ⊢
      split
      · simpa [*] using h
      · split
        · simpa [*] using h
        · split
          · simpa [*] using h
          · rename_i h1 h2 h3
            simp only [h1, h2, h3, if_false] at h
            cases hr : rec (d + 1)
                (.run .reducer (callFn env st.currentReducer [st.currentState, a]))
                { st with isDispatching := true } with
            | none => rw [hr] at h; cases h
            | some y =>
              rw [hrec _ _ _ _ hr]
              rw [hr] at h
              obtain ⟨r, st2, ev1⟩ := y
              cases r with
              | error e => exact h
              | ok s =>
                simp only at h ⊢
                cases hn : rec d (.notify st2.nextListeners 0)
                    { currentReducer := st2.currentReducer, currentState := s, heap := st2.heap,
                      currentListeners := st2.nextListeners, nextListeners := st2.nextListeners,
                      isDispatching := false, subs := st2.subs } with
                | none => rw [hn] at h; cases h
                | some z =>
                  rw [hrec _ _ _ _ hn]
                  rw [hn] at h
                  exact h
    | replaceReducer f =>
      simp only [step, replaceReducer] at h ⊢
      split
      · simpa [*] using h
      · rename_i h1
        simp only [h1, if_false] at h
        cases hr : rec d (.api (.dispatch (.obj true [("type", .str env.REPLACE)])))
            { st with currentReducer := f } with
        | none => rw [hr] at h; cases h
        | some y =>
          rw [hrec _ _ _ _ hr]
          rw [hr] at h
          exact h
  | run who p =>
    cases p with
    | ret v => exact h
    | throw e => exact h
    | call c k =>
      simp only [step, runProg] at h ⊢
      cases hr : rec d (.api c) st with
      | none => rw [hr] at h; cases h
      | some y =>
        rw [hrec _ _ _ _ hr]
        rw [hr] at h
        obtain ⟨r, st1, ev1⟩ := y
        simp only at h ⊢
        cases hk : rec d (.run who (k r)) st1 with
        | none => rw [hk] at h; cases h
        | some z =>
          rw [hrec _ _ _ _ hk]
          rw [hk] at h
          exact h
  | notify ls i =>
    simp only [step, notifyFrom] at h ⊢
    split
    · rename_i hi
      simp only [hi, if_true] at h
      cases hr : rec (d + 1) (.run .listener (callFn env ((st.array ls).getD i undef) [])) st with
      | none => rw [hr] at h; cases h
      | some y =>
        rw [hrec _ _ _ _ hr]
        rw [hr] at h
        obtain ⟨r, st1, ev1⟩ := y
        cases r with
        | error e => exact h
        | ok v =>
          simp only at h ⊢
          cases hn : rec d (.notify ls (i + 1)) st1 with
          | none => rw [hn] at h; cases h
          | some z =>
            rw [hrec _ _ _ _ hn]
            rw [hn] at h
            exact h
    · rename_i hi
      simpa [hi] using h

/-- A run that ends with fuel `n` ends in the same way with any larger fuel. -/
theorem exec_mono (env : Env) : ∀ (n m : Nat), n ≤ m → ∀ d t st x,
    exec env n d t st = some x → exec env m d t st = some x := by
  have hsucc : ∀ n, ∀ d t st x, exec env n d t st = some x → exec env (n + 1) d t st = some x := by
    intro n
    induction n with
    | zero => intro d t st x h; simp [exec] at h
    | succ n ih =>
      intro d t st x h
      exact step_mono env (exec env n) (exec env (n + 1)) ih d t st x h
  intro n m hnm
  induction hnm with
  | refl => intro d t st x h; exact h
  | step _ ih => intro d t st x h; exact hsucc _ d t st x (ih d t st x h)

/-- A dispatch whose reducer and whose round return, each with some fuel, returns with any
fuel larger than both. -/
theorem exec_dispatch_commit_ge (env : Env) (n1 n2 d : Nat) (st : Store) (a s : Value)
    (st2 : Store) (ev1 : List Event) (r : Outcome) (st5 : Store) (ev2 : List Event)
    (hidle : st.isDispatching = false) (hvalid : validAction a = true)
    (hred : exec env n1 (d + 1)
      (.run .reducer (callFn env st.currentReducer [st.currentState, a]))
      { st with isDispatching := true } = some (.ok s, st2, ev1))
    (hround : exec env n2 d (.notify st2.nextListeners 0) (commit st2 s) = some (r, st5, ev2)) :
    ∀ m, max n1 n2 < m → exec env m d (.api (.dispatch a)) st
      = some (r.returning a, st5, .reducer d st.currentReducer st.currentState a :: ev1 ++ ev2) := by
  intro m hm
  have h1 := exec_mono env n1 (max n1 n2) (Nat.le_max_left _ _) _ _ _ _ hred
  have h2 := exec_mono env n2 (max n1 n2) (Nat.le_max_right _ _) _ _ _ _ hround
  exact exec_mono env (max n1 n2 + 1) m hm _ _ _ _
    (exec_dispatch_commit env (max n1 n2) d st a s st2 ev1 r st5 ev2 hidle hvalid h1 h2)

/-! ## Listeners are called after the last commit -/

theorem settled_prepend {f s : Value} {ev : List Event} (xs : List Event) (h : Settled f s ev) :
    Settled f s (xs ++ ev) := by
  obtain ⟨pre, post, e, hno, hl⟩ := h
  exact ⟨xs ++ pre, post, by rw [e, List.append_assoc], hno, hl⟩

theorem settled_append {f s : Value} {ev : List Event} (ys : List Event) (h : Settled f s ev)
    (hys : ∀ e ∈ ys, e.isReducer = false) : Settled f s (ev ++ ys) := by
  obtain ⟨pre, post, e, hno, d, i, hl⟩ := h
  refine ⟨pre, post ++ ys, by rw [e, List.append_assoc], ?_, d, i, List.mem_append_left _ hl⟩
  intro x hx
  rcases List.mem_append.1 hx with hx | hx
  · exact hno x hx
  · exact hys x hx

theorem no_reducer_of_not_exists {ev : List Event} (h : ¬ ∃ e ∈ ev, e.isReducer = true) :
    ∀ e ∈ ev, e.isReducer = false := by
  intro e he
  cases hr : e.isReducer
  · rfl
  · exact absurd ⟨e, he, hr⟩ h

theorem mem_listenerCalls {d : Nat} {f : Value} {ev : List Event} (h : f ∈ listenerCalls d ev) :
    ∃ i s, Event.listener d i f s ∈ ev := by
  simp only [listenerCalls, List.mem_filterMap] at h
  obtain ⟨e, he, hf⟩ := h
  cases e with
  | reducer d' g s a => simp at hf
  | api d' who c r => simp at hf
  | listener d' i g s =>
    simp only at hf
    split at hf
    · rename_i hd
      cases hf
      subst hd
      exact ⟨i, s, he⟩
    · cases hf

theorem mem_listenerStates {d i : Nat} {f s : Value} {ev : List Event}
    (h : Event.listener d i f s ∈ ev) : s ∈ listenerStates d ev := by
  simp only [listenerStates, List.mem_filterMap]
  exact ⟨_, h, by simp⟩

/-- A subscription that is live when a run ends was live, with the same listener, in every
store in which it existed before. -/
theorem live_before {s s' : List (Value × Bool)} (hg : SubsGrow s s') {k : Nat} {L : Value}
    {b : Bool} (hk : s[k]? = some (L, b)) (hk' : s'[k]? = some (L, true)) : b = true := by
  cases b
  · obtain ⟨b', hb', hf⟩ := hg.2 k L false hk
    rw [hk'] at hb'
    have := hf rfl
    cases hb'
    cases this
  · rfl

theorem subs_after {s s' : List (Value × Bool)} (hg : SubsGrow s s') {k : Nat} {L : Value}
    {b : Bool} (hk : s[k]? = some (L, b)) : ∃ b', s'[k]? = some (L, b') := by
  obtain ⟨b', hb', _⟩ := hg.2 k L b hk
  exact ⟨b', hb'⟩

/-- An API call that reports a reducer call is a `dispatch` or a `replaceReducer`. -/
theorem api_reducer_event {env : Env} {d : Nat} {c : Call} {st st' : Store} {r : Outcome}
    {ev : List Event} (h : Run env d (.api c) st r st' ev) (hx : ∃ e ∈ ev, e.isReducer = true) :
    (∃ a, c = .dispatch a) ∨ (∃ f, c = .replaceReducer f) := by
  cases c with
  | getState => cases h; obtain ⟨e, he, _⟩ := hx; cases he
  | subscribe l => cases h; obtain ⟨e, he, _⟩ := hx; cases he
  | unsubscribe k => cases h; obtain ⟨e, he, _⟩ := hx; cases he
  | dispatch a => exact Or.inl ⟨a, rfl⟩
  | replaceReducer f => exact Or.inr ⟨f, rfl⟩

/-- In a run in which every dispatch made by a listener returns, and which reports a
reducer call: every subscription that existed at the start and is live at the end has had
its listener entered after the last reducer call, in the state the run ends in. For an API
call the run itself has to return. -/
theorem run_settles {env : Env} {d : Nat} {t : Task} {st st' : Store} {r : Outcome}
    {ev : List Event} (h : Run env d t st r st' ev) :
    WF st → Consistent t st → (∀ e ∈ ev, NestedOk e) → (∀ c, t = .api c → ∃ v, r = .ok v) →
    (∃ e ∈ ev, e.isReducer = true) →
    ∀ (k : Nat) (L : Value) (b : Bool), st.subs[k]? = some (L, b) →
      st'.subs[k]? = some (L, true) → Settled L st'.currentState ev := by
  induction h with
  | getState => intro _ _ _ _ hx; obtain ⟨e, he, _⟩ := hx; cases he
  | subscribe => intro _ _ _ _ hx; obtain ⟨e, he, _⟩ := hx; cases he
  | unsubscribe => intro _ _ _ _ hx; obtain ⟨e, he, _⟩ := hx; cases he
  | dispatchInvalid => intro _ _ _ _ hx; obtain ⟨e, he, _⟩ := hx; cases he
  | dispatchReentrant => intro _ _ _ _ hx; obtain ⟨e, he, _⟩ := hx; cases he
  | dispatchFault d a st e st2 ev1 hv hd h1 ih1 =>
    intro _ _ _ hok
    obtain ⟨v, hv⟩ := hok _ rfl
    cases hv
  | dispatchCommit d a st s st2 ev1 r st5 ev2 hv hd h1 h2 ih1 ih2 =>
    intro hwf _ hnest hok _ k L b hk hk'
    have hst2 := run_dispatching h1 rfl
    have hn : st2.nextListeners = st.nextListeners := by rw [hst2]
    have hh : st2.heap = st.heap := by rw [hst2]
    have hs : st2.subs = st.subs := by rw [hst2]
    have hwf2 : WF st2 := run_wf h1 hwf
    have hwfc : WF (commit st2 s) := ⟨hwf2.2.1, hwf2.2.1, hwf2.2.2.1, hwf2.2.2.2⟩
    have hkc : (commit st2 s).subs[k]? = some (L, b) := by
      show st2.subs[k]? = some (L, b)
      rw [hs]; exact hk
    have hnest2 : ∀ e ∈ ev2, NestedOk e := fun e he => hnest e (by simp [he])
    by_cases hx2 : ∃ e ∈ ev2, e.isReducer = true
    · have := ih2 hwfc (by simp [Consistent, commit]) hnest2 (fun c hc => by cases hc) hx2 k L b
        hkc hk'
      have := settled_prepend (Event.reducer d st.currentReducer st.currentState a :: ev1) this
      simpa using this
    · have hno := no_reducer_of_not_exists hx2
      have hok' : ∃ v, r = .ok v := by
        obtain ⟨v, hv⟩ := hok _ rfl
        cases r with
        | ok w => exact ⟨w, rfl⟩
        | error e => cases hv
      have hb : b = true := live_before (run_subs h2) hkc hk'
      subst hb
      have hmem : L ∈ st.pending := hwf.2.2.1.mem_iff.2 (liveOf_mem st.subs k L hk)
      have hfr : Frozen st2.nextListeners (commit st2 s) :=
        ⟨by simp only [commit, hh, hn]; exact hwf.2.1, fun _ => rfl⟩
      have hcalls := notify_listenerCalls h2 _ _ rfl hfr hok'
      have hsnap : (commit st2 s).array st2.nextListeners = st.pending := by
        simp [commit, Store.array, Store.pending, hh, hn]
      rw [hsnap, List.drop_zero] at hcalls
      obtain ⟨i, s', hev⟩ := mem_listenerCalls (by rw [hcalls]; exact hmem)
      have hs' : s' = s := notify_states h2 _ _ rfl hno s' (mem_listenerStates hev)
      have hfin : st5.currentState = s := run_state h2 hno
      subst hs'
      refine ⟨Event.reducer d st.currentReducer st.currentState a :: ev1, ev2, by simp, hno,
        d, i, ?_⟩
      rw [hfin]; exact hev
  | replaceInvalid => intro _ _ _ _ hx; obtain ⟨e, he, _⟩ := hx; cases he
  | replace d f st r st1 ev hf h1 ih1 =>
    intro hwf _ hnest hok hx k L b hk hk'
    have hok' : ∃ v, r = .ok v := by
      obtain ⟨v, hv⟩ := hok _ rfl
      cases r with
      | ok w => exact ⟨w, rfl⟩
      | error e => cases hv
    exact ih1 hwf (by simp [Consistent]) hnest (fun _ _ => hok') hx k L b hk hk'
  | ret => intro _ _ _ _ hx; obtain ⟨e, he, _⟩ := hx; cases he
  | throw => intro _ _ _ _ hx; obtain ⟨e, he, _⟩ := hx; cases he
  | call d who c k st r st1 ev1 r2 st2 ev2 h1 h2 ih1 ih2 =>
    intro hwf hc hnest _ hx j L b hk hk'
    have hf1 : st1.isDispatching = st.isDispatching := run_flag h1
    have hwf1 : WF st1 := run_wf h1 hwf
    obtain ⟨b1, hk1⟩ := subs_after (run_subs h1) hk
    have hnest1 : ∀ e ∈ ev1, NestedOk e := fun e he => hnest e (by simp [he])
    have hnest2 : ∀ e ∈ ev2, NestedOk e := fun e he => hnest e (by simp [he])
    have hc2 : Consistent (.run who (k r)) st1 := by
      cases who with
      | reducer => simp only [Consistent]; rw [hf1]; exact hc
      | listener => simp only [Consistent]; rw [hf1]; exact hc
    by_cases hx2 : ∃ e ∈ ev2, e.isReducer = true
    · have := ih2 hwf1 hc2 hnest2 (fun c hc => by cases hc) hx2 j L b1 hk1 hk'
      have := settled_prepend (ev1 ++ [Event.api d who c r]) this
      simpa using this
    · have hno := no_reducer_of_not_exists hx2
      have hx1 : ∃ e ∈ ev1, e.isReducer = true := by
        obtain ⟨e, he, hr⟩ := hx
        simp only [List.mem_append, List.mem_cons] at he
        rcases he with he | he | he
        · exact ⟨e, he, hr⟩
        · subst he; simp [Event.isReducer] at hr
        · exact absurd ⟨e, he, hr⟩ hx2
      have hb1 : b1 = true := live_before (run_subs h2) hk1 hk'
      subst hb1
      have hrok : ∃ v, r = .ok v := by
        cases who with
        | reducer =>
          have hd : st.isDispatching = true := hc
          obtain ⟨e, he, hr⟩ := hx1
          have := (run_dispatching_events h1 hd (fun _ _ h => by cases h) e he).1
          rw [this] at hr; cases hr
        | listener =>
          have hev := hnest (Event.api d .listener c r) (by simp)
          rcases api_reducer_event h1 hx1 with ⟨a, rfl⟩ | ⟨f, rfl⟩
          · simpa [NestedOk] using hev
          · simpa [NestedOk] using hev
      have hset := ih1 hwf (by simp [Consistent]) hnest1 (fun _ _ => hrok) hx1 j L b hk hk1
      have hst : st2.currentState = st1.currentState := run_state h2 hno
      rw [hst]
      refine settled_append (Event.api d who c r :: ev2) hset ?_
      intro e he
      rcases List.mem_cons.1 he with he | he
      · subst he; rfl
      · exact hno e he
  | notifyDone => intro _ _ _ _ hx; obtain ⟨e, he, _⟩ := hx; cases he
  | notifyFault d ls i st e st1 ev1 hi h1 ih1 =>
    intro hwf hc hnest _ hx k L b hk hk'
    have hnest1 : ∀ e ∈ ev1, NestedOk e := fun e he => hnest e (by simp [he])
    have hx1 : ∃ e ∈ ev1, e.isReducer = true := by
      obtain ⟨e, he, hr⟩ := hx
      rcases List.mem_cons.1 he with he | he
      · subst he; simp [Event.isReducer] at hr
      · exact ⟨e, he, hr⟩
    have := ih1 hwf hc hnest1 (fun c hc => by cases hc) hx1 k L b hk hk'
    exact settled_prepend [Event.listener d i ((st.array ls).getD i undef) st.currentState] this
  | notifyNext d ls i st v st1 ev1 r st2 ev2 hi h1 h2 ih1 ih2 =>
    intro hwf hc hnest _ hx k L b hk hk'
    have hf1 : st1.isDispatching = st.isDispatching := run_flag h1
    have hwf1 : WF st1 := run_wf h1 hwf
    obtain ⟨b1, hk1⟩ := subs_after (run_subs h1) hk
    have hnest1 : ∀ e ∈ ev1, NestedOk e := fun e he => hnest e (by simp [he])
    have hnest2 : ∀ e ∈ ev2, NestedOk e := fun e he => hnest e (by simp [he])
    have hc2 : Consistent (.notify ls (i + 1)) st1 := by
      simp only [Consistent]; rw [hf1]; exact hc
    by_cases hx2 : ∃ e ∈ ev2, e.isReducer = true
    · have := ih2 hwf1 hc2 hnest2 (fun c hc => by cases hc) hx2 k L b1 hk1 hk'
      have := settled_prepend
        (Event.listener d i ((st.array ls).getD i undef) st.currentState :: ev1) this
      simpa using this
    · have hno := no_reducer_of_not_exists hx2
      have hx1 : ∃ e ∈ ev1, e.isReducer = true := by
        obtain ⟨e, he, hr⟩ := hx
        simp only [List.cons_append, List.mem_cons, List.mem_append] at he
        rcases he with he | he | he
        · subst he; simp [Event.isReducer] at hr
        · exact ⟨e, he, hr⟩
        · exact absurd ⟨e, he, hr⟩ hx2
      have hb1 : b1 = true := live_before (run_subs h2) hk1 hk'
      subst hb1
      have hset := ih1 hwf hc hnest1 (fun c hc => by cases hc) hx1 k L b hk hk1
      have hst : st2.currentState = st1.currentState := run_state h2 hno
      rw [hst]
      have := settled_append ev2 hset hno
      have := settled_prepend
        [Event.listener d i ((st.array ls).getD i undef) st.currentState] this
      simpa using this

/-- A dispatch that returns started with the flag released and reports its reducer call
first. -/
theorem run_dispatch_ok_inv {env : Env} {d : Nat} {a : Value} {st st' : Store} {r : Outcome}
    {ev : List Event} (h : Run env d (.api (.dispatch a)) st r st' ev) (hok : ∃ v, r = .ok v) :
    st.isDispatching = false ∧ validAction a = true ∧ r = .ok a
      ∧ ∃ rest, ev = Event.reducer d st.currentReducer st.currentState a :: rest := by
  cases h with
  | dispatchInvalid _ _ _ hv => obtain ⟨v, hv⟩ := hok; cases hv
  | dispatchReentrant _ _ _ hv _ => obtain ⟨v, hv⟩ := hok; cases hv
  | dispatchFault _ _ _ e st2 ev1 hv hd h1 => obtain ⟨v, hv⟩ := hok; cases hv
  | dispatchCommit _ _ _ s st2 ev1 r' _ ev2 hv hd h1 h2 =>
    refine ⟨hd, hv, ?_, _, rfl⟩
    obtain ⟨v, hv⟩ := hok
    cases r' with
    | ok w => rfl
    | error e => cases hv

/-! ## The active reducer -/

theorem validAction_replaceAction (env : Env) : validAction (replaceAction env) = true := by
  simp [validAction, replaceAction, isPlainObject, getProp, List.lookup, typeofUndefined]

/-- Only `replaceReducer` changes the active reducer: a run other than a direct
`replaceReducer` call, in which user code makes no such call, ends with the reducer it
started with. -/
theorem run_reducer {env : Env} {d : Nat} {t : Task} {st st' : Store} {r : Outcome}
    {ev : List Event} (h : Run env d t st r st' ev) :
    (∀ f, t ≠ .api (.replaceReducer f)) → (∀ e ∈ ev, e.isReplace = false) →
    st'.currentReducer = st.currentReducer := by
  induction h with
  | getState d st => intro _ _; rw [getState_store]
  | subscribe d l st =>
    intro _ _
    cases hd : st.isDispatching
    · cases hf : typeofFunction l
      · rw [subscribe_not_function l st hf]
      · rw [subscribe_of_idle l st hf hd]; simp
    · rw [subscribe_dispatching l st hd]
  | unsubscribe d k st =>
    intro _ _
    cases hd : st.isDispatching
    · cases hk : st.subs[k]? with
      | none => rw [unsubscribe_of_missing k st hk]
      | some p =>
        obtain ⟨l, b⟩ := p
        cases b
        · rw [unsubscribe_of_dead k st l hk]
        · rw [unsubscribe_of_live k st l hk hd]; simp
    · rw [unsubscribe_dispatching k st hd]
  | dispatchInvalid => intro _ _; rfl
  | dispatchReentrant => intro _ _; rfl
  | dispatchFault d a st e st2 ev1 hv hd h1 ih1 =>
    intro _ hno
    exact ih1 (fun _ h => by cases h) (fun e he => hno e (by simp [he]))
  | dispatchCommit d a st s st2 ev1 r st5 ev2 hv hd h1 h2 ih1 ih2 =>
    intro _ hno
    rw [ih2 (fun _ h => by cases h) (fun e he => hno e (by simp [he]))]
    exact ih1 (fun _ h => by cases h) (fun e he => hno e (by simp [he]))
  | replaceInvalid => intro _ _; rfl
  | replace d f st r st1 ev hf h1 ih1 => intro ht _; exact absurd rfl (ht f)
  | ret => intro _ _; rfl
  | throw => intro _ _; rfl
  | call d who c k st r st1 ev1 r2 st2 ev2 h1 h2 ih1 ih2 =>
    intro _ hno
    rw [ih2 (fun _ h => by cases h) (fun e he => hno e (by simp [he]))]
    refine ih1 ?_ (fun e he => hno e (by simp [he]))
    intro f hc
    cases hc
    have := hno (Event.api d who (.replaceReducer f) r) (by simp)
    simp [Event.isReplace] at this
  | notifyDone => intro _ _; rfl
  | notifyFault d ls i st e st1 ev1 hi h1 ih1 =>
    intro _ hno
    exact ih1 (fun _ h => by cases h) (fun e he => hno e (by simp [he]))
  | notifyNext d ls i st v st1 ev1 r st2 ev2 hi h1 h2 ih1 ih2 =>
    intro _ hno
    rw [ih2 (fun _ h => by cases h) (fun e he => hno e (by simp [he]))]
    exact ih1 (fun _ h => by cases h) (fun e he => hno e (by simp [he]))

/-- Unfolding of `replaceReducer` for a callable argument. -/
theorem exec_replaceReducer (env : Env) (n d : Nat) (f : Value) (st : Store) (r : Outcome)
    (st1 : Store) (ev : List Event) (hf : typeofFunction f = true)
    (h : exec env n d (.api (.dispatch (replaceAction env))) { st with currentReducer := f }
      = some (r, st1, ev)) :
    exec env (n + 1) d (.api (.replaceReducer f)) st = some (r.returning undef, st1, ev) := by
  simp only [replaceAction] at h
  simp only [exec, step, replaceReducer, hf, Bool.not_true, Bool.false_eq_true, if_false, h]
  cases r <;> rfl

/-- A `replaceReducer` call with a callable argument made while the flag is set fails with
ReentrantDispatchError, but only after line 249 has replaced the reducer. -/
theorem replaceReducer_dispatching (env : Env) (n d : Nat) (st : Store) (f : Value)
    (hf : typeofFunction f = true) (hd : st.isDispatching = true) :
    exec env (n + 2) d (.api (.replaceReducer f)) st
      = some (.error .reentrantDispatch, { st with currentReducer := f }, []) := by
  have hv := validAction_replaceAction env
  simp only [validAction, replaceAction, Bool.and_eq_true, Bool.not_eq_true'] at hv
  simp [exec, step, replaceReducer, dispatch, hf, hd, hv.1, hv.2]

/-! ## The constructor -/

theorem validAction_initAction (env : Env) : validAction (initAction env) = true := by
  simp [validAction, initAction, isPlainObject, getProp, List.lookup, typeofUndefined]

/-- Unfolding of `createStore` without enhancer, for a callable reducer and a preloaded
state that is not callable. -/
theorem createStore_plain (env : Env) (enh : Nat → Enhancer) (n : Nat) (r p : Value)
    (hr : typeofFunction r = true) (hp : typeofFunction p = false) :
    createStore env enh (n + 1) r p undef =
      match exec env n 0 (.api (.dispatch (initAction env))) (Store.init r p) with
      | none => none
      | some (.error e, _, ev) => some (.error e, [.raw (initAction env) (.error e) ev])
      | some (.ok v, st, ev) =>
        some (.ok { store := st, cell := .raw, dispatch := .raw },
          [.raw (initAction env) (.ok v) ev]) := by
  simp [createStore, hr, hp, undef, typeofUndefined]

/-- The store after the INIT dispatch of `createStore`, when the reducer returns `s`. -/
theorem exec_init (env : Env) (n : Nat) (r p s : Value) (st2 : Store) (ev1 : List Event)
    (hred : exec env n 1 (.run .reducer (callFn env r [p, initAction env]))
      { Store.init r p with isDispatching := true } = some (.ok s, st2, ev1)) :
    ∀ m, max n 1 < m → exec env m 0 (.api (.dispatch (initAction env))) (Store.init r p)
      = some (.ok (initAction env), Store.init st2.currentReducer s,
          .reducer 0 r p (initAction env) :: ev1 ++ []) := by
  have hst2 := run_dispatching (exec_run env _ _ _ _ _ _ _ hred) rfl
  have hc : commit st2 s = Store.init st2.currentReducer s := by
    rw [hst2]; rfl
  have hn : st2.nextListeners = 0 := by rw [hst2]; rfl
  have hround : exec env 1 0 (.notify st2.nextListeners 0) (commit st2 s)
      = some (.ok undef, Store.init st2.currentReducer s, []) := by
    rw [hc, hn]
    simp [exec, step, notifyFrom, Store.array, Store.init]
  intro m hm
  have := exec_dispatch_commit_ge env n 1 0 (Store.init r p) (initAction env) s st2 ev1
    (.ok undef) _ [] rfl (validAction_initAction env) hred hround m hm
  simpa [Outcome.returning] using this

/-! ## The cell of `applyMiddleware` -/

/-- No run of middleware code writes the cell. -/
theorem mexec_cell (env : Env) (mws : List Middleware) : ∀ (n : Nat) (t : MTask) (st : MState)
    (r : Outcome) (st' : MState) (ev : List CEvent),
    mexec env mws n t st = some (r, st', ev) → st'.cell = st.cell := by
  intro n
  induction n with
  | zero => intro t st r st' ev h; simp [mexec] at h
  | succ n ih =>
    intro t st r st' ev h
    cases t with
    | call f a =>
      cases f with
      | guard =>
        simp only [mexec, Option.some.injEq, Prod.mk.injEq] at h
        obtain ⟨_, rfl, _⟩ := h
        rfl
      | raw =>
        simp only [mexec] at h
        split at h
        · cases h
        · simp only [Option.some.injEq, Prod.mk.injEq] at h
          obtain ⟨_, rfl, _⟩ := h
          rfl
      | layer i nxt =>
        simp only [mexec] at h
        split at h
        · simp only [Option.some.injEq, Prod.mk.injEq] at h
          obtain ⟨_, rfl, _⟩ := h
          rfl
        · exact ih _ _ _ _ _ h
    | run i nxt p =>
      cases p with
      | ret v =>
        simp only [mexec, Option.some.injEq, Prod.mk.injEq] at h
        obtain ⟨_, rfl, _⟩ := h
        rfl
      | throw e =>
        simp only [mexec, Option.some.injEq, Prod.mk.injEq] at h
        obtain ⟨_, rfl, _⟩ := h
        rfl
      | call c k =>
        simp only [mexec] at h
        split at h
        · cases h
        · rename_i r1 st1 ev1 hcalled
          have h1 : st1.cell = st.cell := by
            cases c with
            | getState =>
              simp only [Option.some.injEq, Prod.mk.injEq] at hcalled
              obtain ⟨_, rfl, _⟩ := hcalled
              rfl
            | log tag =>
              simp only [Option.some.injEq, Prod.mk.injEq] at hcalled
              obtain ⟨_, rfl, _⟩ := hcalled
              rfl
            | dispatch a => exact ih _ _ _ _ _ hcalled
            | next a =>
              cases nxt with
              | none =>
                simp only [Option.some.injEq, Prod.mk.injEq] at hcalled
                obtain ⟨_, rfl, _⟩ := hcalled
                rfl
              | some f => exact ih _ _ _ _ _ hcalled
          split at h
          · cases h
          · rename_i r2 st2 ev2 hk
            simp only [Option.some.injEq, Prod.mk.injEq] at h
            obtain ⟨_, rfl, _⟩ := h
            rw [ih _ _ _ _ _ hk, h1]

/-- While the cell holds the guard, every `dispatch` call of middleware code gets
ReentrantConstructionError. -/
theorem mexec_guard (env : Env) (mws : List Middleware) : ∀ (n : Nat) (t : MTask) (st : MState)
    (r : Outcome) (st' : MState) (ev : List CEvent),
    mexec env mws n t st = some (r, st', ev) → st.cell = .guard →
    ∀ i a out, CEvent.call i (.dispatch a) out ∈ ev → out = .error .reentrantConstruction := by
  intro n
  induction n with
  | zero => intro t st r st' ev h; simp [mexec] at h
  | succ n ih =>
    intro t st r st' ev h hg
    cases t with
    | call f a =>
      cases f with
      | guard =>
        simp only [mexec, Option.some.injEq, Prod.mk.injEq] at h
        obtain ⟨_, _, rfl⟩ := h
        intro i a out hm; cases hm
      | raw =>
        simp only [mexec] at h
        split at h
        · cases h
        · simp only [Option.some.injEq, Prod.mk.injEq] at h
          obtain ⟨_, _, rfl⟩ := h
          intro i a out hm
          simp at hm
      | layer i nxt =>
        simp only [mexec] at h
        split at h
        · simp only [Option.some.injEq, Prod.mk.injEq] at h
          obtain ⟨_, _, rfl⟩ := h
          intro i a out hm; cases hm
        · exact ih _ _ _ _ _ h hg
    | run i nxt p =>
      cases p with
      | ret v =>
        simp only [mexec, Option.some.injEq, Prod.mk.injEq] at h
        obtain ⟨_, _, rfl⟩ := h
        intro i a out hm; cases hm
      | throw e =>
        simp only [mexec, Option.some.injEq, Prod.mk.injEq] at h
        obtain ⟨_, _, rfl⟩ := h
        intro i a out hm; cases hm
      | call c k =>
        simp only [mexec] at h
        split at h
        · cases h
        · rename_i r1 st1 ev1 hcalled
          have h1 : st1.cell = .guard ∧
              (∀ j b out, CEvent.call j (.dispatch b) out ∈ ev1 →
                out = .error .reentrantConstruction) ∧
              (∀ b, c = .dispatch b → r1 = .error .reentrantConstruction) := by
            cases c with
            | getState =>
              simp only [Option.some.injEq, Prod.mk.injEq] at hcalled
              obtain ⟨_, rfl, rfl⟩ := hcalled
              refine ⟨hg, ?_, ?_⟩
              · intro _ _ _ hm; cases hm
              · intro _ hc; cases hc
            | log tag =>
              simp only [Option.some.injEq, Prod.mk.injEq] at hcalled
              obtain ⟨_, rfl, rfl⟩ := hcalled
              refine ⟨hg, ?_, ?_⟩
              · intro _ _ _ hm; cases hm
              · intro _ hc; cases hc
            | dispatch a =>
              refine ⟨by rw [mexec_cell env mws _ _ _ _ _ _ hcalled]; exact hg,
                ih _ _ _ _ _ hcalled hg, ?_⟩
              intro b _
              rw [hg] at hcalled
              cases n with
              | zero => simp [mexec] at hcalled
              | succ n =>
                simp only [mexec, Option.some.injEq, Prod.mk.injEq] at hcalled
                exact hcalled.1.symm
            | next a =>
              cases nxt with
              | none =>
                simp only [Option.some.injEq, Prod.mk.injEq] at hcalled
                obtain ⟨_, rfl, rfl⟩ := hcalled
                refine ⟨hg, ?_, ?_⟩
                · intro _ _ _ hm; cases hm
                · intro _ hc; cases hc
              | some f =>
                refine ⟨by rw [mexec_cell env mws _ _ _ _ _ _ hcalled]; exact hg,
                  ih _ _ _ _ _ hcalled hg, ?_⟩
                intro _ hc; cases hc
          split at h
          · cases h
          · rename_i r2 st2 ev2 hk
            simp only [Option.some.injEq, Prod.mk.injEq] at h
            obtain ⟨_, _, rfl⟩ := h
            intro j b out hm
            simp only [List.mem_append, List.mem_cons] at hm
            rcases hm with hm | hm | hm
            · exact h1.2.1 j b out hm
            · simp only [CEvent.call.injEq] at hm
              obtain ⟨_, hc, hout⟩ := hm
              rw [hout]
              exact h1.2.2 b hc.symm
            · exact ih _ _ _ _ _ hk h1.1 j b out hm

/-- The factories run with the guard in the cell: they leave it there, and every `dispatch`
they call gets the guard's fault. -/
theorem runFactories_guard (env : Env) (mws : List Middleware) (fuel : Nat) :
    ∀ (ms : List Middleware) (i : Nat) (st : MState) (r : Outcome) (st' : MState)
      (ev : List CEvent),
    runFactories env mws fuel i ms st = some (r, st', ev) → st.cell = .guard →
    st'.cell = .guard ∧
      ∀ j a out, CEvent.call j (.dispatch a) out ∈ ev → out = .error .reentrantConstruction := by
  intro ms
  induction ms with
  | nil =>
    intro i st r st' ev h hg
    simp only [runFactories, Option.some.injEq, Prod.mk.injEq] at h
    obtain ⟨_, rfl, rfl⟩ := h
    refine ⟨hg, ?_⟩
    intro _ _ _ hm; cases hm
  | cons m ms ih =>
    intro i st r st' ev h hg
    simp only [runFactories] at h
    split at h
    · cases h
    · rename_i e st1 ev1 h1
      simp only [Option.some.injEq, Prod.mk.injEq] at h
      obtain ⟨_, rfl, rfl⟩ := h
      exact ⟨by rw [mexec_cell env mws _ _ _ _ _ _ h1]; exact hg,
        mexec_guard env mws _ _ _ _ _ _ h1 hg⟩
    · rename_i v st1 ev1 h1
      have hg1 : st1.cell = .guard := by rw [mexec_cell env mws _ _ _ _ _ _ h1]; exact hg
      split at h
      · cases h
      · rename_i r2 st2 ev2 h2
        simp only [Option.some.injEq, Prod.mk.injEq] at h
        obtain ⟨_, rfl, rfl⟩ := h
        obtain ⟨hc, hev⟩ := ih _ _ _ _ _ h2 hg1
        refine ⟨hc, ?_⟩
        intro j a out hm
        rcases List.mem_append.1 hm with hm | hm
        · exact mexec_guard env mws _ _ _ _ _ _ h1 hg j a out hm
        · exact hev j a out hm

/-- A layer that returns, returns its handler; it does not write the cell. -/
theorem layerOf_inv (env : Env) (mws : List Middleware) (fuel i : Nat) (x : DFn) (st : MState)
    (w : Wired) (st' : MState) (ev : List CEvent)
    (h : layerOf env mws fuel i x st = some (w, st', ev)) :
    st'.cell = st.cell ∧ (∀ f, w = .ok f → f = .layer i x) ∧
      (st.cell = .guard → ∀ j a out, CEvent.call j (.dispatch a) out ∈ ev →
        out = .error .reentrantConstruction) := by
  simp only [layerOf] at h
  split at h
  · simp only [Option.some.injEq, Prod.mk.injEq] at h
    obtain ⟨rfl, rfl, rfl⟩ := h
    refine ⟨rfl, ?_, ?_⟩
    · intro _ hf; cases hf
    · intro _ _ _ _ hm; cases hm
  · split at h
    · cases h
    · rename_i e st1 ev1 h1
      simp only [Option.some.injEq, Prod.mk.injEq] at h
      obtain ⟨rfl, rfl, rfl⟩ := h
      refine ⟨mexec_cell env mws _ _ _ _ _ _ h1, ?_, ?_⟩
      · intro _ hf; cases hf
      · intro hg; exact mexec_guard env mws _ _ _ _ _ _ h1 hg
    · rename_i v st1 ev1 h1
      simp only [Option.some.injEq, Prod.mk.injEq] at h
      obtain ⟨rfl, rfl, rfl⟩ := h
      refine ⟨mexec_cell env mws _ _ _ _ _ _ h1, ?_, ?_⟩
      · intro _ hf; cases hf; rfl
      · intro hg; exact mexec_guard env mws _ _ _ _ _ _ h1 hg

/-- Composing the layers `j, ..., j + k - 1` around `x` gives the chain
`Lj(L(j+1)(...(x)))`; the cell is not written, and with the guard in it every `dispatch`
called on the way gets the guard's fault. -/
theorem compose_layers (env : Env) (mws : List Middleware) (fuel : Nat) :
    ∀ (k j : Nat) (x : DFn) (st : MState) (w : Wired) (st' : MState) (ev : List CEvent),
    compose ((List.range' j k).map (layerOf env mws fuel)) x st = some (w, st', ev) →
    st'.cell = st.cell ∧ (∀ f, w = .ok f → f = chainFrom j k x) ∧
      (st.cell = .guard → ∀ i a out, CEvent.call i (.dispatch a) out ∈ ev →
        out = .error .reentrantConstruction) := by
  intro k
  induction k with
  | zero =>
    intro j x st w st' ev h
    simp only [List.range'_zero, List.map_nil, compose, Option.some.injEq, Prod.mk.injEq] at h
    obtain ⟨rfl, rfl, rfl⟩ := h
    refine ⟨rfl, ?_, ?_⟩
    · intro _ hf; cases hf; rfl
    · intro _ _ _ _ hm; cases hm
  | succ k ih =>
    intro j x st w st' ev h
    simp only [List.range'_succ, List.map_cons, compose] at h
    split at h
    · cases h
    · rename_i e st1 ev1 h1
      simp only [Option.some.injEq, Prod.mk.injEq] at h
      obtain ⟨rfl, rfl, rfl⟩ := h
      obtain ⟨hc, _, hev⟩ := ih _ _ _ _ _ _ h1
      refine ⟨hc, ?_, hev⟩
      intro _ hf; cases hf
    · rename_i y st1 ev1 h1
      obtain ⟨hc, hy, hev⟩ := ih _ _ _ _ _ _ h1
      split at h
      · cases h
      · rename_i r2 st2 ev2 h2
        simp only [Option.some.injEq, Prod.mk.injEq] at h
        obtain ⟨rfl, rfl, rfl⟩ := h
        obtain ⟨hc2, hf2, hev2⟩ := layerOf_inv env mws fuel _ _ _ _ _ _ h2
        refine ⟨by rw [hc2, hc], ?_, ?_⟩
        · intro f hf
          rw [hf2 f hf, hy y rfl]
          rfl
        · intro hg i a out hm
          rcases List.mem_append.1 hm with hm | hm
          · exact hev hg i a out hm
          · exact hev2 (by rw [hc]; exact hg) i a out hm

/-- What a call of the enhancer `applyMiddleware(...mws)` that returns has done: it called
the constructor it was given; a fault of that call is its own; otherwise everything further
it reports comes from code that ran with the guard in the cell, and a container it returns
has the chain of all layers around the dispatch of the base store both in the cell and in
its `dispatch` field. -/
theorem applyMiddleware_inv (env : Env) (mws : List Middleware) (fuel : Nat)
    (create : Constructor) (r p : Value) (res : Built) (ev : List CEvent)
    (h : applyMiddleware env mws fuel create r p = some (res, ev)) :
    ∃ b ev0, create r p undef = some (b, ev0) ∧
      (∀ e, b = .error e → res = .error e ∧ ev = ev0) ∧
      (∀ base, b = .ok base →
        ∃ evc, ev = ev0 ++ evc ∧
          (∀ i a out, CEvent.call i (.dispatch a) out ∈ evc →
            out = .error .reentrantConstruction) ∧
          (∀ c, res = .ok c →
            c.cell = c.dispatch ∧ c.dispatch = chainFrom 0 mws.length base.dispatch)) := by
  simp only [applyMiddleware] at h
  split at h
  · cases h
  · rename_i e ev0 h0
    simp only [Option.some.injEq, Prod.mk.injEq] at h
    obtain ⟨rfl, rfl⟩ := h
    refine ⟨_, _, h0, ?_, ?_⟩
    · intro e' he; cases he; exact ⟨rfl, rfl⟩
    · intro _ hb; cases hb
  · rename_i base ev0 h0
    refine ⟨_, _, h0, ?_, ?_⟩
    · intro _ hb; cases hb
    · intro base' hb
      cases hb
      split at h
      · cases h
      · rename_i e st1 ev1 h1
        simp only [Option.some.injEq, Prod.mk.injEq] at h
        obtain ⟨rfl, rfl⟩ := h
        refine ⟨ev1, rfl, (runFactories_guard env mws fuel _ _ _ _ _ _ h1 rfl).2, ?_⟩
        intro _ hc; cases hc
      · rename_i v st1 ev1 h1
        obtain ⟨hg1, hev1⟩ := runFactories_guard env mws fuel _ _ _ _ _ _ h1 rfl
        rw [List.range_eq_range'] at h
        split at h
        · cases h
        · rename_i e st2 ev2 h2
          simp only [Option.some.injEq, Prod.mk.injEq] at h
          obtain ⟨rfl, rfl⟩ := h
          obtain ⟨_, _, hev2⟩ := compose_layers env mws fuel _ _ _ _ _ _ _ h2
          refine ⟨ev1 ++ ev2, by rw [List.append_assoc], ?_, ?_⟩
          · intro i a out hm
            rcases List.mem_append.1 hm with hm | hm
            · exact hev1 i a out hm
            · exact hev2 hg1 i a out hm
          · intro _ hc; cases hc
        · rename_i final st2 ev2 h2
          simp only [Option.some.injEq, Prod.mk.injEq] at h
          obtain ⟨rfl, rfl⟩ := h
          obtain ⟨_, hf, hev2⟩ := compose_layers env mws fuel _ _ _ _ _ _ _ h2
          refine ⟨ev1 ++ ev2, by rw [List.append_assoc], ?_, ?_⟩
          · intro i a out hm
            rcases List.mem_append.1 hm with hm | hm
            · exact hev1 i a out hm
            · exact hev2 hg1 i a out hm
          · intro c hc
            cases hc
            exact ⟨rfl, hf final rfl⟩

/-- One call of `middlewareAPI.dispatch` by middleware code is the call of what the cell
holds at that moment. -/
theorem mexec_api_dispatch (env : Env) (mws : List Middleware) (n i : Nat) (nxt : Option DFn)
    (a : Value) (k : Outcome → MProg) (st : MState) :
    mexec env mws (n + 1) (.run i nxt (.call (.dispatch a) k)) st
      = match mexec env mws n (.call st.cell a) st with
        | none => none
        | some (r, st1, ev1) =>
          match mexec env mws n (.run i nxt (k r)) st1 with
          | none => none
          | some (r2, st2, ev2) => some (r2, st2, ev1 ++ .call i (.dispatch a) r :: ev2) := by
  simp only [mexec]

/-- One call through a chain of loggers around the raw dispatch: with enough fuel it
returns what the raw dispatch returns, in the state the raw dispatch leaves, and reports
the onion trace. -/
theorem onion_chain (env : Env) (mws : List Middleware) (a v : Value) (st : MState)
    (store1 : Store) (ev : List Event) (m : Nat)
    (hbase : exec env m 0 (.api (.dispatch a)) st.store = some (.ok v, store1, ev)) :
    ∀ (ts : List (Value × Value)) (j F : Nat),
    (∀ idx t, ts[idx]? = some t → mws[j + idx]? = some (logger t.1 t.2)) →
    3 * ts.length + m + 1 ≤ F →
    mexec env mws F (.call (chainFrom j ts.length .raw) a) st
      = some (.ok v, { st with store := store1 }, onionTrace a v ev j ts) := by
  have hm : 1 ≤ m := by
    cases m with
    | zero => simp [exec] at hbase
    | succ m => omega
  intro ts
  induction ts with
  | nil =>
    intro j F _ hF
    obtain ⟨F1, rfl⟩ : ∃ F1, F = F1 + 1 := ⟨F - 1, by simp at hF; omega⟩
    have h1 := exec_mono env m F1 (by simp at hF; omega) 0 _ _ _ hbase
    simp only [List.length_nil, chainFrom, mexec, h1, onionTrace]
  | cons t ts ih =>
    intro j F hmw hF
    simp only [List.length_cons] at hF
    obtain ⟨F4, rfl⟩ : ∃ F4, F = F4 + 4 := ⟨F - 4, by omega⟩
    have hj : mws[j]? = some (logger t.1 t.2) := by
      have := hmw 0 t (by simp)
      simpa using this
    have hrest : ∀ idx t', ts[idx]? = some t' → mws[j + 1 + idx]? = some (logger t'.1 t'.2) := by
      intro idx t' h
      have := hmw (idx + 1) t' (by simpa using h)
      rw [show j + 1 + idx = j + (idx + 1) by omega]
      exact this
    have hin := ih (j + 1) (F4 + 1) hrest (by omega)
    obtain ⟨F5, rfl⟩ : ∃ F5, F4 = F5 + 1 := ⟨F4 - 1, by omega⟩
    simp only [List.length_cons, chainFrom, mexec, hj, logger, hin, onionTrace,
      List.nil_append, List.cons_append]

/-- The marks of a trace put after another. -/
theorem marks_append (xs ys : List CEvent) : marks (xs ++ ys) = marks xs ++ marks ys := by
  simp [marks, List.filterMap_append]

/-- The marks of the onion trace: the first tags in order, the raw dispatch, the second
tags in reverse order. -/
theorem marks_onionTrace (a v : Value) (ev : List Event) :
    ∀ (ts : List (Value × Value)) (j : Nat),
    marks (onionTrace a v ev j ts)
      = ts.map (fun t => some t.1) ++ none :: ts.reverse.map (fun t => some t.2) := by
  intro ts
  induction ts with
  | nil => intro j; rfl
  | cons t ts ih =>
    intro j
    have h1 : marks [CEvent.call j (.next a) (.ok v), CEvent.call j (.log t.2) (.ok undef)]
        = [some t.2] := rfl
    have h2 : ∀ xs, marks (CEvent.call j (.log t.1) (.ok undef) :: xs) = some t.1 :: marks xs :=
      fun _ => rfl
    simp only [onionTrace, List.cons_append, h2, marks_append, ih (j + 1), h1, List.map_cons,
      List.reverse_cons, List.map_append, List.map_nil, List.append_assoc]

/-- A round that a listener ends with a fault has called, from index `i` on, the entries
of its array up to and including the faulting one, and no entry after it. -/
theorem notify_listenerCalls_fault {env : Env} {d : Nat} {t : Task} {st st' : Store}
    {r : Outcome} {ev : List Event} (h : Run env d t st r st' ev) :
    ∀ ls i, t = .notify ls i → Frozen ls st → (∃ e, r = .error e) →
      ∃ j, i ≤ j ∧ j < (st.array ls).length ∧
        listenerCalls d ev = ((st.array ls).drop i).take (j + 1 - i) := by
  induction h with
  | notifyDone d ls i st hi =>
    intro _ _ _ _ herr
    obtain ⟨e, he⟩ := herr
    cases he
  | notifyFault d ls i st e st1 ev1 hi h1 ih1 =>
    intro ls' i' ht _ _
    cases ht
    refine ⟨i, Nat.le_refl _, hi, ?_⟩
    have hdeep := listenerCalls_deeper d ev1 (run_depth h1)
    have hsplit : listenerCalls d
        (Event.listener d i ((st.array ls).getD i undef) st.currentState :: ev1)
        = [(st.array ls).getD i undef] := by
      have := listenerCalls_append d
        [Event.listener d i ((st.array ls).getD i undef) st.currentState] ev1
      simp only [List.singleton_append] at this
      rw [this, hdeep]; simp [listenerCalls]
    have hget : (st.array ls).getD i undef = (st.array ls)[i] := by
      simp [List.getD_eq_getElem?_getD, List.getElem?_eq_getElem hi]
    rw [hsplit, hget, List.drop_eq_getElem_cons hi, show i + 1 - i = 0 + 1 by omega,
      List.take_succ_cons, List.take_zero]
  | notifyNext d ls i st v st1 ev1 r st2 ev2 hi h1 h2 ih1 ih2 =>
    intro ls' i' ht hfr herr
    cases ht
    obtain ⟨f1, e1⟩ := run_frozen h1 ls hfr
    obtain ⟨j, hij, hj, hrest⟩ := ih2 ls (i + 1) rfl f1 herr
    rw [e1] at hj hrest
    refine ⟨j, by omega, hj, ?_⟩
    have hdeep := listenerCalls_deeper d ev1 (run_depth h1)
    have hsplit : listenerCalls d
        (Event.listener d i ((st.array ls).getD i undef) st.currentState :: ev1 ++ ev2)
        = (st.array ls).getD i undef :: listenerCalls d ev2 := by
      have := listenerCalls_append d
        ([Event.listener d i ((st.array ls).getD i undef) st.currentState] ++ ev1) ev2
      simp only [List.singleton_append] at this
      rw [this]
      have := listenerCalls_append d
        [Event.listener d i ((st.array ls).getD i undef) st.currentState] ev1
      simp only [List.singleton_append] at this
      rw [this, hdeep]; simp [listenerCalls]
    have hget : (st.array ls).getD i undef = (st.array ls)[i] := by
      simp [List.getD_eq_getElem?_getD, List.getElem?_eq_getElem hi]
    rw [hsplit, hrest, hget, List.drop_eq_getElem_cons hi,
      show j + 1 - i = (j + 1 - (i + 1)) + 1 by omega, List.take_succ_cons]
  | _ => intro _ _ ht; cases ht

/-- The listener calls a dispatch reports at its own depth are those of its round. -/
theorem dispatch_listenerCalls_round {env : Env} {d : Nat} {t : Task} {st st2 : Store}
    {r : Outcome} {ev1 : List Event} (h1 : Run env (d + 1) t st r st2 ev1) (x : Event)
    (hx : x.isListener = false) (ev2 : List Event) :
    listenerCalls d (x :: ev1 ++ ev2) = listenerCalls d ev2 := by
  have hdeep := listenerCalls_deeper d ev1 (run_depth h1)
  have h := listenerCalls_append d ([x] ++ ev1) ev2
  simp only [List.singleton_append] at h
  rw [h]
  have h' := listenerCalls_append d [x] ev1
  simp only [List.singleton_append] at h'
  rw [h', hdeep]
  cases x with
  | reducer _ _ _ _ => simp [listenerCalls]
  | listener _ _ _ _ => cases hx
  | api _ _ _ _ => simp [listenerCalls]

/-! ## The claims -/

/-- C1: in a store whose reducer is not executing, `dispatch(a)` with a valid action `a`
on which the reducer returns `s` calls the reducer exactly once, with the previous state
and `a` (while it runs nothing but possibly `currentReducer` changes), commits `s` as the
state the notification round starts in, and, the round having returned, returns `a`
itself, with any fuel larger than what the reducer and the round need. When no listener
dispatches, every listener of the round reads `s`, and so does `getState()` after the
call. -/
theorem dispatch_commits_reducer_result (env : Env) (n1 n2 d : Nat) (st : Store) (a s : Value)
    (st2 : Store) (ev1 : List Event) (v : Value) (st5 : Store) (ev2 : List Event)
    (hidle : st.isDispatching = false) (hvalid : validAction a = true)
    (hred : exec env n1 (d + 1)
      (.run .reducer (callFn env st.currentReducer [st.currentState, a]))
      { st with isDispatching := true } = some (.ok s, st2, ev1))
    (hround : exec env n2 d (.notify st2.nextListeners 0) (commit st2 s)
      = some (.ok v, st5, ev2)) :
    (∀ m, max n1 n2 < m → exec env m d (.api (.dispatch a)) st
        = some (.ok a, st5, .reducer d st.currentReducer st.currentState a :: ev1 ++ ev2))
      ∧ reducerCalls d (.reducer d st.currentReducer st.currentState a :: ev1 ++ ev2)
        = [(st.currentReducer, st.currentState, a)]
      ∧ st2 = { st with isDispatching := true, currentReducer := st2.currentReducer }
      ∧ (commit st2 s).currentState = s
      ∧ ((∀ e ∈ ev2, e.isReducer = false) →
          (∀ s' ∈ listenerStates d ev2, s' = s) ∧ getState st5 = (.ok s, st5)) := by
  have hr1 := exec_run env _ _ _ _ _ _ _ hred
  have hr2 := exec_run env _ _ _ _ _ _ _ hround
  refine ⟨?_, ?_, ?_, rfl, ?_⟩
  · exact exec_dispatch_commit_ge env n1 n2 d st a s st2 ev1 (.ok v) st5 ev2 hidle hvalid hred
      hround
  · have e1 := reducerCalls_deeper d ev1 (run_depth hr1)
    have e2 := notify_reducerCalls hr2 _ _ rfl
    have := reducerCalls_append d
      ([Event.reducer d st.currentReducer st.currentState a] ++ ev1) ev2
    simp only [List.singleton_append] at this
    rw [this, e2]
    have := reducerCalls_append d [Event.reducer d st.currentReducer st.currentState a] ev1
    simp only [List.singleton_append] at this
    rw [this, e1]
    simp [reducerCalls]
  · exact run_dispatching hr1 rfl
  · intro hno
    have hs : st5.currentState = s := run_state hr2 hno
    have hf : st5.isDispatching = false := run_flag hr2
    refine ⟨?_, ?_⟩
    · exact notify_states hr2 _ _ rfl hno
    · simp [getState, hf, hs]

/-- C1, on the demo store with one listener that reads the state: `dispatch(INCREMENT)`
from state `0`. -/
theorem dispatch_commits_reducer_result_witness :
    exec demoEnv 4 0 (.api (.dispatch incr)) (demoStore [.func 1])
        = some (.ok incr, { demoStore [.func 1] with currentState := num 1, currentListeners := 1 },
            .reducer 0 (.func 0) (num 0) incr :: [] ++
              [.listener 0 0 (.func 1) (num 1), .api 1 .listener .getState (.ok (num 1))])
      ∧ getState { demoStore [.func 1] with currentState := num 1, currentListeners := 1 }
        = (.ok (num 1), { demoStore [.func 1] with currentState := num 1, currentListeners := 1 }) :=
  have h := dispatch_commits_reducer_result demoEnv 1 3 0 (demoStore [.func 1]) incr (num 1)
    { demoStore [.func 1] with isDispatching := true } [] undef
    { demoStore [.func 1] with currentState := num 1, currentListeners := 1 }
    [.listener 0 0 (.func 1) (num 1), .api 1 .listener .getState (.ok (num 1))]
    (by decide) (by decide) (by decide) (by decide)
  ⟨h.1 4 (by decide), (h.2.2.2.2 (by decide)).2⟩

/-- C2: `dispatch` of a value that is not a plain record, or whose `type` is undefined,
fails with InvalidActionShape in any store, whatever the fuel; the store afterwards is the
store before (state, reducer, listener arrays, flag), and no event is reported: the
reducer is not called and no listener is notified. -/
theorem dispatch_invalid_action_no_effect (env : Env) (n d : Nat) (st : Store) (a : Value)
    (h : isPlainObject a = false ∨ typeofUndefined (getProp a "type") = true) :
    exec env (n + 1) d (.api (.dispatch a)) st = some (.error .invalidActionShape, st, []) := by
  simp only [exec, step, dispatch]
  rcases h with h | h
  · simp [h]
  · cases hp : isPlainObject a <;> simp [h]

/-- C2 on `dispatch({})` in the demo store with one listener. -/
theorem dispatch_invalid_action_no_effect_witness :
    (isPlainObject (.obj true []) = false ∨ typeofUndefined (getProp (.obj true []) "type") = true)
      ∧ exec demoEnv 1 0 (.api (.dispatch (.obj true []))) (demoStore [.func 1])
        = some (.error .invalidActionShape, demoStore [.func 1], []) :=
  ⟨by decide,
    dispatch_invalid_action_no_effect demoEnv 0 0 (demoStore [.func 1]) (.obj true [])
      (by decide)⟩

/-- C3: `dispatch` of a valid action while the in-progress flag is set fails with
ReentrantDispatchError and changes nothing: same store (state, listener arrays, flag
still set) and no event, so no second reducer call. The flag is set exactly while a
reducer runs, so in every run of an API call each `dispatch` made by reducer code with a
valid action gets that fault. -/
theorem dispatch_reentrant_rejected (env : Env) (n d : Nat) (st : Store) (a : Value)
    (hvalid : validAction a = true) (hd : st.isDispatching = true) :
    exec env (n + 1) d (.api (.dispatch a)) st = some (.error .reentrantDispatch, st, [])
      ∧ ∀ (m d0 : Nat) (c : Call) (st0 st1 : Store) (r : Outcome) (ev : List Event),
          exec env m d0 (.api c) st0 = some (r, st1, ev) →
          ∀ (d1 : Nat) (b : Value) (out : Outcome), validAction b = true →
            Event.api d1 .reducer (.dispatch b) out ∈ ev → out = .error .reentrantDispatch := by
  constructor
  · have hv := hvalid
    simp only [validAction, Bool.and_eq_true, Bool.not_eq_true'] at hv
    simp [exec, step, dispatch, hv.1, hv.2, hd]
  · intro m d0 c st0 st1 r ev hexec d1 b out hb hmem
    have := run_apiOutcome (exec_run env _ _ _ _ _ _ _ hexec) (by simp [Consistent]) _ hmem
    simpa [ApiOutcomeOk, hb] using this

/-- C3 on the demo store: `dispatch(INCREMENT)` with the flag set, and the `dispatch`
the demo reducer makes on `NESTED`. -/
theorem dispatch_reentrant_rejected_witness :
    exec demoEnv 1 0 (.api (.dispatch incr)) { demoStore [] with isDispatching := true }
        = some (.error .reentrantDispatch, { demoStore [] with isDispatching := true }, [])
      ∧ Event.api 1 .reducer (.dispatch incr) (.error .reentrantDispatch)
          ∈ ((exec demoEnv 9 0 (.api (.dispatch nested)) (demoStore [])).map (·.2.2)).getD [] :=
  ⟨(dispatch_reentrant_rejected demoEnv 0 0 { demoStore [] with isDispatching := true } incr
      (by decide) (by decide)).1, by decide⟩

/-- C4: when the reducer faults with `e` on a valid action in an idle store, `dispatch`
fails with `e`; nothing but possibly `currentReducer` has changed, so the state is the one
before the call and the flag is released; no listener call is reported; `getState()`
then returns that state, and a following `dispatch(b)` on which the reducer returns `s`
commits `s` and (its round having returned) returns `b`. -/
theorem dispatch_reducer_fault_releases (env : Env) (n d : Nat) (st : Store) (a : Value)
    (e : Fault) (st2 : Store) (ev1 : List Event)
    (hidle : st.isDispatching = false) (hvalid : validAction a = true)
    (hred : exec env n (d + 1)
      (.run .reducer (callFn env st.currentReducer [st.currentState, a]))
      { st with isDispatching := true } = some (.error e, st2, ev1)) :
    (∀ m, n < m → exec env m d (.api (.dispatch a)) st
        = some (.error e, { st2 with isDispatching := false },
            .reducer d st.currentReducer st.currentState a :: ev1))
      ∧ { st2 with isDispatching := false } = { st with currentReducer := st2.currentReducer }
      ∧ (∀ x ∈ Event.reducer d st.currentReducer st.currentState a :: ev1, x.isListener = false)
      ∧ getState { st2 with isDispatching := false }
          = (.ok st.currentState, { st2 with isDispatching := false })
      ∧ ∀ (m1 m2 : Nat) (b s : Value) (st3 : Store) (ev3 : List Event) (v : Value) (st6 : Store)
          (ev4 : List Event), validAction b = true →
          exec env m1 (d + 1)
            (.run .reducer (callFn env st2.currentReducer [st.currentState, b]))
            { st2 with isDispatching := true } = some (.ok s, st3, ev3) →
          exec env m2 d (.notify st3.nextListeners 0) (commit st3 s) = some (.ok v, st6, ev4) →
          (∀ m, max m1 m2 < m →
            exec env m d (.api (.dispatch b)) { st2 with isDispatching := false }
              = some (.ok b, st6, .reducer d st2.currentReducer st.currentState b :: ev3 ++ ev4))
            ∧ (commit st3 s).currentState = s := by
  have hr1 := exec_run env _ _ _ _ _ _ _ hred
  have hst2 := run_dispatching hr1 rfl
  have hcs : st2.currentState = st.currentState := by rw [hst2]
  refine ⟨?_, ?_, ?_, ?_, ?_⟩
  · intro m hm
    exact exec_mono env (n + 1) m hm _ _ _ _
      (exec_dispatch_fault env n d st a e st2 ev1 hidle hvalid hred)
  · rw [hst2]; simp [hidle]
  · intro x hx
    rcases List.mem_cons.1 hx with rfl | hx
    · rfl
    · exact (run_dispatching_events hr1 rfl (fun _ _ h => by cases h) x hx).2
  · simp [getState, hcs]
  · intro m1 m2 b s st3 ev3 v st6 ev4 hb h3 h4
    refine ⟨?_, rfl⟩
    intro m hm
    have := exec_dispatch_commit_ge env m1 m2 d { st2 with isDispatching := false } b s st3 ev3
      (.ok v) st6 ev4 rfl hb (by simpa [hcs] using h3) h4 m hm
    simpa [hcs, Outcome.returning] using this

/-- C4 on the demo store with one listener: `dispatch(BOOM)` faults, then
`dispatch(INCREMENT)` commits `1`. -/
theorem dispatch_reducer_fault_releases_witness :
    exec demoEnv 3 0 (.api (.dispatch boom)) (demoStore [.func 1])
        = some (.error (.user 1), demoStore [.func 1], [.reducer 0 (.func 0) (num 0) boom])
      ∧ getState (demoStore [.func 1]) = (.ok (num 0), demoStore [.func 1])
      ∧ exec demoEnv 4 0 (.api (.dispatch incr)) (demoStore [.func 1])
        = some (.ok incr, { demoStore [.func 1] with currentState := num 1, currentListeners := 1 },
            .reducer 0 (.func 0) (num 0) incr :: [] ++
              [.listener 0 0 (.func 1) (num 1), .api 1 .listener .getState (.ok (num 1))]) :=
  have h := dispatch_reducer_fault_releases demoEnv 1 0 (demoStore [.func 1]) boom (.user 1)
    { demoStore [.func 1] with isDispatching := true } [] (by decide) (by decide) (by decide)
  ⟨h.1 3 (by decide), h.2.2.2.1,
    (h.2.2.2.2 1 3 incr (num 1) { demoStore [.func 1] with isDispatching := true } [] undef
      { demoStore [.func 1] with currentState := num 1, currentListeners := 1 }
      [.listener 0 0 (.func 1) (num 1), .api 1 .listener .getState (.ok (num 1))]
      (by decide) (by decide) (by decide)).1 4 (by decide)⟩

/-- C5, the claim as stated fails: with listeners `4` and `1` registered, `dispatch(INCREMENT)`
from state `0` commits `1` (the state listener `4` is entered in), listener `4` dispatches
again, and listener `1`, notified by the outer dispatch, is entered in state `2` and reads
`2` with `getState()`. -/
theorem getState_listener_reads_nested_state :
    (exec demoEnv 9 0 (.api (.dispatch incr)) (demoStore [.func 4, .func 1])).map
        (fun x => (x.1, reducerCalls 0 x.2.2, listenerCalls 0 x.2.2, listenerStates 0 x.2.2))
      = some (.ok incr, [(.func 0, num 0, incr)], [.func 4, .func 1], [num 1, num 2])
    ∧ Event.api 1 .listener .getState (.ok (num 2))
        ∈ ((exec demoEnv 9 0 (.api (.dispatch incr)) (demoStore [.func 4, .func 1])).map
            (fun x => x.2.2)).getD [] := by
  decide

/-- C5, amended: `getState()` changes nothing, fails with ReentrantAccessError exactly when
the in-progress flag is set and returns the current state tree otherwise; in every run
`getState()` called by reducer code fails so and `getState()` called by listener code
returns; and when no dispatch is nested in the round of `dispatch(a)`, every listener of the
round is entered in the state that dispatch committed. -/
theorem getState_reentrancy (env : Env) :
    (∀ st : Store, (getState st).2 = st
        ∧ ((getState st).1 = .error .reentrantAccess ↔ st.isDispatching = true)
        ∧ (st.isDispatching = false → (getState st).1 = .ok st.currentState))
      ∧ (∀ (m d0 : Nat) (c : Call) (st0 st1 : Store) (r : Outcome) (ev : List Event),
          exec env m d0 (.api c) st0 = some (r, st1, ev) →
          ∀ (d1 : Nat) (out : Outcome),
            (Event.api d1 .reducer .getState out ∈ ev → out = .error .reentrantAccess)
            ∧ (Event.api d1 .listener .getState out ∈ ev → ∃ v, out = .ok v))
      ∧ (∀ (n d : Nat) (st : Store) (a s : Value) (st2 : Store) (ev1 : List Event) (r : Outcome)
          (st5 : Store) (ev2 : List Event),
          st.isDispatching = false → validAction a = true →
          exec env n (d + 1)
            (.run .reducer (callFn env st.currentReducer [st.currentState, a]))
            { st with isDispatching := true } = some (.ok s, st2, ev1) →
          exec env n d (.notify st2.nextListeners 0) (commit st2 s) = some (r, st5, ev2) →
          (∀ e ∈ ev2, e.isReducer = false) → ∀ s' ∈ listenerStates d ev2, s' = s) := by
  refine ⟨?_, ?_, ?_⟩
  · intro st
    refine ⟨getState_store st, ?_, ?_⟩
    · cases hd : st.isDispatching <;> simp [getState, hd]
    · intro hd; simp [getState, hd]
  · intro m d0 c st0 st1 r ev hexec d1 out
    have hall := run_apiOutcome (exec_run env _ _ _ _ _ _ _ hexec) (by simp [Consistent])
    exact ⟨fun hmem => by simpa [ApiOutcomeOk] using hall _ hmem,
      fun hmem => by simpa [ApiOutcomeOk] using hall _ hmem⟩
  · intro n d st a s st2 ev1 r st5 ev2 _ _ _ hround hno
    exact notify_states (exec_run env _ _ _ _ _ _ _ hround) _ _ rfl hno

/-- C5 amended, on the demo store: `getState()` with the flag released, and the `getState()`
call the demo reducer makes on `NESTED`. -/
theorem getState_reentrancy_witness :
    (demoStore [.func 1]).isDispatching = false
      ∧ (getState (demoStore [.func 1])).1 = .ok (num 0)
      ∧ exec demoEnv 5 0 (.api (.dispatch nested)) (demoStore [])
        = some (.ok nested, demoStore [],
            [.reducer 0 (.func 0) (num 0) nested,
              .api 1 .reducer (.dispatch incr) (.error .reentrantDispatch),
              .api 1 .reducer .getState (.error .reentrantAccess),
              .api 1 .reducer (.unsubscribe 0) (.error .typeError)])
      ∧ ∀ (d1 : Nat) (out : Outcome),
          Event.api d1 .reducer .getState out
            ∈ [Event.reducer 0 (.func 0) (num 0) nested,
                .api 1 .reducer (.dispatch incr) (.error .reentrantDispatch),
                .api 1 .reducer .getState (.error .reentrantAccess),
                .api 1 .reducer (.unsubscribe 0) (.error .typeError)] →
          out = .error .reentrantAccess :=
  ⟨by decide, ((getState_reentrancy demoEnv).1 (demoStore [.func 1])).2.2 (by decide),
    by decide,
    fun d1 out => ((getState_reentrancy demoEnv).2.1 5 0 (.dispatch nested) (demoStore [])
      (demoStore []) (.ok nested) _ (by decide) d1 out).1⟩

/-- C6: let `subscribe(L)`, called by a listener of the round of a dispatch that returns,
return the closure `k`. That round called exactly the registry as it was when `dispatch` was
called, one call per subscription live then, when closure `k` did not exist yet: the new
subscription adds no call to it (and `L` is not called in it at all unless it was registered
before). The closure exists afterwards, and every dispatch that returns, started in a store
in which it is still subscribed, calls `L` in its round. -/
theorem subscribe_during_round_deferred (env : Env) (n d : Nat) (st : Store) (a a' : Value)
    (st' : Store) (ev : List Event) (L : Value) (k : Nat)
    (hwf : WF st)
    (hrun : exec env n d (.api (.dispatch a)) st = some (.ok a', st', ev))
    (hsub : Event.api (d + 1) .listener (.subscribe L) (.ok (.unsub k)) ∈ ev) :
    listenerCalls d ev = st.pending
      ∧ (listenerCalls d ev).Perm st.live
      ∧ st.subs.length ≤ k
      ∧ (L ∉ st.pending → L ∉ listenerCalls d ev)
      ∧ WF st' ∧ (∃ b, st'.subs[k]? = some (L, b))
      ∧ ∀ (m d3 : Nat) (st3 : Store) (b b' : Value) (st4 : Store) (ev3 : List Event),
          WF st3 → st3.subs[k]? = some (L, true) →
          exec env m d3 (.api (.dispatch b)) st3 = some (.ok b', st4, ev3) →
          L ∈ listenerCalls d3 ev3 := by
  have hr := exec_run env _ _ _ _ _ _ _ hrun
  have hcalls := dispatch_listenerCalls hr hwf ⟨a', rfl⟩
  obtain ⟨hle, hex⟩ := run_subscribe_event hr _ _ _ _ hsub
  refine ⟨hcalls, by rw [hcalls]; exact hwf.2.2.1, hle, fun h => by rw [hcalls]; exact h,
    run_wf hr hwf, hex, ?_⟩
  intro m d3 st3 b b' st4 ev3 hwf3 hlive3 hrun3
  have hr3 := exec_run env _ _ _ _ _ _ _ hrun3
  rw [dispatch_listenerCalls hr3 hwf3 ⟨b', rfl⟩]
  exact hwf3.2.2.1.mem_iff.2 (liveOf_mem st3.subs k L hlive3)

/-- C6 on the demo store with listener `2`, which subscribes listener `1`: the first
`dispatch(INCREMENT)` calls only listener `2`, the second calls `2` and `1`. -/
theorem subscribe_during_round_deferred_witness :
    exec demoEnv 5 0 (.api (.dispatch incr)) (demoStore [.func 2])
        = some (.ok incr,
            { currentReducer := .func 0, currentState := num 1,
              heap := [[], [.func 2], [.func 2, .func 1]], currentListeners := 1,
              nextListeners := 2, isDispatching := false,
              subs := [(.func 2, true), (.func 1, true)] },
            [.reducer 0 (.func 0) (num 0) incr, .listener 0 0 (.func 2) (num 1),
              .api 1 .listener (.subscribe (.func 1)) (.ok (.unsub 1))])
      ∧ listenerCalls 0
          [.reducer 0 (.func 0) (num 0) incr, .listener 0 0 (.func 2) (num 1),
            .api 1 .listener (.subscribe (.func 1)) (.ok (.unsub 1))] = [.func 2]
      ∧ Value.func 1 ∈ listenerCalls 0
          [.reducer 0 (.func 0) (num 1) incr, .listener 0 0 (.func 2) (num 2),
            .api 1 .listener (.subscribe (.func 1)) (.ok (.unsub 2)),
            .listener 0 1 (.func 1) (num 2), .api 1 .listener .getState (.ok (num 2))] :=
  have h := subscribe_during_round_deferred demoEnv 5 0 (demoStore [.func 2]) incr incr
    { currentReducer := .func 0, currentState := num 1,
      heap := [[], [.func 2], [.func 2, .func 1]], currentListeners := 1,
      nextListeners := 2, isDispatching := false,
      subs := [(.func 2, true), (.func 1, true)] }
    [.reducer 0 (.func 0) (num 0) incr, .listener 0 0 (.func 2) (num 1),
      .api 1 .listener (.subscribe (.func 1)) (.ok (.unsub 1))]
    (.func 1) 1 (wf_regCalls [.subscribe (.func 2)] _ (wf_init _ _)) (by decide) (by decide)
  ⟨by decide, h.1, h.2.2.2.2.2.2 5 0 _ incr incr
    { currentReducer := .func 0, currentState := num 2,
      heap := [[], [.func 2], [.func 2, .func 1], [.func 2, .func 1, .func 1]],
      currentListeners := 2, nextListeners := 3, isDispatching := false,
      subs := [(.func 2, true), (.func 1, true), (.func 1, true)] }
    _ h.2.2.2.2.1 (by decide) (by decide)⟩

/-- C7: let the closure `k` of a subscription of `L` that is live when a dispatch begins be
called, successfully, by a listener of that dispatch's round, and let the dispatch return.
The round still called the whole registry of the start, one call per subscription live
then, `L` included. Afterwards closure `k`
is used up, in the store the dispatch leaves and in every store reached from it; and the
round of a later dispatch calls `L` once per subscription of `L` still live, so not at all
when none is left. -/
theorem unsubscribe_during_round_still_fires (env : Env) (n d : Nat) (st : Store)
    (a a' : Value) (st' : Store) (ev : List Event) (L : Value) (k : Nat) (v : Value)
    (hwf : WF st) (hlive : st.subs[k]? = some (L, true))
    (hrun : exec env n d (.api (.dispatch a)) st = some (.ok a', st', ev))
    (hunsub : Event.api (d + 1) .listener (.unsubscribe k) (.ok v) ∈ ev) :
    listenerCalls d ev = st.pending ∧ (listenerCalls d ev).Perm st.live
      ∧ L ∈ listenerCalls d ev
      ∧ WF st' ∧ st'.subs[k]? = some (L, false)
      ∧ (∀ (m d3 : Nat) (t : Task) (r : Outcome) (st3 : Store) (ev3 : List Event),
          exec env m d3 t st' = some (r, st3, ev3) → st3.subs[k]? = some (L, false))
      ∧ ∀ (m d3 : Nat) (st3 : Store) (b b' : Value) (st4 : Store) (ev3 : List Event),
          WF st3 → exec env m d3 (.api (.dispatch b)) st3 = some (.ok b', st4, ev3) →
          (listenerCalls d3 ev3).count L = st3.live.count L
            ∧ (L ∉ st3.live → L ∉ listenerCalls d3 ev3) := by
  have hr := exec_run env _ _ _ _ _ _ _ hrun
  have hcalls := dispatch_listenerCalls hr hwf ⟨a', rfl⟩
  have hmem : L ∈ st.pending := hwf.2.2.1.mem_iff.2 (liveOf_mem st.subs k L hlive)
  have hdead : st'.subs[k]? = some (L, false) := by
    obtain ⟨l, hl⟩ := run_unsubscribe_event hr _ _ _ _ hunsub
    obtain ⟨b', hb', _⟩ := (run_subs hr).2 k L true hlive
    rw [hl] at hb'
    cases hb'
    exact hl
  refine ⟨hcalls, by rw [hcalls]; exact hwf.2.2.1, by rw [hcalls]; exact hmem, run_wf hr hwf,
    hdead, ?_, ?_⟩
  · intro m d3 t r st3 ev3 hrun3
    obtain ⟨b', hb', hf⟩ := (run_subs (exec_run env _ _ _ _ _ _ _ hrun3)).2 k L false hdead
    rw [hb', hf rfl]
  · intro m d3 st3 b b' st4 ev3 hwf3 hrun3
    have hr3 := exec_run env _ _ _ _ _ _ _ hrun3
    have hc3 := dispatch_listenerCalls hr3 hwf3 ⟨b', rfl⟩
    refine ⟨by rw [hc3]; exact hwf3.2.2.1.count_eq L, ?_⟩
    intro hnot hin
    rw [hc3] at hin
    exact hnot (hwf3.2.2.1.mem_iff.1 hin)

/-- C7 on the demo store with listeners `3` and `1`, where `3` calls the closure of the
subscription of `1`: the first `dispatch(INCREMENT)` calls `3` and `1`, the second only `3`. -/
theorem unsubscribe_during_round_still_fires_witness :
    listenerCalls 0
        [.reducer 0 (.func 0) (num 0) incr, .listener 0 0 (.func 3) (num 1),
          .api 1 .listener (.unsubscribe 1) (.ok undef),
          .listener 0 1 (.func 1) (num 1), .api 1 .listener .getState (.ok (num 1))]
        = (demoStore [.func 3, .func 1]).pending
      ∧ Value.func 1 ∈ listenerCalls 0
        [.reducer 0 (.func 0) (num 0) incr, .listener 0 0 (.func 3) (num 1),
          .api 1 .listener (.unsubscribe 1) (.ok undef),
          .listener 0 1 (.func 1) (num 1), .api 1 .listener .getState (.ok (num 1))]
      ∧ Value.func 1 ∉ listenerCalls 0
        [.reducer 0 (.func 0) (num 1) incr, .listener 0 0 (.func 3) (num 2),
          .api 1 .listener (.unsubscribe 1) (.ok undef)] :=
  have h := unsubscribe_during_round_still_fires demoEnv 5 0 (demoStore [.func 3, .func 1])
    incr incr
    { currentReducer := .func 0, currentState := num 1,
      heap := [[], [.func 3, .func 1], [.func 3]], currentListeners := 1,
      nextListeners := 2, isDispatching := false,
      subs := [(.func 3, true), (.func 1, false)] }
    [.reducer 0 (.func 0) (num 0) incr, .listener 0 0 (.func 3) (num 1),
      .api 1 .listener (.unsubscribe 1) (.ok undef),
      .listener 0 1 (.func 1) (num 1), .api 1 .listener .getState (.ok (num 1))]
    (.func 1) 1 undef
    (wf_regCalls [.subscribe (.func 3), .subscribe (.func 1)] _ (wf_init _ _))
    (by decide) (by decide) (by decide)
  ⟨h.1, h.2.2.1, (h.2.2.2.2.2.2 5 0 _ incr incr
    { currentReducer := .func 0, currentState := num 2,
      heap := [[], [.func 3, .func 1], [.func 3]], currentListeners := 2,
      nextListeners := 2, isDispatching := false,
      subs := [(.func 3, true), (.func 1, false)] }
    _ h.2.2.2.1 (by decide)).2 (by decide)⟩

/-- C8, the claim as stated fails: after `subscribe(f6)`, `subscribe(f7)`, `subscribe(f6)`
and a call of the third closure, the live subscriptions are, in registration order, those of
`f6` and `f7`, but `dispatch` calls `f7` before `f6`: the closure removed the first entry
of `f6` (`indexOf`), which belonged to the first subscription. -/
theorem dispatch_order_with_duplicates :
    (regCalls [.subscribe (.func 6), .subscribe (.func 7), .subscribe (.func 6), .unsubscribe 2]
        (Store.init (.func 0) (num 0))).live = [.func 6, .func 7]
      ∧ (exec demoEnv 5 0 (.api (.dispatch incr))
          (regCalls [.subscribe (.func 6), .subscribe (.func 7), .subscribe (.func 6),
            .unsubscribe 2] (Store.init (.func 0) (num 0)))).map
          (fun x => (x.1, listenerCalls 0 x.2.2))
        = some (.ok incr, [.func 7, .func 6]) := by
  decide

/-- C8, amended: after any sequence of `subscribe` and `unsubscribe` calls made on a store
of `createStore`, a dispatch that returns has called the pending registry in its order:
one callback per subscription still live, and, provided no listener function has been
subscribed twice, in the order in which the live subscriptions were registered. -/
theorem dispatch_calls_live_subscriptions (env : Env) (cs : List RegCall) (n d : Nat)
    (st0 : Store) (a a' : Value) (st' : Store) (ev : List Event)
    (hwf : WF st0)
    (hrun : exec env n d (.api (.dispatch a)) (regCalls cs st0) = some (.ok a', st', ev)) :
    listenerCalls d ev = (regCalls cs st0).pending
      ∧ (listenerCalls d ev).Perm (regCalls cs st0).live
      ∧ (((regCalls cs st0).subs.map (fun p => p.1)).Nodup →
          listenerCalls d ev = (regCalls cs st0).live) := by
  have hwf' := wf_regCalls cs st0 hwf
  have hr := exec_run env _ _ _ _ _ _ _ hrun
  have hc := dispatch_listenerCalls hr hwf' ⟨a', rfl⟩
  refine ⟨hc, by rw [hc]; exact hwf'.2.2.1, ?_⟩
  intro hnd
  rw [hc]
  exact hwf'.2.2.2 hnd

/-- C8 amended, on the demo store: `subscribe(f6)`, `subscribe(f7)`, `subscribe(f1)`, then
the closure of `f6`: `dispatch` calls `f7` then `f1`. -/
theorem dispatch_calls_live_subscriptions_witness :
    listenerCalls 0
        [.reducer 0 (.func 0) (num 0) incr, .listener 0 0 (.func 7) (num 1),
          .listener 0 1 (.func 1) (num 1), .api 1 .listener .getState (.ok (num 1))]
      = (regCalls [.subscribe (.func 6), .subscribe (.func 7), .subscribe (.func 1),
          .unsubscribe 0] (Store.init (.func 0) (num 0))).live :=
  (dispatch_calls_live_subscriptions demoEnv
    [.subscribe (.func 6), .subscribe (.func 7), .subscribe (.func 1), .unsubscribe 0]
    5 0 (Store.init (.func 0) (num 0)) incr incr
    { currentReducer := .func 0, currentState := num 1,
      heap := [[], [.func 7, .func 1]], currentListeners := 1,
      nextListeners := 1, isDispatching := false,
      subs := [(.func 6, false), (.func 7, true), (.func 1, true)] }
    _ (wf_init _ _) (by decide)).2.2 (by decide)

/-- C9: in a store of `createStore` with no dispatch in progress, the first call of the
closure `k` returned by `subscribe(L)` finds an entry of `L` in the pending registry
(`indexOf` does not return `-1`) and removes exactly the first one: the registry was
`pre ++ L :: post` with no `L` in `pre` and becomes `pre ++ post`. Any later call of the
closure, in any store in which it is used up, returns and leaves the store as it is. -/
theorem unsubscribe_removes_own_listener (st : Store) (k : Nat) (L : Value)
    (hwf : WF st) (hidle : st.isDispatching = false) (hlive : st.subs[k]? = some (L, true)) :
    (∃ pre post, st.pending = pre ++ L :: post ∧ L ∉ pre
        ∧ indexOf st.pending L = (pre.length : Int)
        ∧ (unsubscribe k st).1 = .ok undef
        ∧ (unsubscribe k st).2.pending = pre ++ post)
      ∧ (unsubscribe k st).2.subs[k]? = some (L, false)
      ∧ unsubscribe k (unsubscribe k st).2 = (.ok undef, (unsubscribe k st).2)
      ∧ ∀ st3 : Store, st3.subs[k]? = some (L, false) → unsubscribe k st3 = (.ok undef, st3) := by
  have hmem : L ∈ st.pending := hwf.2.2.1.mem_iff.2 (liveOf_mem st.subs k L hlive)
  obtain ⟨pre, post, e, hn, hi, hsp, _⟩ := splice_indexOf_mem L st.pending hmem
  obtain ⟨e1, e2⟩ := unsubscribe_pending k st L hlive hidle hwf.2.1
  have hlt : k < st.subs.length := by
    rcases Nat.lt_or_ge k st.subs.length with hlt | hlt
    · exact hlt
    · rw [List.getElem?_eq_none hlt] at hlive; cases hlive
  have hdead : (unsubscribe k st).2.subs[k]? = some (L, false) := by
    rw [e2]; simp [List.getElem?_set, hlt]
  refine ⟨⟨pre, post, e, hn, hi, ?_, by rw [e1, hsp]⟩, hdead, ?_, ?_⟩
  · rw [unsubscribe_of_live k st L hlive hidle]
  · exact unsubscribe_of_dead k _ L hdead
  · intro st3 h3
    exact unsubscribe_of_dead k st3 L h3

/-- C9 on the demo store with listeners `6`, `7`, `6`: the closure of the second
subscription removes the entry of `7`. -/
theorem unsubscribe_removes_own_listener_witness :
    (unsubscribe 1 (demoStore [.func 6, .func 7, .func 6])).2.subs[1]? = some (.func 7, false)
      ∧ unsubscribe 1 (unsubscribe 1 (demoStore [.func 6, .func 7, .func 6])).2
        = (.ok undef, (unsubscribe 1 (demoStore [.func 6, .func 7, .func 6])).2)
      ∧ (unsubscribe 1 (demoStore [.func 6, .func 7, .func 6])).2.pending = [.func 6, .func 6] :=
  have h := unsubscribe_removes_own_listener (demoStore [.func 6, .func 7, .func 6]) 1 (.func 7)
    (wf_regCalls [.subscribe (.func 6), .subscribe (.func 7), .subscribe (.func 6)] _
      (wf_init _ _)) (by decide) (by decide)
  ⟨h.2.1, h.2.2.1, by decide⟩

/-- C10, the claim as stated fails: a closure that has been called before checks its own
`isSubscribed` first and returns normally, without a fault, also while the flag is set;
so does the call the demo reducer makes on `NESTED` to the used closure `0`. -/
theorem unsubscribe_used_closure_while_dispatching :
    unsubscribe 0 { (unsubscribe 0 (demoStore [.func 1])).2 with isDispatching := true }
        = (.ok undef, { (unsubscribe 0 (demoStore [.func 1])).2 with isDispatching := true })
      ∧ Event.api 1 .reducer (.unsubscribe 0) (.ok undef)
        ∈ ((exec demoEnv 5 0 (.api (.dispatch nested))
            (unsubscribe 0 (demoStore [.func 1])).2).map (fun x => x.2.2)).getD [] := by
  decide

/-- C10, amended: while the in-progress flag is set, a call of an `unsubscribe` closure
changes nothing in the store; it fails with ReentrantAccessError when the closure has not
been called before, and returns normally when it has. In every run, a closure called by
reducer code ends in one of these two ways (or the closure does not exist). -/
theorem unsubscribe_while_dispatching (env : Env) (st : Store) (k : Nat)
    (hd : st.isDispatching = true) :
    (unsubscribe k st).2 = st
      ∧ (∀ L, st.subs[k]? = some (L, true) → (unsubscribe k st).1 = .error .reentrantAccess)
      ∧ (∀ L, st.subs[k]? = some (L, false) → (unsubscribe k st).1 = .ok undef)
      ∧ ∀ (m d0 : Nat) (c : Call) (st0 st1 : Store) (r : Outcome) (ev : List Event),
          exec env m d0 (.api c) st0 = some (r, st1, ev) →
          ∀ (d1 j : Nat) (out : Outcome), Event.api d1 .reducer (.unsubscribe j) out ∈ ev →
            out = .error .reentrantAccess ∨ out = .ok undef ∨ out = .error .typeError := by
  refine ⟨unsubscribe_dispatching k st hd, ?_, ?_, ?_⟩
  · intro L hk; simp [unsubscribe, hk, hd]
  · intro L hk; rw [unsubscribe_of_dead k st L hk]
  · intro m d0 c st0 st1 r ev hexec d1 j out hmem
    have := run_apiOutcome (exec_run env _ _ _ _ _ _ _ hexec) (by simp [Consistent]) _ hmem
    simpa [ApiOutcomeOk] using this

/-- C10 amended, on the demo store with one listener and the flag set: the unused closure
`0` faults and the store is unchanged. -/
theorem unsubscribe_while_dispatching_witness :
    (unsubscribe 0 { demoStore [.func 1] with isDispatching := true }).2
        = { demoStore [.func 1] with isDispatching := true }
      ∧ (unsubscribe 0 { demoStore [.func 1] with isDispatching := true }).1
        = .error .reentrantAccess :=
  have h := unsubscribe_while_dispatching demoEnv
    { demoStore [.func 1] with isDispatching := true } 0 (by decide)
  ⟨h.1, h.2.1 (.func 1) (by decide)⟩

/-- When the guarantee of the `subscribe` docstring (lines 105-109) does hold: let a
dispatch return, every dispatch (and `replaceReducer`) called by a listener meanwhile
having returned too. Every subscription that was live when the call began and is still live
when it returns has had its listener entered after the last reducer call of the whole run,
hence after the last state commit, and in the state the caller reads with `getState()` once
the call has returned. -/
theorem listeners_called_after_last_commit (env : Env) (n d : Nat) (st : Store) (a a' : Value)
    (st' : Store) (ev : List Event) (k : Nat) (L : Value)
    (hwf : WF st) (hlive : st.subs[k]? = some (L, true))
    (hrun : exec env n d (.api (.dispatch a)) st = some (.ok a', st', ev))
    (hnested : ∀ e ∈ ev, NestedOk e)
    (hstill : st'.subs[k]? = some (L, true)) :
    (∃ pre post, ev = pre ++ post ∧ (∀ e ∈ post, e.isReducer = false) ∧
        ∃ d1 i, Event.listener d1 i L st'.currentState ∈ post)
      ∧ getState st' = (.ok st'.currentState, st') := by
  have hr := exec_run env _ _ _ _ _ _ _ hrun
  obtain ⟨hidle, _, _, rest, hev⟩ := run_dispatch_ok_inv hr ⟨a', rfl⟩
  have hflag : st'.isDispatching = false := by rw [run_flag hr]; exact hidle
  have hx : ∃ e ∈ ev, e.isReducer = true :=
    ⟨Event.reducer d st.currentReducer st.currentState a,
      by rw [hev]; exact List.mem_cons_self _ _, rfl⟩
  refine ⟨?_, ?_⟩
  · exact run_settles hr hwf (by simp [Consistent]) hnested (fun _ _ => ⟨a', rfl⟩) hx k L true
      hlive hstill
  · simp [getState, hflag]

/-- The guarantee on the demo store with listeners `4` and `1`, where `4` dispatches again
when it reads `1`: after `dispatch(INCREMENT)` from `0` the state is `2`, and both listeners
have been entered in state `2` after the second reducer call. -/
theorem listeners_called_after_last_commit_witness :
    (∃ pre post,
        [Event.reducer 0 (.func 0) (num 0) incr, .listener 0 0 (.func 4) (num 1),
          .api 1 .listener .getState (.ok (num 1)), .reducer 1 (.func 0) (num 1) incr,
          .listener 1 0 (.func 4) (num 2), .api 2 .listener .getState (.ok (num 2)),
          .listener 1 1 (.func 1) (num 2), .api 2 .listener .getState (.ok (num 2)),
          .api 1 .listener (.dispatch incr) (.ok incr), .listener 0 1 (.func 1) (num 2),
          .api 1 .listener .getState (.ok (num 2))] = pre ++ post
        ∧ (∀ e ∈ post, e.isReducer = false)
        ∧ ∃ d1 i, Event.listener d1 i (.func 4) (num 2) ∈ post)
      ∧ (getState
          { demoStore [.func 4, .func 1] with currentState := num 2, currentListeners := 1 }).1
        = .ok (num 2) :=
  have h := listeners_called_after_last_commit demoEnv 9 0 (demoStore [.func 4, .func 1])
    incr incr { demoStore [.func 4, .func 1] with currentState := num 2, currentListeners := 1 }
    [.reducer 0 (.func 0) (num 0) incr, .listener 0 0 (.func 4) (num 1),
      .api 1 .listener .getState (.ok (num 1)), .reducer 1 (.func 0) (num 1) incr,
      .listener 1 0 (.func 4) (num 2), .api 2 .listener .getState (.ok (num 2)),
      .listener 1 1 (.func 1) (num 2), .api 2 .listener .getState (.ok (num 2)),
      .api 1 .listener (.dispatch incr) (.ok incr), .listener 0 1 (.func 1) (num 2),
      .api 1 .listener .getState (.ok (num 2))]
    0 (.func 4)
    (wf_regCalls [.subscribe (.func 4), .subscribe (.func 1)] _ (wf_init _ _))
    (by decide) (by decide) (by simp [NestedOk]) (by decide)
  ⟨h.1, congrArg Prod.fst h.2⟩

/-- C11, the code at the failing input: with the listeners `8` (throws when it reads `2`)
and `4` (dispatches when it reads `1` and catches the fault), `dispatch(INCREMENT)` from
state `0` returns the action, with state `2` and both subscriptions live; the round of the
nested dispatch was cut short by the fault of listener `8`, so listener `4` has been
entered once, in state `1`, before the commit of `2`, and never in the state the caller
reads after the call. -/
theorem dispatch_returns_with_stale_listener :
    exec cutEnv 9 0 (.api (.dispatch incr)) (demoStore [.func 8, .func 4])
        = some (.ok incr,
            { demoStore [.func 8, .func 4] with currentState := num 2, currentListeners := 1 },
            [.reducer 0 (.func 0) (num 0) incr,
             .listener 0 0 (.func 8) (num 1), .api 1 .listener .getState (.ok (num 1)),
             .listener 0 1 (.func 4) (num 1), .api 1 .listener .getState (.ok (num 1)),
             .reducer 1 (.func 0) (num 1) incr,
             .listener 1 0 (.func 8) (num 2), .api 2 .listener .getState (.ok (num 2)),
             .api 1 .listener (.dispatch incr) (.error (.user 3))])
      ∧ (demoStore [.func 8, .func 4]).subs = [(.func 8, true), (.func 4, true)]
      ∧ getState
          { demoStore [.func 8, .func 4] with currentState := num 2, currentListeners := 1 }
        = (.ok (num 2),
            { demoStore [.func 8, .func 4] with currentState := num 2, currentListeners := 1 })
      ∧ ¬ Settled (.func 4) (num 2)
          [.reducer 0 (.func 0) (num 0) incr,
           .listener 0 0 (.func 8) (num 1), .api 1 .listener .getState (.ok (num 1)),
           .listener 0 1 (.func 4) (num 1), .api 1 .listener .getState (.ok (num 1)),
           .reducer 1 (.func 0) (num 1) incr,
           .listener 1 0 (.func 8) (num 2), .api 2 .listener .getState (.ok (num 2)),
           .api 1 .listener (.dispatch incr) (.error (.user 3))] := by
  refine ⟨by decide, by decide, by decide, ?_⟩
  rintro ⟨pre, post, hsplit, _, d, i, hmem⟩
  have hin := List.mem_append_right pre hmem
  rw [← hsplit] at hin
  simp [num] at hin

/-- C12: `replaceReducer(g)` with `g` not callable fails with InvalidArgumentType in any
store and changes nothing. With `f` callable, in an idle store of `createStore`, when `f`
returns `s` on the previous state and the REPLACE action and the round returns:
`replaceReducer(f)` returns; the one reducer call it reports is that of `f` on the previous
state and REPLACE; its round calls the registry, one call per live subscription; `s` is
committed, and is the state afterwards when no listener dispatches; `f` is the active
reducer afterwards when user code has not replaced it again meanwhile. -/
theorem replaceReducer_dispatches_replace (env : Env) (n1 n2 d : Nat) (st : Store)
    (f s : Value) (st2 : Store) (ev1 : List Event) (v : Value) (st5 : Store) (ev2 : List Event)
    (hwf : WF st) (hidle : st.isDispatching = false) (hf : typeofFunction f = true)
    (hred : exec env n1 (d + 1)
      (.run .reducer (callFn env f [st.currentState, replaceAction env]))
      { st with currentReducer := f, isDispatching := true } = some (.ok s, st2, ev1))
    (hround : exec env n2 d (.notify st2.nextListeners 0) (commit st2 s)
      = some (.ok v, st5, ev2)) :
    (∀ (g : Value) (n : Nat) (st0 : Store), typeofFunction g = false →
        exec env (n + 1) d (.api (.replaceReducer g)) st0
          = some (.error .invalidArgumentType, st0, []))
      ∧ (∀ m, max n1 n2 + 1 < m → exec env m d (.api (.replaceReducer f)) st
          = some (.ok undef, st5, .reducer d f st.currentState (replaceAction env) :: ev1 ++ ev2))
      ∧ reducerCalls d (.reducer d f st.currentState (replaceAction env) :: ev1 ++ ev2)
          = [(f, st.currentState, replaceAction env)]
      ∧ listenerCalls d (.reducer d f st.currentState (replaceAction env) :: ev1 ++ ev2)
          = st.pending
      ∧ st.pending.Perm st.live
      ∧ (commit st2 s).currentState = s
      ∧ ((∀ e ∈ ev2, e.isReducer = false) → st5.currentState = s)
      ∧ ((∀ e ∈ ev1 ++ ev2, e.isReplace = false) → st5.currentReducer = f) := by
  have hr1 := exec_run env _ _ _ _ _ _ _ hred
  have hr2 := exec_run env _ _ _ _ _ _ _ hround
  have hdisp := exec_dispatch_commit_ge env n1 n2 d { st with currentReducer := f }
    (replaceAction env) s st2 ev1 (.ok v) st5 ev2 hidle (validAction_replaceAction env) hred hround
  have hrun := exec_run env _ _ _ _ _ _ _ (hdisp (max n1 n2 + 1) (Nat.lt_succ_self _))
  refine ⟨?_, ?_, ?_, ?_, hwf.2.2.1, rfl, ?_, ?_⟩
  · intro g n st0 hg
    simp [exec, step, replaceReducer, hg]
  · intro m hm
    obtain ⟨m', rfl⟩ : ∃ m', m = m' + 1 := ⟨m - 1, by omega⟩
    have := exec_replaceReducer env m' d f st _ _ _ hf (hdisp m' (by omega))
    simpa [Outcome.returning] using this
  · have e1 := reducerCalls_deeper d ev1 (run_depth hr1)
    have e2 := notify_reducerCalls hr2 _ _ rfl
    have := reducerCalls_append d
      ([Event.reducer d f st.currentState (replaceAction env)] ++ ev1) ev2
    simp only [List.singleton_append] at this
    rw [this, e2]
    have := reducerCalls_append d [Event.reducer d f st.currentState (replaceAction env)] ev1
    simp only [List.singleton_append] at this
    rw [this, e1]
    simp [reducerCalls]
  · exact @dispatch_listenerCalls _ _ _ { st with currentReducer := f } _ _ _ hrun hwf ⟨_, rfl⟩
  · intro hno
    exact run_state hr2 hno
  · intro hno
    have h2 := run_reducer hr2 (fun _ h => by cases h) (fun e he => hno e (by simp [he]))
    have h1 := run_reducer hr1 (fun _ h => by cases h) (fun e he => hno e (by simp [he]))
    rw [h2]
    exact h1

/-- C12 on the store of `swapEnv` with one listener: `replaceReducer(f9)` runs `f9` on the
state `0` and REPLACE, calls the listener once and leaves `f9` active; `replaceReducer(3)`
fails. -/
theorem replaceReducer_dispatches_replace_witness :
    exec swapEnv 1 0 (.api (.replaceReducer (num 3))) (demoStore [.func 1])
        = some (.error .invalidArgumentType, demoStore [.func 1], [])
      ∧ exec swapEnv 4 0 (.api (.replaceReducer (.func 9))) (demoStore [.func 1])
        = some (.ok undef,
            { demoStore [.func 1] with currentReducer := .func 9, currentListeners := 1 },
            .reducer 0 (.func 9) (num 0) (replaceAction swapEnv) :: [] ++
              [.listener 0 0 (.func 1) (num 0)])
      ∧ listenerCalls 0 (.reducer 0 (.func 9) (num 0) (replaceAction swapEnv) :: [] ++
              [.listener 0 0 (.func 1) (num 0)]) = (demoStore [.func 1]).pending :=
  have h := replaceReducer_dispatches_replace swapEnv 1 2 0 (demoStore [.func 1]) (.func 9)
    (num 0) { demoStore [.func 1] with currentReducer := .func 9, isDispatching := true } []
    undef { demoStore [.func 1] with currentReducer := .func 9, currentListeners := 1 }
    [.listener 0 0 (.func 1) (num 0)]
    (wf_regCalls [.subscribe (.func 1)] _ (wf_init _ _)) (by decide) (by decide) (by decide)
    (by decide)
  ⟨h.1 (num 3) 0 _ (by decide), h.2.1 4 (by decide), h.2.2.2.1⟩

/-- C13: `createStore(r, p)` with `r` callable, `p` not callable (so that it is not taken
for an enhancer; `p` may be `undefined`) and no enhancer, when `r` returns `s` on `p` and
the INIT action: the call returns a plain store, the only reducer call reported is that of
`r` on `(p, INIT)`, `getState()` of the store returns `s`, its registry is empty, no
subscription exists and the flag is released. In the scenario of the specification the
initial state is `0` and two `INCREMENT` dispatches give `2`. -/
theorem createStore_initial_state (env : Env) (enh : Nat → Enhancer) (n : Nat) (r p s : Value)
    (st2 : Store) (ev1 : List Event)
    (hr : typeofFunction r = true) (hp : typeofFunction p = false)
    (hred : exec env n 1 (.run .reducer (callFn env r [p, initAction env]))
      { Store.init r p with isDispatching := true } = some (.ok s, st2, ev1)) :
    (∀ m, max n 1 + 1 < m → createStore env enh m r p undef
        = some (.ok { store := Store.init st2.currentReducer s, cell := .raw, dispatch := .raw },
            [.raw (initAction env) (.ok (initAction env))
              (.reducer 0 r p (initAction env) :: ev1 ++ [])]))
      ∧ reducerCalls 0 (.reducer 0 r p (initAction env) :: ev1 ++ []) = [(r, p, initAction env)]
      ∧ getState (Store.init st2.currentReducer s) = (.ok s, Store.init st2.currentReducer s)
      ∧ (Store.init st2.currentReducer s).pending = []
      ∧ (Store.init st2.currentReducer s).subs = []
      ∧ (Store.init st2.currentReducer s).isDispatching = false
      ∧ ((∀ e ∈ ev1, e.isReplace = false) → st2.currentReducer = r)
      ∧ createStore counterEnv demoEnh 3 (.func 0) undef undef
          = some (.ok { store := Store.init (.func 0) (num 0), cell := .raw, dispatch := .raw },
              [.raw (initAction counterEnv) (.ok (initAction counterEnv))
                [.reducer 0 (.func 0) undef (initAction counterEnv)]])
      ∧ exec counterEnv 2 0 (.api (.dispatch incr)) (Store.init (.func 0) (num 0))
          = some (.ok incr, Store.init (.func 0) (num 1), [.reducer 0 (.func 0) (num 0) incr])
      ∧ exec counterEnv 2 0 (.api (.dispatch incr)) (Store.init (.func 0) (num 1))
          = some (.ok incr, Store.init (.func 0) (num 2), [.reducer 0 (.func 0) (num 1) incr])
      ∧ getState (Store.init (.func 0) (num 2)) = (.ok (num 2), Store.init (.func 0) (num 2)) := by
  have hr1 := exec_run env _ _ _ _ _ _ _ hred
  refine ⟨?_, ?_, rfl, rfl, rfl, rfl, ?_, by decide, by decide, by decide, by decide⟩
  · intro m hm
    obtain ⟨m', rfl⟩ : ∃ m', m = m' + 1 := ⟨m - 1, by omega⟩
    rw [createStore_plain env enh m' r p hr hp,
      exec_init env n r p s st2 ev1 hred m' (by omega)]
  · have e1 := reducerCalls_deeper 0 ev1 (run_depth hr1)
    have := reducerCalls_append 0 [Event.reducer 0 r p (initAction env)] ev1
    simp only [List.singleton_append] at this
    rw [List.append_nil, this, e1]
    simp [reducerCalls]
  · intro hno
    exact run_reducer hr1 (fun _ h => by cases h) hno

/-- C13 on the scenario of the specification: `createStore(counter)` with no preloaded
state. -/
theorem createStore_initial_state_witness :
    createStore counterEnv demoEnh 3 (.func 0) undef undef
        = some (.ok { store := Store.init (.func 0) (num 0), cell := .raw, dispatch := .raw },
            [.raw (initAction counterEnv) (.ok (initAction counterEnv))
              (.reducer 0 (.func 0) undef (initAction counterEnv) :: [] ++ [])])
      ∧ getState (Store.init (.func 0) (num 0)) = (.ok (num 0), Store.init (.func 0) (num 0)) :=
  have h := createStore_initial_state counterEnv demoEnh 1 (.func 0) undef (num 0)
    { Store.init (.func 0) undef with isDispatching := true } []
    (by decide) (by decide) (by decide)
  ⟨h.1 3 (by decide), h.2.2.1⟩

/-- C14: a callable second argument with no third argument is the enhancer, and the call
is the call `createStore(r, undefined, x)`; with a callable enhancer `e` the call is the
call `e(createStore)(r, p)`, its result returned as it is: no store variables are created
and no INIT action is dispatched by this call. For a user function the call is the meaning
of that enhancer applied to `createStore` itself. -/
theorem createStore_enhancer_delegates (env : Env) (enh : Nat → Enhancer) (n : Nat)
    (r x p e : Value) :
    (typeofFunction x = true →
        createStore env enh n r x undef = createStore env enh n r undef x)
      ∧ (typeofFunction e = true →
          createStore env enh (n + 1) r p e
            = applyEnhancer enh e n (createStore env enh n) r p)
      ∧ ∀ id, createStore env enh (n + 1) r p (.func id)
          = enh id n (createStore env enh n) r p := by
  have hsecond : ∀ e', typeofFunction e' = true →
      createStore env enh (n + 1) r p e' = applyEnhancer enh e' n (createStore env enh n) r p := by
    intro e' he
    have hu : typeofUndefined e' = false := by
      cases e' with
      | prim q => cases he
      | func id => rfl
      | unsub k => rfl
      | obj pl fs => cases he
    simp [createStore, he, hu]
  refine ⟨?_, hsecond e, ?_⟩
  · intro hx
    cases n with
    | zero => rfl
    | succ n =>
      have hu : typeofUndefined x = false := by
        cases x with
        | prim q => cases hx
        | func id => rfl
        | unsub k => rfl
        | obj pl fs => cases hx
      have h1 : typeofUndefined undef = true := rfl
      have h2 : typeofFunction undef = false := rfl
      simp [createStore, hx, hu, h1, h2]
  · intro id
    rw [hsecond (.func id) rfl]
    rfl

/-- C14 on the demo enhancers: `createStore(f0, f2)` is `createStore(f0, undefined, f2)`,
which is `applyMiddleware(A, B)` applied to `createStore`. -/
theorem createStore_enhancer_delegates_witness :
    createStore demoEnv demoEnh 5 (.func 0) (.func 2) undef
        = createStore demoEnv demoEnh 5 (.func 0) undef (.func 2)
      ∧ createStore demoEnv demoEnh 5 (.func 0) undef (.func 2)
        = applyEnhancer demoEnh (.func 2) 4 (createStore demoEnv demoEnh 4) (.func 0) undef :=
  have h := createStore_enhancer_delegates demoEnv demoEnh 4 (.func 0) (.func 2) undef (.func 2)
  ⟨(createStore_enhancer_delegates demoEnv demoEnh 5 (.func 0) (.func 2) undef (.func 2)).1
      (by decide), h.2.1 (by decide)⟩

/-- C15, the claim as stated fails: with the callable enhancer `1`, which passes reducer `0`
to `createStore`, the call `createStore(42, undefined, e1)` returns a store although `42`
is not callable: the reducer is checked (line 51) only when there is no enhancer. -/
theorem createStore_reducer_unchecked_with_enhancer :
    typeofFunction (num 42) = false
      ∧ createStore demoEnv demoEnh 4 (num 42) undef (.func 1)
        = some (.ok { store := Store.init (.func 0) (num 0), cell := .raw, dispatch := .raw },
            [.raw (initAction demoEnv) (.ok (initAction demoEnv))
              [.reducer 0 (.func 0) undef (initAction demoEnv)]]) := by
  decide

/-- C15, amended: `createStore` fails with InvalidArgumentType when the enhancer is present
but not callable, and when no enhancer is present (none is given and the preloaded state is
not callable) and the reducer is not callable. -/
theorem createStore_argument_faults (env : Env) (enh : Nat → Enhancer) (n : Nat)
    (r p e : Value) :
    (typeofUndefined e = false → typeofFunction e = false →
        createStore env enh (n + 1) r p e = some (.error .invalidArgumentType, []))
      ∧ (typeofUndefined e = true → typeofFunction p = false → typeofFunction r = false →
          createStore env enh (n + 1) r p e = some (.error .invalidArgumentType, [])) := by
  refine ⟨?_, ?_⟩
  · intro hu hf
    simp [createStore, hu, hf]
  · intro hu hp hr
    simp [createStore, hu, hp, hr]

/-- C15 amended, on the demo application: the enhancer `7` (a number), and the reducer `42`
with no enhancer. -/
theorem createStore_argument_faults_witness :
    createStore demoEnv demoEnh 1 (.func 0) undef (num 7) = some (.error .invalidArgumentType, [])
      ∧ createStore demoEnv demoEnh 1 (num 42) undef undef
        = some (.error .invalidArgumentType, []) :=
  have h := createStore_argument_faults demoEnv demoEnh 0
  ⟨(h (.func 0) undef (num 7)).1 (by decide) (by decide),
    (h (num 42) undef undef).2 (by decide) (by decide) (by decide)⟩

/-- C16: while `applyMiddleware(...mws)` constructs a store (the base constructor has
returned `base`, the cell holds the guard), a call of the capabilities' `dispatch` by
middleware code is the call of the guard: its outcome is ReentrantConstructionError, it
reports nothing and the state (the base store with it) is the one before the call, and the
code goes on with that fault; code that does not catch it ends with it. Every `dispatch`
call reported by the factories and by the layers being wired has that outcome, and a fault
that a factory or a layer ends with is how the enhanced constructor ends. -/
theorem dispatch_during_construction_rejected (env : Env) (mws : List Middleware) (fuel : Nat)
    (create : Constructor) (r p : Value) (base : Container) (ev0 : List CEvent)
    (res : Built) (ev : List CEvent)
    (hbase : create r p undef = some (.ok base, ev0))
    (hrun : applyMiddleware env mws fuel create r p = some (res, ev)) :
    (∀ n a st, mexec env mws (n + 1) (.call .guard a) st
        = some (.error .reentrantConstruction, st, []))
      ∧ (∀ n i nxt a k st, st.cell = .guard →
          mexec env mws (n + 2) (.run i nxt (.call (.dispatch a) k)) st
            = match mexec env mws (n + 1) (.run i nxt (k (.error .reentrantConstruction))) st with
              | none => none
              | some (r2, st2, ev2) =>
                some (r2, st2, .call i (.dispatch a) (.error .reentrantConstruction) :: ev2))
      ∧ (∀ n i nxt a st, st.cell = .guard →
          mexec env mws (n + 2) (.run i nxt (.call (.dispatch a) MProg.pass)) st
            = some (.error .reentrantConstruction, st,
                [.call i (.dispatch a) (.error .reentrantConstruction)]))
      ∧ (∃ evc, ev = ev0 ++ evc ∧
          ∀ i a out, CEvent.call i (.dispatch a) out ∈ evc →
            out = .error .reentrantConstruction)
      ∧ (∀ e st1 ev1,
          runFactories env mws fuel 0 mws { store := base.store, cell := .guard }
            = some (.error e, st1, ev1) → res = .error e ∧ ev = ev0 ++ ev1)
      ∧ (∀ v st1 ev1 e st2 ev2,
          runFactories env mws fuel 0 mws { store := base.store, cell := .guard }
            = some (.ok v, st1, ev1) →
          compose ((List.range mws.length).map (layerOf env mws fuel)) base.dispatch st1
            = some (.error e, st2, ev2) → res = .error e ∧ ev = ev0 ++ ev1 ++ ev2) := by
  have hcall : ∀ n i nxt a k st, st.cell = .guard →
      mexec env mws (n + 2) (.run i nxt (.call (.dispatch a) k)) st
        = match mexec env mws (n + 1) (.run i nxt (k (.error .reentrantConstruction))) st with
          | none => none
          | some (r2, st2, ev2) =>
            some (r2, st2, .call i (.dispatch a) (.error .reentrantConstruction) :: ev2) := by
    intro n i nxt a k st hg
    rw [mexec_api_dispatch, hg]
    simp only [mexec, List.nil_append]
  refine ⟨fun _ _ _ => rfl, hcall, ?_, ?_, ?_, ?_⟩
  · intro n i nxt a st hg
    rw [hcall n i nxt a _ st hg]
    rfl
  · obtain ⟨b, ev0', hb, _, hok⟩ := applyMiddleware_inv env mws fuel create r p res ev hrun
    rw [hbase] at hb
    simp only [Option.some.injEq, Prod.mk.injEq] at hb
    obtain ⟨hb1, hb2⟩ := hb
    obtain ⟨evc, hev, hall, _⟩ := hok base hb1.symm
    exact ⟨evc, by rw [hb2]; exact hev, hall⟩
  · intro e st1 ev1 h1
    simp only [applyMiddleware, hbase, h1, Option.some.injEq, Prod.mk.injEq] at hrun
    exact ⟨hrun.1.symm, hrun.2.symm⟩
  · intro v st1 ev1 e st2 ev2 h1 h2
    simp only [applyMiddleware, hbase, h1, h2, Option.some.injEq, Prod.mk.injEq] at hrun
    exact ⟨hrun.1.symm, hrun.2.symm⟩

/-- C16 on `applyMiddleware(E)`, whose factory calls `dispatch(INCREMENT)` at once: the
call gets the guard's fault, the state stays `0`, and `createStore(f0, undefined, e3)`
fails with that fault. -/
theorem dispatch_during_construction_rejected_witness :
    createStore demoEnv demoEnh 5 (.func 0) undef undef
        = some (.ok { store := Store.init (.func 0) (num 0), cell := .raw, dispatch := .raw },
            [.raw (initAction demoEnv) (.ok (initAction demoEnv))
              [.reducer 0 (.func 0) undef (initAction demoEnv)]])
      ∧ createStore demoEnv demoEnh 6 (.func 0) undef (.func 3)
        = some (.error .reentrantConstruction,
            [.raw (initAction demoEnv) (.ok (initAction demoEnv))
              [.reducer 0 (.func 0) undef (initAction demoEnv)],
             .call 0 (.dispatch incr) (.error .reentrantConstruction)])
      ∧ mexec demoEnv [eager incr] 2 (.run 0 none (.call (.dispatch incr) MProg.pass))
          { store := Store.init (.func 0) (num 0), cell := .guard }
        = some (.error .reentrantConstruction,
            { store := Store.init (.func 0) (num 0), cell := .guard },
            [.call 0 (.dispatch incr) (.error .reentrantConstruction)]) :=
  ⟨by decide, by decide,
    (dispatch_during_construction_rejected demoEnv [eager incr] 5
      (createStore demoEnv demoEnh 5) (.func 0) undef
      { store := Store.init (.func 0) (num 0), cell := .raw, dispatch := .raw }
      [.raw (initAction demoEnv) (.ok (initAction demoEnv))
        [.reducer 0 (.func 0) undef (initAction demoEnv)]]
      (.error .reentrantConstruction)
      [.raw (initAction demoEnv) (.ok (initAction demoEnv))
        [.reducer 0 (.func 0) undef (initAction demoEnv)],
       .call 0 (.dispatch incr) (.error .reentrantConstruction)]
      (by decide) (by decide)).2.2.1 0 0 none incr
      { store := Store.init (.func 0) (num 0), cell := .guard } rfl⟩

/-- C17: when `applyMiddleware(...mws)` has returned a container, the cell holds the very
function that is the container's `dispatch`, the chain `L1(L2(...Ln(base.dispatch)))` of
all layers around the dispatch of the base store; no code run by the engine writes the
cell again; and in every state with that cell a call of the capabilities' `dispatch` by
any middleware code, with any argument, is the call of the container's `dispatch` with
that argument, the code going on with its outcome. With at least one middleware that
function is the handler of the first layer. -/
theorem capabilities_dispatch_is_final (env : Env) (mws : List Middleware) (fuel : Nat)
    (create : Constructor) (r p : Value) (c : Container) (ev : List CEvent)
    (h : applyMiddleware env mws fuel create r p = some (.ok c, ev)) :
    c.cell = c.dispatch
      ∧ (∃ base ev0, create r p undef = some (.ok base, ev0) ∧
          c.dispatch = chainFrom 0 mws.length base.dispatch)
      ∧ (∀ n i nxt a k st, st.cell = c.cell →
          mexec env mws (n + 1) (.run i nxt (.call (.dispatch a) k)) st
            = match mexec env mws n (.call c.dispatch a) st with
              | none => none
              | some (r1, st1, ev1) =>
                match mexec env mws n (.run i nxt (k r1)) st1 with
                | none => none
                | some (r2, st2, ev2) => some (r2, st2, ev1 ++ .call i (.dispatch a) r1 :: ev2))
      ∧ (∀ n t st r1 st1 ev1, st.cell = c.cell →
          mexec env mws n t st = some (r1, st1, ev1) → st1.cell = c.cell)
      ∧ (∀ m ms, mws = m :: ms → ∃ nxt, c.dispatch = .layer 0 nxt) := by
  obtain ⟨b, ev0, hb, herr, hok⟩ := applyMiddleware_inv env mws fuel create r p _ ev h
  cases b with
  | error e => exact absurd (herr e rfl).1 (by intro hc; cases hc)
  | ok base =>
    obtain ⟨_, _, _, hc⟩ := hok base rfl
    obtain ⟨hcell, hchain⟩ := hc c rfl
    refine ⟨hcell, ⟨base, ev0, hb, hchain⟩, ?_, ?_, ?_⟩
    · intro n i nxt a k st hst
      rw [mexec_api_dispatch, hst, hcell]
    · intro n t st r1 st1 ev1 hst hrun
      rw [mexec_cell env mws n t st r1 st1 ev1 hrun, hst]
    · intro m ms hm
      rw [hchain, hm]
      exact ⟨_, rfl⟩

/-- C17 on `applyMiddleware(A, R)`: the container's dispatch is `A(R(raw))`, and when `R`
re-enters through the capabilities on `SWAP`, the action `INCREMENT` it sends passes the
logger `A` again before it reaches the raw dispatch. -/
theorem capabilities_dispatch_is_final_witness :
    applyMiddleware demoEnv [logger (str "A-before") (str "A-after"), redispatch swap incr] 5
        (createStore demoEnv demoEnh 5) (.func 0) undef
        = some (.ok { store := Store.init (.func 0) (num 0),
                      cell := .layer 0 (.layer 1 .raw), dispatch := .layer 0 (.layer 1 .raw) },
            [.raw (initAction demoEnv) (.ok (initAction demoEnv))
              [.reducer 0 (.func 0) undef (initAction demoEnv)]])
      ∧ (∃ base ev0, createStore demoEnv demoEnh 5 (.func 0) undef undef = some (.ok base, ev0) ∧
          DFn.layer 0 (.layer 1 .raw) = chainFrom 0 2 base.dispatch)
      ∧ (mexec demoEnv [logger (str "A-before") (str "A-after"), redispatch swap incr] 14
          (.call (.layer 0 (.layer 1 .raw)) swap)
          { store := Store.init (.func 0) (num 0), cell := .layer 0 (.layer 1 .raw) }).map
            (fun x => (x.1, x.2.1.store.currentState, marks x.2.2))
        = some (.ok swap, num 1,
            [some (str "A-before"), some (str "A-before"), none, some (str "A-after"),
             none, some (str "A-after")]) :=
  ⟨by decide,
    (capabilities_dispatch_is_final demoEnv
      [logger (str "A-before") (str "A-after"), redispatch swap incr] 5
      (createStore demoEnv demoEnh 5) (.func 0) undef
      { store := Store.init (.func 0) (num 0),
        cell := .layer 0 (.layer 1 .raw), dispatch := .layer 0 (.layer 1 .raw) }
      [.raw (initAction demoEnv) (.ok (initAction demoEnv))
        [.reducer 0 (.func 0) undef (initAction demoEnv)]]
      (by decide)).2.1,
    by decide⟩

/-- C18: for the loggers `M1..Mn` with the tags `(before_i, after_i)` and `compose` as the
specification defines it, `applyMiddleware(M1, ..., Mn)` around a plain store returns a
container whose dispatch is the chain `L1(...Ln(raw))`; one call of it with an action on
which the raw dispatch returns `v`, with enough fuel, returns `v` in the state the raw
dispatch leaves, and what it reports has exactly the marks `before_1, ..., before_n`, the
raw dispatch (once), `after_n, ..., after_1`. -/
theorem middleware_onion_order (env : Env) (tags : List (Value × Value)) (a v : Value)
    (st : MState) (store1 : Store) (ev : List Event) (m : Nat)
    (hbase : exec env m 0 (.api (.dispatch a)) st.store = some (.ok v, store1, ev)) :
    (∀ F, 3 * tags.length + m + 1 ≤ F →
        mexec env (tags.map (fun t => logger t.1 t.2)) F
            (.call (chainFrom 0 tags.length .raw) a) st
          = some (.ok v, { st with store := store1 }, onionTrace a v ev 0 tags))
      ∧ marks (onionTrace a v ev 0 tags)
          = tags.map (fun t => some t.1) ++ none :: tags.reverse.map (fun t => some t.2)
      ∧ (marks (onionTrace a v ev 0 tags)).count none = 1
      ∧ (∀ fuel create r p base ev0 c evc, create r p undef = some (.ok base, ev0) →
          base.dispatch = .raw →
          applyMiddleware env (tags.map (fun t => logger t.1 t.2)) fuel create r p
            = some (.ok c, evc) →
          c.dispatch = chainFrom 0 tags.length .raw) := by
  refine ⟨?_, marks_onionTrace a v ev tags 0, ?_, ?_⟩
  · intro F hF
    refine onion_chain env _ a v st store1 ev m hbase tags 0 F ?_ hF
    intro idx t ht
    simp [List.getElem?_map, ht]
  · rw [marks_onionTrace]
    have hz : ∀ (f : Value × Value → Value) (l : List (Value × Value)),
        (l.map (fun t => some (f t))).count none = 0 := by
      intro f l
      rw [List.count_eq_zero]
      intro hmem
      obtain ⟨_, _, h⟩ := List.mem_map.1 hmem
      cases h
    rw [List.count_append, List.count_cons, hz (fun t => t.1), hz (fun t => t.2)]
    simp
  · intro fuel create r p base ev0 c evc hb hraw hrun
    obtain ⟨b, ev0', hb', _, hok⟩ := applyMiddleware_inv env _ fuel create r p _ evc hrun
    rw [hb] at hb'
    simp only [Option.some.injEq, Prod.mk.injEq] at hb'
    obtain ⟨_, _, _, hc⟩ := hok base hb'.1.symm
    have := (hc c rfl).2
    rw [this, hraw, List.length_map]

/-- C18 on `[A, B]`: `createStore(f0, undefined, applyMiddleware(A, B))` returns a
container with the dispatch `A(B(raw))`, and dispatching `INCREMENT` on it in state `0`
reports `A-before, B-before`, the raw dispatch, `B-after, A-after`, returns the action and
leaves state `1`. -/
theorem middleware_onion_order_witness :
    createStore demoEnv demoEnh 6 (.func 0) undef (.func 2)
        = some (.ok { store := Store.init (.func 0) (num 0),
                      cell := .layer 0 (.layer 1 .raw), dispatch := .layer 0 (.layer 1 .raw) },
            [.raw (initAction demoEnv) (.ok (initAction demoEnv))
              [.reducer 0 (.func 0) undef (initAction demoEnv)]])
      ∧ mexec demoEnv [logger (str "A-before") (str "A-after"),
            logger (str "B-before") (str "B-after")] 9
          (.call (.layer 0 (.layer 1 .raw)) incr)
          { store := Store.init (.func 0) (num 0), cell := .layer 0 (.layer 1 .raw) }
        = some (.ok incr,
            { store := Store.init (.func 0) (num 1), cell := .layer 0 (.layer 1 .raw) },
            [.call 0 (.log (str "A-before")) (.ok undef),
             .call 1 (.log (str "B-before")) (.ok undef),
             .raw incr (.ok incr) [.reducer 0 (.func 0) (num 0) incr],
             .call 1 (.next incr) (.ok incr),
             .call 1 (.log (str "B-after")) (.ok undef),
             .call 0 (.next incr) (.ok incr),
             .call 0 (.log (str "A-after")) (.ok undef)])
      ∧ marks (onionTrace incr incr [.reducer 0 (.func 0) (num 0) incr] 0
            [(str "A-before", str "A-after"), (str "B-before", str "B-after")])
        = [some (str "A-before"), some (str "B-before"), none, some (str "B-after"),
           some (str "A-after")] :=
  have h := middleware_onion_order demoEnv
    [(str "A-before", str "A-after"), (str "B-before", str "B-after")] incr incr
    { store := Store.init (.func 0) (num 0), cell := .layer 0 (.layer 1 .raw) }
    (Store.init (.func 0) (num 1)) [.reducer 0 (.func 0) (num 0) incr] 2 (by decide)
  ⟨by decide, h.1 9 (by decide), h.2.1⟩

/-- C19, the code at the failing input: with the flag set, `replaceReducer(f9)` fails with
ReentrantDispatchError and leaves `f9` as the active reducer instead of reducer `0`; and
after `dispatch(SWAP)`, during which reducer `0` made that call, the active reducer is
`f9`. -/
theorem replaceReducer_inside_reducer_swaps :
    exec swapEnv 2 0 (.api (.replaceReducer (.func 9)))
        { Store.init (.func 0) (num 0) with isDispatching := true }
      = some (.error .reentrantDispatch,
          { Store.init (.func 0) (num 0) with isDispatching := true, currentReducer := .func 9 },
          [])
    ∧ (exec swapEnv 4 0 (.api (.dispatch swap)) (Store.init (.func 0) (num 0))).map
        (fun x => (x.1, x.2.1.currentReducer, x.2.1.currentState, x.2.2))
      = some (.ok swap, .func 9, num 0,
          [.reducer 0 (.func 0) (num 0) swap,
            .api 1 .reducer (.replaceReducer (.func 9)) (.error .reentrantDispatch)]) := by
  decide

/-- C20, the claim as stated fails: on the demo store with the listeners `5` (which throws)
and `1`, `dispatch(INCREMENT)` from state `0` fails with the fault of listener `5`; the
state has been committed (`1`), listener `5` of the snapshot has been invoked and listener
`1` of the snapshot has not. -/
theorem dispatch_listener_fault_is_partial :
    (demoStore [.func 5, .func 1]).currentState = num 0
      ∧ (demoStore [.func 5, .func 1]).pending = [.func 5, .func 1]
      ∧ (exec demoEnv 3 0 (.api (.dispatch incr)) (demoStore [.func 5, .func 1])).map
          (fun x => (x.1, x.2.1.currentState, listenerCalls 0 x.2.2))
        = some (.error (.user 2), num 1, [.func 5]) := by
  decide

/-- C20, as amended: every `dispatch(a)` call that ends, in a store of `createStore`, ends
in one of three ways. It failed in validation (invalid action, or reducer executing): the
store is unchanged and nothing is reported. Or the reducer faulted: the call fails with
that fault, nothing but possibly `currentReducer` has changed, and no listener has been
invoked. Or the reducer returned `s`: `s` was committed as the state the round started in
(and is the state afterwards when no listener dispatched); if the round returned, the call
returns `a` and every listener of the snapshot has been invoked, in order; if a listener
faulted, the call fails with that fault and the listeners of the snapshot up to and
including the faulting one have been invoked, the others not. -/
theorem dispatch_ends (env : Env) (n d : Nat) (a : Value) (st st' : Store) (r : Outcome)
    (ev : List Event) (hwf : WF st)
    (hrun : exec env n d (.api (.dispatch a)) st = some (r, st', ev)) :
    ((validAction a = false ∨ st.isDispatching = true) ∧ (∃ e, r = .error e) ∧ st' = st
        ∧ ev = [])
      ∨ (∃ e st2 ev1,
          Run env (d + 1) (.run .reducer (callFn env st.currentReducer [st.currentState, a]))
            { st with isDispatching := true } (.error e) st2 ev1
          ∧ r = .error e ∧ st' = { st with currentReducer := st2.currentReducer }
          ∧ st'.currentState = st.currentState ∧ ∀ x ∈ ev, x.isListener = false)
      ∨ (∃ s st2 ev1 r' ev2,
          Run env (d + 1) (.run .reducer (callFn env st.currentReducer [st.currentState, a]))
            { st with isDispatching := true } (.ok s) st2 ev1
          ∧ Run env d (.notify st2.nextListeners 0) (commit st2 s) r' st' ev2
          ∧ ev = .reducer d st.currentReducer st.currentState a :: ev1 ++ ev2
          ∧ (commit st2 s).currentState = s
          ∧ ((∀ x ∈ ev2, x.isReducer = false) → st'.currentState = s)
          ∧ ((∃ v, r' = .ok v) → r = .ok a ∧ listenerCalls d ev = st.pending)
          ∧ (∀ e, r' = .error e → r = .error e ∧
              ∃ j, j < st.pending.length ∧ listenerCalls d ev = st.pending.take (j + 1))) := by
  have hr := exec_run env _ _ _ _ _ _ _ hrun
  cases hr with
  | dispatchInvalid _ _ _ hv => exact Or.inl ⟨Or.inl hv, ⟨_, rfl⟩, rfl, rfl⟩
  | dispatchReentrant _ _ _ hv hd => exact Or.inl ⟨Or.inr hd, ⟨_, rfl⟩, rfl, rfl⟩
  | dispatchFault _ _ _ e st2 ev1 hv hd h1 =>
    have hst2 := run_dispatching h1 rfl
    refine Or.inr (Or.inl ⟨e, st2, ev1, h1, rfl, ?_, ?_, ?_⟩)
    · rw [hst2]; simp [hd]
    · show st2.currentState = st.currentState
      rw [hst2]
    · intro x hx
      rcases List.mem_cons.1 hx with rfl | hx
      · rfl
      · exact (run_dispatching_events h1 rfl (fun _ _ h => by cases h) x hx).2
  | dispatchCommit _ _ _ s st2 ev1 r' _ ev2 hv hd h1 h2 =>
    have hst2 := run_dispatching h1 rfl
    have hn : st2.nextListeners = st.nextListeners := by rw [hst2]
    have hh : st2.heap = st.heap := by rw [hst2]
    have hfr : Frozen st2.nextListeners (commit st2 s) :=
      ⟨by simp only [commit, hh, hn]; exact hwf.2.1, fun _ => rfl⟩
    have harr : (commit st2 s).array st2.nextListeners = st.pending := by
      simp [commit, Store.array, Store.pending, hh, hn]
    have hsplit := dispatch_listenerCalls_round h1
      (Event.reducer d st.currentReducer st.currentState a) rfl ev2
    refine Or.inr (Or.inr ⟨s, st2, ev1, r', ev2, h1, h2, rfl, rfl, ?_, ?_, ?_⟩)
    · intro hno
      exact run_state h2 hno
    · intro hok
      obtain ⟨v, rfl⟩ := hok
      refine ⟨rfl, ?_⟩
      rw [hsplit, notify_listenerCalls h2 _ _ rfl hfr ⟨v, rfl⟩, harr, List.drop_zero]
    · intro e he
      cases he
      refine ⟨rfl, ?_⟩
      obtain ⟨j, _, hj, hcalls⟩ := notify_listenerCalls_fault h2 _ _ rfl hfr ⟨e, rfl⟩
      rw [harr] at hj hcalls
      refine ⟨j, hj, ?_⟩
      rw [hsplit, hcalls, List.drop_zero, Nat.sub_zero]

/-- C20 as amended, on the demo store with the listeners `5` (which throws) and `1`: the
listeners invoked by the failing `dispatch(INCREMENT)` are a prefix of the snapshot that
ends with the faulting one. -/
theorem dispatch_ends_witness :
    ∃ j, j < (demoStore [.func 5, .func 1]).pending.length ∧
      listenerCalls 0 [.reducer 0 (.func 0) (num 0) incr, .listener 0 0 (.func 5) (num 1)]
        = (demoStore [.func 5, .func 1]).pending.take (j + 1) := by
  have h := dispatch_ends demoEnv 3 0 incr (demoStore [.func 5, .func 1])
    { demoStore [.func 5, .func 1] with currentState := num 1, currentListeners := 1 }
    (.error (.user 2))
    [.reducer 0 (.func 0) (num 0) incr, .listener 0 0 (.func 5) (num 1)]
    (wf_regCalls [.subscribe (.func 5), .subscribe (.func 1)] _ (wf_init _ _)) (by decide)
  rcases h with h | h | h
  · exact absurd h.2.2.1 (by decide)
  · obtain ⟨e, st2, ev1, _, _, _, hs, _⟩ := h
    exact absurd hs (by decide)
  · obtain ⟨s, st2, ev1, r', ev2, _, _, _, _, _, hok, herr⟩ := h
    cases r' with
    | ok v => exact absurd (hok ⟨v, rfl⟩).1 (by decide)
    | error e => exact (herr e rfl).2

end Redux
